import Mathlib

/-!
# rescene: the SRR block walker (`srr.go`, `rar.go`)

A shallow embedding of `SrrFile.Unmarshal` and of the block decoders it calls.

Conventions of the embedding.

* A Go `[]byte` and a Go `string` are both a `List UInt8`.  The input slice is taken with
  `cap(b) = len(b)`, so that a slice expression reaching past `len(b)` is a run-time crash.
* Go's `int` is the 64-bit signed integer: a result is an `Int` reduced by `wrapInt64`.
  `uint16`, `uint32`, `uint64` values are `Nat`s below `2^16`, `2^32`, `2^64`.
* A Go call that may end in a run-time crash returns a `Res`; the block loop is run with
  fuel, and `none` means that the loop has not yet come to an end.
* A pointer is an index in a list of objects (the heap of that type), so that an object that
  is changed after it has been appended to a slice of pointers is changed in the slice too.
-/

namespace Rescene

/-! ## Bytes, errors, results -/

abbrev Bytes := List UInt8

/-- The error values of `def.go`, and those of the library calls (`io`, `strconv`). -/
inductive Error where
  | ErrCRC
  | ErrBadBlock
  | ErrBadFile
  | ErrBadData
  | ErrNoData
  | ErrDuplSFV
  | EOF
  | ErrUnexpectedEOF
  | ErrSyntax
  | ErrRange
  deriving DecidableEq, Repr

/-- Result of a call: a value, an `error`, or a run-time crash (slice out of range). -/
inductive Res (α : Type) where
  | ok (a : α)
  | err (e : Error)
  | crash
  deriving DecidableEq, Repr

/-- Sequencing of calls: the first error or crash ends the computation. -/
def Res.bind {α β : Type} (r : Res α) (k : α → Res β) : Res β :=
  match r with
  | .ok a => k a
  | .err e => .err e
  | .crash => .crash

instance : Monad Res where
  pure := Res.ok
  bind := Res.bind

/-! ## Go integers -/

/-- Reduction of an integer into the range of Go's 64-bit `int`. -/
def wrapInt64 (x : Int) : Int := (x + 2 ^ 63) % 2 ^ 64 - 2 ^ 63

/-- Go `+` on `int`. -/
def intAdd (x y : Int) : Int := wrapInt64 (x + y)

/-- Go `x << 32` on `int`. -/
def intShl32 (x : Int) : Int := wrapInt64 (x * 2 ^ 32)

/-- Go `uint64(x)` of an `int`. -/
def toUint64 (x : Int) : Nat := (x % 2 ^ 64).toNat

/-- Go `+` on `uint64`. -/
def u64Add (x y : Nat) : Nat := (x + y) % 2 ^ 64

/-! ## Slices and `binary.Read` on a `bytes.Buffer` -/

/-- The slice expression `b[lo:hi]`; `none` is the run-time crash. -/
def goSlice (b : Bytes) (lo hi : Int) : Option Bytes :=
  if 0 ≤ lo ∧ lo ≤ hi ∧ hi ≤ (b.length : Int) then
    some ((b.drop lo.toNat).take (hi.toNat - lo.toNat))
  else none

/-- The slice expression `data[7:]`. -/
def sliceFrom7 (data : Bytes) : Res Bytes :=
  if data.length < 7 then .crash else .ok (data.drop 7)

/-- `binary.Read` of `n` bytes from a buffer (`io.ReadFull`): the bytes and the rest.
Reading no byte always succeeds; an empty buffer gives `EOF`, a short one
`ErrUnexpectedEOF`. -/
def readBytes (n : Nat) (buf : Bytes) : Res (Bytes × Bytes) :=
  if n = 0 then .ok ([], buf)
  else if buf.length = 0 then .err .EOF
  else if buf.length < n then .err .ErrUnexpectedEOF
  else .ok (buf.take n, buf.drop n)

/-- Little-endian value of a byte string. -/
def leNat : Bytes → Nat
  | [] => 0
  | x :: xs => x.toNat + 256 * leNat xs

/-- `binary.Read` of a little-endian unsigned integer of `n` bytes. -/
def readUint (n : Nat) (buf : Bytes) : Res (Nat × Bytes) :=
  match readBytes n buf with
  | .ok (bs, rest) => .ok (leNat bs, rest)
  | .err e => .err e
  | .crash => .crash

/-- A field that is read only when a flag is set: `if b.Flag(f) { binary.Read(...) }`; the
field is 0 when it is not read. -/
def readUintIf (flag : Bool) (n : Nat) (buf : Bytes) : Res (Nat × Bytes) :=
  if flag then readUint n buf else .ok (0, buf)

/-! ## Block types and flags (`rar.go`) -/

abbrev EmptyHead : Nat := 0x00
abbrev SrrVolHead : Nat := 0x69
abbrev SrrStoredFileHead : Nat := 0x6A
abbrev OSOHashHead : Nat := 0x6B
abbrev SrrRarPadHead : Nat := 0x6C
abbrev SrrRarSubBlockHead : Nat := 0x71
abbrev MarkHead : Nat := 0x72
abbrev MainHead : Nat := 0x73
abbrev FileHead : Nat := 0x74
abbrev CommHead : Nat := 0x75
abbrev AvHead : Nat := 0x76
abbrev SubHead : Nat := 0x77
abbrev ProtectHead : Nat := 0x78
abbrev SignHead : Nat := 0x79
abbrev NewSubHead : Nat := 0x7A
abbrev EndArcHead : Nat := 0x7B

abbrev MHD_NEWNUMBERING : Nat := 0x0010
abbrev MHD_FIRSTVOLUME : Nat := 0x0100
abbrev LHD_SPLIT_BEFORE : Nat := 0x0001
abbrev LHD_SPLIT_AFTER : Nat := 0x0002
abbrev LHD_LARGE : Nat := 0x0100
abbrev LHD_UNICODE : Nat := 0x0200
abbrev LHD_SALT : Nat := 0x0400
abbrev HAS_DATA : Nat := 0x8000
abbrev SRR_APP_NAME : Nat := 0x0001

/-- The 7-byte header `RarHeader`; `HeadType` is the field `Type`. -/
structure RarHeader where
  CRC : Nat
  HeadType : Nat
  Flags : Nat
  Size : Nat
  deriving DecidableEq, Repr, Inhabited

/-- `RarHeader.Flag`: `(h.Flags & f) == f`. -/
def RarHeader.Flag (h : RarHeader) (f : Nat) : Bool := (h.Flags &&& f) == f

/-- `RarHeader.Parse`: `b[0:7]`, then the four fields in wire order, little-endian. -/
def RarHeader.Parse (b : Bytes) : Res RarHeader :=
  if b.length < 7 then .crash
  else do
    let (buf, _) ← readBytes 7 (b.take 7)
    pure { CRC := leNat (buf.take 2), HeadType := leNat ((buf.drop 2).take 1),
           Flags := leNat ((buf.drop 3).take 2), Size := leNat ((buf.drop 5).take 2) }

/-- `RarHeader.GetSize`. -/
def RarHeader.GetSize (h : RarHeader) : Int := (h.Size : Int)

structure SrrVolHeadBlock extends RarHeader where
  AppNameLength : Nat
  AppName : Bytes
  deriving DecidableEq, Repr

structure SrrStoredFileHeadBlock extends RarHeader where
  DataSize : Nat
  NameSize : Nat
  FileName : Bytes
  FileData : Bytes
  deriving DecidableEq, Repr

structure OSOHashHeadBlock extends RarHeader where
  FileSize : Nat
  OSOHash : Nat
  NameSize : Nat
  FileName : Bytes
  deriving DecidableEq, Repr

structure SrrRarPadHeadBlock extends RarHeader where
  PadSize : Nat
  PadData : Bytes
  deriving DecidableEq, Repr

structure SrrRarSubBlockHeadBlock extends RarHeader where
  NameSize : Nat
  FileName : Bytes
  deriving DecidableEq, Repr

structure FileHeadBlock extends RarHeader where
  LowPackSize : Nat
  LowUnpackSize : Nat
  HostOS : Nat
  FileCRC : Nat
  FileTime : Nat
  UnpackVersion : Nat
  Method : Nat
  NameSize : Nat
  FileAttr : Nat
  HighPackSize : Nat
  HighUnpackSize : Nat
  FileName : Bytes
  Salt : Nat
  deriving DecidableEq, Repr

/-- `NewSubHeadBlock` has the fields of `FileHeadBlock` (but `FileNameUnicode`, which no
code reads). -/
structure NewSubHeadBlock extends RarHeader where
  LowPackSize : Nat
  LowUnpackSize : Nat
  HostOS : Nat
  FileCRC : Nat
  FileTime : Nat
  UnpackVersion : Nat
  Method : Nat
  NameSize : Nat
  FileAttr : Nat
  HighPackSize : Nat
  HighUnpackSize : Nat
  FileName : Bytes
  Salt : Nat
  deriving DecidableEq, Repr

structure ProtectHeadBlock extends RarHeader where
  PackedSize : Nat
  Version : Nat
  RecSectorCount : Nat
  DataSectorCount : Nat
  deriving DecidableEq, Repr

/-! ## Records of `srr.go` -/

structure StoredFile where
  Path : Bytes
  Data : Bytes
  deriving DecidableEq, Repr, Inhabited

structure OSOHash where
  Path : Bytes
  Size : Nat
  Hash : Nat
  deriving DecidableEq, Repr, Inhabited

structure RarFile where
  Path : Bytes
  Size : Int
  CRC : Nat
  IsFirst : Bool
  IsNewFmt : Bool
  deriving DecidableEq, Repr

structure PackedFile where
  Path : Bytes
  Size : Nat
  CRC : Nat
  deriving DecidableEq, Repr

instance : Inhabited RarFile := ⟨⟨[], 0, 0, false, false⟩⟩

instance : Inhabited PackedFile := ⟨⟨[], 0, 0⟩⟩

/-! ## Block decoders (`rar.go`) -/

/-- `SrrVolHeadBlock.Parse`. -/
def SrrVolHeadBlock.Parse (h : RarHeader) (data : Bytes) : Res SrrVolHeadBlock :=
  if h.CRC ≠ 0x6969 then .err .ErrCRC
  else do
    let buffer ← sliceFrom7 data
    if !h.Flag SRR_APP_NAME then
      pure { toRarHeader := h, AppNameLength := 0, AppName := [] }
    else do
      let (len, buffer) ← readUint 2 buffer
      let (name, _) ← readBytes len buffer
      pure { toRarHeader := h, AppNameLength := len, AppName := name }

/-- `SrrVolHeadBlock.GetAppName`. -/
def SrrVolHeadBlock.GetAppName (b : SrrVolHeadBlock) : Bytes :=
  if b.toRarHeader.Flag SRR_APP_NAME then b.AppName else []

/-- `SrrStoredFileHeadBlock.Parse`. -/
def SrrStoredFileHeadBlock.Parse (h : RarHeader) (data : Bytes) : Res SrrStoredFileHeadBlock :=
  if h.CRC ≠ 0x6A6A then .err .ErrCRC
  else if !h.Flag HAS_DATA then .err .ErrBadBlock
  else do
    let buffer ← sliceFrom7 data
    let (dataSize, buffer) ← readUint 4 buffer
    let (nameSize, buffer) ← readUint 2 buffer
    let (name, buffer) ← readBytes nameSize buffer
    let (fileData, _) ← readBytes dataSize buffer
    pure { toRarHeader := h, DataSize := dataSize, NameSize := nameSize, FileName := name,
           FileData := fileData }

/-- `SrrStoredFileHeadBlock.GetSize`. -/
def SrrStoredFileHeadBlock.GetSize (b : SrrStoredFileHeadBlock) : Int :=
  intAdd (b.Size : Int) (b.DataSize : Int)

/-- `SrrStoredFileHeadBlock.GetStoredFile`. -/
def SrrStoredFileHeadBlock.GetStoredFile (b : SrrStoredFileHeadBlock) : Res StoredFile :=
  if b.NameSize = 0 then .err .ErrNoData
  else .ok { Path := b.FileName, Data := b.FileData }

/-- `OSOHashHeadBlock.Parse`. -/
def OSOHashHeadBlock.Parse (h : RarHeader) (data : Bytes) : Res OSOHashHeadBlock :=
  if h.CRC ≠ 0x6B6B then .err .ErrCRC
  else do
    let buffer ← sliceFrom7 data
    let (fileSize, buffer) ← readUint 8 buffer
    let (osoHash, buffer) ← readUint 8 buffer
    let (nameSize, buffer) ← readUint 2 buffer
    let (name, _) ← readBytes nameSize buffer
    pure { toRarHeader := h, FileSize := fileSize, OSOHash := osoHash, NameSize := nameSize,
           FileName := name }

/-- `OSOHashHeadBlock.GetOSOHash`. -/
def OSOHashHeadBlock.GetOSOHash (b : OSOHashHeadBlock) : Res Rescene.OSOHash :=
  if b.FileSize = 0 ∨ b.OSOHash = 0 ∨ b.NameSize = 0 then .err .ErrNoData
  else .ok { Path := b.FileName, Size := b.FileSize, Hash := b.OSOHash }

/-- `SrrRarPadHeadBlock.Parse`. -/
def SrrRarPadHeadBlock.Parse (h : RarHeader) (data : Bytes) : Res SrrRarPadHeadBlock :=
  if h.CRC ≠ 0x6C6C then .err .ErrCRC
  else if !h.Flag HAS_DATA then .err .ErrBadBlock
  else do
    let buffer ← sliceFrom7 data
    let (padSize, buffer) ← readUint 4 buffer
    let (padData, _) ← readBytes padSize buffer
    pure { toRarHeader := h, PadSize := padSize, PadData := padData }

/-- `SrrRarPadHeadBlock.GetSize`. -/
def SrrRarPadHeadBlock.GetSize (b : SrrRarPadHeadBlock) : Int :=
  intAdd (b.Size : Int) (b.PadSize : Int)

/-- `SrrRarSubBlockHeadBlock.Parse`. -/
def SrrRarSubBlockHeadBlock.Parse (h : RarHeader) (data : Bytes) :
    Res SrrRarSubBlockHeadBlock :=
  if h.CRC ≠ 0x7171 then .err .ErrCRC
  else do
    let buffer ← sliceFrom7 data
    let (nameSize, buffer) ← readUint 2 buffer
    let (name, _) ← readBytes nameSize buffer
    pure { toRarHeader := h, NameSize := nameSize, FileName := name }

/-- `SrrRarSubBlockHeadBlock.GetRarFileName`. -/
def SrrRarSubBlockHeadBlock.GetRarFileName (b : SrrRarSubBlockHeadBlock) : Bytes :=
  if b.NameSize = 0 then [] else b.FileName

/-- `MarkHeadBlock.Parse` is the promoted `RarHeader.Parse`: the header is read again. -/
def MarkHeadBlock.Parse (data : Bytes) : Res RarHeader := RarHeader.Parse data

/-- `FileHeadBlock.Parse`. -/
def FileHeadBlock.Parse (h : RarHeader) (data : Bytes) : Res FileHeadBlock := do
  let buffer ← sliceFrom7 data
  let (lowPack, buffer) ← readUint 4 buffer
  let (lowUnpack, buffer) ← readUint 4 buffer
  let (hostOS, buffer) ← readUint 1 buffer
  let (fileCRC, buffer) ← readUint 4 buffer
  let (fileTime, buffer) ← readUint 4 buffer
  let (unpackVersion, buffer) ← readUint 1 buffer
  let (method, buffer) ← readUint 1 buffer
  let (nameSize, buffer) ← readUint 2 buffer
  let (fileAttr, buffer) ← readUint 4 buffer
  let (highPack, buffer) ← readUintIf (h.Flag LHD_LARGE) 4 buffer
  let (highUnpack, buffer) ← readUintIf (h.Flag LHD_LARGE) 4 buffer
  let (name, buffer) ← readBytes nameSize buffer
  let (salt, _) ← readUintIf (h.Flag LHD_SALT) 8 buffer
  pure { toRarHeader := h, LowPackSize := lowPack, LowUnpackSize := lowUnpack,
         HostOS := hostOS, FileCRC := fileCRC, FileTime := fileTime,
         UnpackVersion := unpackVersion, Method := method, NameSize := nameSize,
         FileAttr := fileAttr, HighPackSize := highPack, HighUnpackSize := highUnpack,
         FileName := name, Salt := salt }

/-- `FileHeadBlock.GetMethod`. -/
def FileHeadBlock.GetMethod (b : FileHeadBlock) : Nat := b.Method

/-- `FileHeadBlock.GetPackSize`: `int(b.HighPackSize)<<32 + int(b.LowPackSize)`. -/
def FileHeadBlock.GetPackSize (b : FileHeadBlock) : Int :=
  if b.toRarHeader.Flag LHD_LARGE then
    intAdd (intShl32 (b.HighPackSize : Int)) (b.LowPackSize : Int)
  else (b.LowPackSize : Int)

/-- `FileHeadBlock.GetUnpackSize`. -/
def FileHeadBlock.GetUnpackSize (b : FileHeadBlock) : Int :=
  if b.toRarHeader.Flag LHD_LARGE then
    intAdd (intShl32 (b.HighUnpackSize : Int)) (b.LowUnpackSize : Int)
  else (b.LowUnpackSize : Int)

/-- `FileHeadBlock.GetFileName`: with `LHD_UNICODE` the part before the first NUL byte
(`strings.Split(name, "\x00")[0]`). -/
def FileHeadBlock.GetFileName (b : FileHeadBlock) : Bytes :=
  if b.NameSize > 0 then
    if b.toRarHeader.Flag LHD_UNICODE then b.FileName.takeWhile (fun c => c != 0)
    else b.FileName
  else []

/-- `FileHeadBlock.GetCRC`. -/
def FileHeadBlock.GetCRC (b : FileHeadBlock) : Nat :=
  if b.NameSize > 0 then b.FileCRC else 0

/-- `FileHeadBlock.UpdatePackedFile`: the packed file after the call, or the error. -/
def FileHeadBlock.UpdatePackedFile (b : FileHeadBlock) (p : PackedFile) : Res PackedFile :=
  let p1 : PackedFile := if p.Path = [] then { p with Path := b.GetFileName } else p
  if p1.Path ≠ b.GetFileName then .err .ErrBadData
  else
    let p2 : PackedFile := { p1 with CRC := b.GetCRC }
    if b.GetMethod = 0x30 then
      .ok { p2 with Size := u64Add p2.Size (toUint64 b.GetPackSize) }
    else
      .ok { p2 with Size := toUint64 b.GetUnpackSize }

/-- `FileHeadBlock.GetSize`. -/
def FileHeadBlock.GetSize (b : FileHeadBlock) : Int := intAdd (b.Size : Int) b.GetPackSize

/-- `FileHeadBlock.IsCompressed`. -/
def FileHeadBlock.IsCompressed (b : FileHeadBlock) : Bool :=
  if b.GetMethod = 0x30 then false else true

/-- `NewSubHeadBlock.Parse`. -/
def NewSubHeadBlock.Parse (h : RarHeader) (data : Bytes) : Res NewSubHeadBlock := do
  let buffer ← sliceFrom7 data
  let (lowPack, buffer) ← readUint 4 buffer
  let (lowUnpack, buffer) ← readUint 4 buffer
  let (hostOS, buffer) ← readUint 1 buffer
  let (fileCRC, buffer) ← readUint 4 buffer
  let (fileTime, buffer) ← readUint 4 buffer
  let (unpackVersion, buffer) ← readUint 1 buffer
  let (method, buffer) ← readUint 1 buffer
  let (nameSize, buffer) ← readUint 2 buffer
  let (fileAttr, buffer) ← readUint 4 buffer
  let (highPack, buffer) ← readUintIf (h.Flag LHD_LARGE) 4 buffer
  let (highUnpack, buffer) ← readUintIf (h.Flag LHD_LARGE) 4 buffer
  let (name, buffer) ← readBytes nameSize buffer
  let (salt, _) ← readUintIf (h.Flag LHD_SALT) 8 buffer
  pure { toRarHeader := h, LowPackSize := lowPack, LowUnpackSize := lowUnpack,
         HostOS := hostOS, FileCRC := fileCRC, FileTime := fileTime,
         UnpackVersion := unpackVersion, Method := method, NameSize := nameSize,
         FileAttr := fileAttr, HighPackSize := highPack, HighUnpackSize := highUnpack,
         FileName := name, Salt := salt }

/-- `NewSubHeadBlock.GetFileName`. -/
def NewSubHeadBlock.GetFileName (b : NewSubHeadBlock) : Bytes :=
  if b.NameSize > 0 then b.FileName else []

/-- `NewSubHeadBlock.GetPackSize`. -/
def NewSubHeadBlock.GetPackSize (b : NewSubHeadBlock) : Int :=
  if b.toRarHeader.Flag LHD_LARGE then
    intAdd (intShl32 (b.HighPackSize : Int)) (b.LowPackSize : Int)
  else (b.LowPackSize : Int)

/-- `NewSubHeadBlock.GetSize`. -/
def NewSubHeadBlock.GetSize (b : NewSubHeadBlock) : Int :=
  intAdd (b.Size : Int) b.GetPackSize

/-- `ProtectHeadBlock.Parse`. -/
def ProtectHeadBlock.Parse (h : RarHeader) (data : Bytes) : Res ProtectHeadBlock :=
  if !h.Flag HAS_DATA then .err .ErrBadBlock
  else do
    let buffer ← sliceFrom7 data
    let (packedSize, buffer) ← readUint 4 buffer
    let (version, buffer) ← readUint 1 buffer
    let (recSectorCount, buffer) ← readUint 2 buffer
    let (dataSectorCount, _) ← readUint 4 buffer
    pure { toRarHeader := h, PackedSize := packedSize, Version := version,
           RecSectorCount := recSectorCount, DataSectorCount := dataSectorCount }

/-- `ProtectHeadBlock.GetSize`. -/
def ProtectHeadBlock.GetSize (b : ProtectHeadBlock) : Int :=
  intAdd (b.Size : Int) (b.PackedSize : Int)

/-! ## The block loop of `SrrFile.Unmarshal` (`srr.go`) -/

/-- The object a pointer refers to. -/
def deref {α : Type} [Inhabited α] (heap : List α) (p : Nat) : α := heap.getD p default

/-- Assignment through a pointer. -/
def store {α : Type} (heap : List α) (p : Nat) (x : α) : List α := heap.set p x

/-- The record `SrrFile`, with the objects its slices of pointers refer to. -/
structure SrrFile where
  ApplicationName : Bytes
  StoredFiles : List StoredFile
  OSOHashes : List OSOHash
  RarFiles : List RarFile
  RarCompressed : Bool
  PackedFiles : List PackedFile
  SFVComments : List Bytes
  deriving DecidableEq, Repr

/-- The variables of the block loop: the fields of `f` (`RarFiles` and `PackedFiles` are
slices of pointers into `rarHeap` and `packedHeap`), `prevHeader`, `currentRarFile`,
`currentPackedFile` and `offset`. -/
structure WalkState where
  ApplicationName : Bytes
  StoredFiles : List StoredFile
  OSOHashes : List OSOHash
  rarHeap : List RarFile
  RarFiles : List Nat
  RarCompressed : Bool
  packedHeap : List PackedFile
  PackedFiles : List Nat
  SFVComments : List Bytes
  prevHeader : RarHeader
  currentRarFile : Nat
  currentPackedFile : Nat
  offset : Int
  deriving DecidableEq, Repr

/-- The state before the loop: the slices are made empty, `RarCompressed` is false, the
application name is the one the record held; `currentRarFile` and `currentPackedFile`
point to fresh objects that are in no slice. -/
def WalkState.init (f0 : SrrFile) : WalkState :=
  { ApplicationName := f0.ApplicationName, StoredFiles := [], OSOHashes := [],
    rarHeap := [default], RarFiles := [], RarCompressed := false,
    packedHeap := [default], PackedFiles := [], SFVComments := [],
    prevHeader := { CRC := 0, HeadType := 0, Flags := 0, Size := 0 },
    currentRarFile := 0, currentPackedFile := 0, offset := 0 }

/-- The record `f` as the caller sees it in state `s`. -/
def WalkState.toFile (s : WalkState) : SrrFile :=
  { ApplicationName := s.ApplicationName, StoredFiles := s.StoredFiles,
    OSOHashes := s.OSOHashes, RarFiles := s.RarFiles.map (deref s.rarHeap),
    RarCompressed := s.RarCompressed, PackedFiles := s.PackedFiles.map (deref s.packedHeap),
    SFVComments := s.SFVComments }

/-- The statement `currentRarFile.Size += n`. -/
def WalkState.addRarSize (s : WalkState) (n : Int) : List RarFile :=
  store s.rarHeap s.currentRarFile
    { deref s.rarHeap s.currentRarFile with
      Size := intAdd (deref s.rarHeap s.currentRarFile).Size n }

/-- What one turn of the block loop does. -/
inductive StepResult where
  | next (s : WalkState)
  | stop
  | fail (e : Error)
  | crash
  deriving DecidableEq, Repr

/-- A decoder call followed by `if err != nil { return err }`. -/
def Res.andThen {α : Type} (r : Res α) (k : α → StepResult) : StepResult :=
  match r with
  | .ok a => k a
  | .err e => .fail e
  | .crash => .crash

/-- The cases that only count the header: `CommHead`, `AvHead`, `SubHead`, `SignHead`,
`EndArcHead`, `EmptyHead`. -/
def stepPassive (s : WalkState) (header : RarHeader) : StepResult :=
  .next { s with rarHeap := s.addRarSize (header.Size : Int),
                 offset := intAdd s.offset (header.Size : Int),
                 prevHeader := header }

/-- The variables that the case `FileHead` uses for packed files: the objects, the slice
`f.PackedFiles` and the pointer `currentPackedFile`. -/
structure PackedState where
  heap : List PackedFile
  files : List Nat
  current : Nat
  deriving DecidableEq, Repr

/-- The packed-file part of the case `FileHead`: a new packed file is opened or the
current one is kept, `UpdatePackedFile` is called on it, and it is appended to
`f.PackedFiles` when no entry of the slice has its path and CRC. -/
def packedFileHead (ps : PackedState) (block : FileHeadBlock) : Res PackedState :=
  let opened : List PackedFile × Nat :=
    if !block.toRarHeader.Flag LHD_SPLIT_BEFORE ||
        ((deref ps.heap ps.current).Path == [] && block.GetFileName != []) then
      (ps.heap ++ [{ Path := block.GetFileName, Size := 0, CRC := block.GetCRC }],
        ps.heap.length)
    else (ps.heap, ps.current)
  match block.UpdatePackedFile (deref opened.1 opened.2) with
  | .err e => .err e
  | .crash => .crash
  | .ok p =>
    let heap := store opened.1 opened.2 p
    let newFile : Bool :=
      !(ps.files.any fun i =>
          (deref heap i).Path == (deref heap opened.2).Path &&
          (deref heap i).CRC == (deref heap opened.2).CRC)
    .ok { heap := heap, files := if newFile then ps.files ++ [opened.2] else ps.files,
          current := opened.2 }

/-- The packed-file variables of a state. -/
def WalkState.packed (s : WalkState) : PackedState :=
  { heap := s.packedHeap, files := s.PackedFiles, current := s.currentPackedFile }

/-- The case `FileHead` after the block has been parsed. -/
def stepFileHead (s : WalkState) (header : RarHeader) (block : FileHeadBlock) : StepResult :=
  (packedFileHead s.packed block).andThen fun ps =>
    .next { s with
      packedHeap := ps.heap,
      currentPackedFile := ps.current,
      PackedFiles := ps.files,
      RarCompressed := if !s.RarCompressed && block.IsCompressed then true
                       else s.RarCompressed,
      rarHeap := s.addRarSize block.GetSize,
      offset := intAdd s.offset (header.Size : Int),
      prevHeader := header }

/-- The `switch header.Type` of the block loop; `data` is `b[offset:]`. -/
def dispatch (data : Bytes) (s : WalkState) (header : RarHeader) : StepResult :=
  if header.HeadType = SrrVolHead then
    (SrrVolHeadBlock.Parse header data).andThen fun block =>
      .next { s with ApplicationName := block.GetAppName,
                     offset := intAdd s.offset block.toRarHeader.GetSize,
                     prevHeader := header }
  else if header.HeadType = SrrStoredFileHead then
    (SrrStoredFileHeadBlock.Parse header data).andThen fun block =>
    block.GetStoredFile.andThen fun sf =>
      .next { s with StoredFiles := s.StoredFiles ++ [sf],
                     offset := intAdd s.offset block.GetSize,
                     prevHeader := header }
  else if header.HeadType = OSOHashHead then
    (OSOHashHeadBlock.Parse header data).andThen fun block =>
    block.GetOSOHash.andThen fun h =>
      .next { s with OSOHashes := s.OSOHashes ++ [h],
                     offset := intAdd s.offset block.toRarHeader.GetSize,
                     prevHeader := header }
  else if header.HeadType = SrrRarPadHead then
    (SrrRarPadHeadBlock.Parse header data).andThen fun block =>
      .next { s with offset := intAdd s.offset block.GetSize,
                     rarHeap := s.addRarSize (block.PadSize : Int) }
  else if header.HeadType = SrrRarSubBlockHead then
    (SrrRarSubBlockHeadBlock.Parse header data).andThen fun block =>
      .next { s with
        rarHeap := s.rarHeap ++ [{ Path := block.GetRarFileName, Size := 0, CRC := 0,
                                   IsFirst := false, IsNewFmt := false }],
        currentRarFile := s.rarHeap.length,
        RarFiles := s.RarFiles ++ [s.rarHeap.length],
        offset := intAdd s.offset block.toRarHeader.GetSize,
        prevHeader := header }
  else if header.HeadType = MarkHead then
    (MarkHeadBlock.Parse data).andThen fun block =>
      if s.prevHeader.HeadType ≠ SrrRarSubBlockHead then .fail .ErrBadFile
      else
        .next { s with rarHeap := s.addRarSize block.GetSize,
                       offset := intAdd s.offset (header.Size : Int),
                       prevHeader := header }
  else if header.HeadType = MainHead then
    .next { s with
      rarHeap := store s.rarHeap s.currentRarFile
        { deref s.rarHeap s.currentRarFile with
          IsFirst := header.Flag MHD_FIRSTVOLUME,
          IsNewFmt := header.Flag MHD_NEWNUMBERING,
          Size := intAdd (deref s.rarHeap s.currentRarFile).Size (header.Size : Int) },
      offset := intAdd s.offset (header.Size : Int),
      prevHeader := header }
  else if header.HeadType = FileHead then
    (FileHeadBlock.Parse header data).andThen fun block => stepFileHead s header block
  else if header.HeadType = CommHead then stepPassive s header
  else if header.HeadType = AvHead then stepPassive s header
  else if header.HeadType = SubHead then stepPassive s header
  else if header.HeadType = ProtectHead then
    (ProtectHeadBlock.Parse header data).andThen fun block =>
      .next { s with rarHeap := s.addRarSize block.GetSize,
                     offset := intAdd s.offset (header.Size : Int),
                     prevHeader := header }
  else if header.HeadType = SignHead then stepPassive s header
  else if header.HeadType = NewSubHead then
    (NewSubHeadBlock.Parse header data).andThen fun block =>
      .next { s with
        rarHeap := s.addRarSize block.GetSize,
        offset := if block.GetFileName = [0x52, 0x52] then
                    intAdd s.offset (header.Size : Int)
                  else intAdd s.offset (intAdd (header.Size : Int) block.GetPackSize),
        prevHeader := header }
  else if header.HeadType = EndArcHead then stepPassive s header
  else if header.HeadType = EmptyHead then stepPassive s header
  else .stop

/-- The body of the block loop at state `s` (the loop condition `offset < len(b)` holds):
the header is parsed from `b[offset:offset+7]`, then the switch. -/
def step (b : Bytes) (s : WalkState) : StepResult :=
  match goSlice b s.offset (intAdd s.offset 7) with
  | none => .crash
  | some hb => (RarHeader.Parse hb).andThen (dispatch (b.drop s.offset.toNat) s)

/-- How the block loop ends: the loop condition fails (`completed`), the default case
returns `nil` (`stopped`), a case returns an error (`failed`), or the program crashes. -/
inductive WalkEnd where
  | completed (s : WalkState)
  | stopped (s : WalkState)
  | failed (s : WalkState) (e : Error)
  | crashed
  deriving DecidableEq, Repr

/-- The block loop `for offset < len(b)`, run for at most `fuel` turns. -/
def walk (b : Bytes) : Nat → WalkState → Option WalkEnd
  | 0, _ => none
  | fuel + 1, s =>
    if s.offset < (b.length : Int) then
      match step b s with
      | .next s' => walk b fuel s'
      | .stop => some (.stopped s)
      | .fail e => some (.failed s e)
      | .crash => some .crashed
    else some (.completed s)

/-- One turn of the loop when it goes on to a next turn. -/
def advance (b : Bytes) (s : WalkState) : Option WalkState :=
  if s.offset < (b.length : Int) then
    match step b s with
    | .next s' => some s'
    | _ => none
  else none

/-- How the loop ends in state `s`, when it ends there. -/
def endAt (b : Bytes) (s : WalkState) : Option WalkEnd :=
  if s.offset < (b.length : Int) then
    match step b s with
    | .next _ => none
    | .stop => some (.stopped s)
    | .fail e => some (.failed s e)
    | .crash => some .crashed
  else some (.completed s)

/-- The state after `k` further turns of the loop from state `s`, when the loop gets that
far. -/
def stateFrom (b : Bytes) (s : WalkState) : Nat → Option WalkState
  | 0 => some s
  | k + 1 => (stateFrom b s k).bind (advance b)

/-- The state in which turn `k` of the loop starts (turns are counted from 0), when the
loop gets that far. -/
def stateAt (b : Bytes) (f0 : SrrFile) (k : Nat) : Option WalkState :=
  stateFrom b (WalkState.init f0) k

/-- The header that the loop reads in state `s`. -/
def headerAt (b : Bytes) (s : WalkState) : Option RarHeader :=
  if s.offset < (b.length : Int) then
    match goSlice b s.offset (intAdd s.offset 7) with
    | none => none
    | some hb =>
      match RarHeader.Parse hb with
      | .ok header => some header
      | _ => none
  else none

/-- The file-head block that the loop decodes in state `s`, if it decodes one there. -/
def fileHeadAt (b : Bytes) (s : WalkState) : Option FileHeadBlock :=
  match headerAt b s with
  | none => none
  | some header =>
    if header.HeadType = FileHead then
      match FileHeadBlock.Parse header (b.drop s.offset.toNat) with
      | .ok block => some block
      | _ => none
    else none

/-- The file-head blocks that the loop decodes in its turns `0, ..., n - 1`, in order. -/
def decodedFileHeads (b : Bytes) (f0 : SrrFile) (n : Nat) : List FileHeadBlock :=
  (List.range n).filterMap fun k => (stateAt b f0 k).bind (fileHeadAt b)

/-- The effective pack size of a file head in the words of the specification:
`(highPack << 32) | lowPack` when `LHD_LARGE` is set, else `lowPack`. -/
def specPackSize (flags low high : Nat) : Nat :=
  if (flags &&& LHD_LARGE) = LHD_LARGE then (high <<< 32) ||| low else low

/-- The packed-file variables after the file heads of a list have been taken in, one
after the other, from the state before the loop; `none` when one of them is refused. -/
def packedRun (l : List FileHeadBlock) : Option PackedState :=
  l.foldl
    (fun acc block => acc.bind fun ps =>
      match packedFileHead ps block with
      | .ok ps1 => some ps1
      | _ => none)
    (some { heap := [default], files := [], current := 0 })

/-! ## Library calls of the SFV pass

`strings.ToLower` (a Unicode case mapping) and the order in which `range` visits the keys
of a map are left to a `Runtime`; the other calls are modelled on bytes. -/

/-- What the embedding takes from the Go runtime and library. -/
structure Runtime where
  /-- The call `strings.ToLower`. -/
  ToLower : Bytes → Bytes
  /-- The order in which `range` visits the entries of a map, given in insertion order. -/
  mapOrder : List (Bytes × Nat) → List (Bytes × Nat)

/-- Lower case of an ASCII letter, every other byte unchanged. -/
def asciiLower (c : UInt8) : UInt8 := if 65 ≤ c ∧ c ≤ 90 then c + 32 else c

/-- A runtime: `strings.ToLower` as it is on ASCII strings, map entries in insertion
order. -/
def asciiRuntime : Runtime :=
  { ToLower := fun s => s.map asciiLower, mapOrder := fun t => t }

/-- Go `<` on strings: bytewise lexicographic order. -/
def strLess : Bytes → Bytes → Bool
  | [], [] => false
  | [], _ :: _ => true
  | _ :: _, [] => false
  | x :: xs, y :: ys => if x < y then true else if y < x then false else strLess xs ys

/-- Scan of `filepath.Ext` from the end of the path. -/
def extAux : Bytes → Bytes → Bytes
  | [], _ => []
  | c :: cs, acc =>
    if c = 47 then [] else if c = 46 then c :: acc else extAux cs (c :: acc)

/-- `filepath.Ext` (separator `/`): the suffix from the last dot of the last element. -/
def filepathExt (path : Bytes) : Bytes := extAux path.reverse []

/-- `filepath.Base` (separator `/`). -/
def filepathBase (path : Bytes) : Bytes :=
  if path = [] then [46]
  else
    let stripped := (path.reverse.dropWhile (fun c => c == 47)).reverse
    let last := (stripped.reverse.takeWhile (fun c => c != 47)).reverse
    if last = [] then [47] else last

/-- The elements of a path between separators. -/
def splitSlash : Bytes → Bytes → List Bytes
  | [], cur => [cur]
  | c :: cs, cur => if c = 47 then cur :: splitSlash cs [] else splitSlash cs (cur ++ [c])

/-- The element loop of `filepath.Clean`: empty and `.` elements are dropped, `..` removes
the element before it, or is kept at the start of a path that is not rooted. The stack
has the last kept element first. -/
def cleanElems (rooted : Bool) : List Bytes → List Bytes → List Bytes
  | [], st => st.reverse
  | e :: es, st =>
    if e = [] ∨ e = [46] then cleanElems rooted es st
    else if e = [46, 46] then
      match st with
      | top :: rest =>
        if top = [46, 46] then cleanElems rooted es (e :: st) else cleanElems rooted es rest
      | [] => if rooted then cleanElems rooted es [] else cleanElems rooted es [e]
    else cleanElems rooted es (e :: st)

/-- `filepath.Clean` (separator `/`). -/
def filepathClean (path : Bytes) : Bytes :=
  if path = [] then [46]
  else
    let rooted : Bool := path.head? == some 47
    let joined := [(47 : UInt8)].intercalate (cleanElems rooted (splitSlash path []) [])
    let out := if rooted then 47 :: joined else joined
    if out = [] then [46] else out

/-- `filepath.Dir` (separator `/`): `Clean` of the path up to its last separator. -/
def filepathDir (path : Bytes) : Bytes :=
  filepathClean (path.reverse.dropWhile (fun c => c != 47)).reverse

/-- The class `[\r\n]`. -/
def isCRLF (c : UInt8) : Bool := c == 13 || c == 10

/-- The class `\s` of Go's `regexp`: `[\t\n\f\r ]`. -/
def isSpace (c : UInt8) : Bool := c == 9 || c == 10 || c == 12 || c == 13 || c == 32

/-- The class `[!-~ ]`. -/
def isPrintable (c : UInt8) : Bool := (33 ≤ c && c ≤ 126) || c == 32

/-- The class `[a-fA-F0-9]`. -/
def isHex (c : UInt8) : Bool := (97 ≤ c && c ≤ 102) || (65 ≤ c && c ≤ 70) || (48 ≤ c && c ≤ 57)

/-- The matches of `[^\r\n]+([\r\n]+|$)` in a text (`reLine.FindAllString`): every run of
bytes other than CR and LF, with the run of CR and LF that follows it. `cur` is the match
being read, `nl` says that its run of CR and LF has begun. -/
def findLinesAux : Bytes → Bytes → Bool → List Bytes
  | [], cur, _ => if cur = [] then [] else [cur]
  | c :: cs, cur, nl =>
    if isCRLF c then
      if cur = [] then findLinesAux cs [] false else findLinesAux cs (cur ++ [c]) true
    else if nl then cur :: findLinesAux cs [c] false
    else findLinesAux cs (cur ++ [c]) false

/-- The call `reLine.FindAllString(string(v.Data), -1)`. -/
def findAllLines (data : Bytes) : List Bytes := findLinesAux data [] false

/-- The call `strings.Trim(line, "\r\n")`. -/
def trimCRLF (line : Bytes) : Bytes :=
  ((line.dropWhile isCRLF).reverse.dropWhile isCRLF).reverse

/-- An item of a regular expression that is a sequence of greedy repetitions of a
character class: the class, the least and the greatest number of repetitions. -/
structure RxItem where
  cls : UInt8 → Bool
  min : Nat
  max : Option Nat

/-- The choices for one greedy repetition, the longest first: `k` bytes, then fewer, down
to `min`; `rest` matches what follows. The result has the bytes of every item. -/
def rxTry (rest : Bytes → Option (List Bytes)) (input : Bytes) (min : Nat) :
    Nat → Option (List Bytes)
  | 0 => if min = 0 then (rest input).map (fun caps => [] :: caps) else none
  | k + 1 =>
    if k + 1 < min then none
    else
      match rest (input.drop (k + 1)) with
      | some caps => some (input.take (k + 1) :: caps)
      | none => rxTry rest input min k

/-- The first match, in the order of a backtracking search, of a sequence of items
followed by `$`, from the start of the input. -/
def rxSeq : List RxItem → Bytes → Option (List Bytes)
  | [], input => if input = [] then some [] else none
  | it :: its, input =>
    let run := (input.takeWhile it.cls).length
    let kmax := match it.max with
      | some m => Nat.min m run
      | none => run
    rxTry (rxSeq its) input it.min kmax

/-- The leftmost match of an expression that does not start with `^`: the text before
the match, and the bytes of every item. -/
def rxSearch (items : List RxItem) : Bytes → Option (Bytes × List Bytes)
  | [] => (rxSeq items []).map (fun caps => ([], caps))
  | c :: cs =>
    match rxSeq items (c :: cs) with
    | some caps => some ([], caps)
    | none => (rxSearch items cs).map (fun r => (c :: r.1, r.2))

/-- The expression `^\s*(?P<Comment>;.*)$`. -/
def reSFVComment : List RxItem :=
  [⟨isSpace, 0, none⟩, ⟨fun c => c == 59, 1, some 1⟩, ⟨fun c => c != 10, 0, none⟩]

/-- The expression `\s*(?P<Filename>[!-~ ]*)[ ]+(?P<CRC>[a-fA-F0-9]{1,8})\s*$`; the
groups `Filename` and `CRC` are the items 1 and 3. -/
def reSFV : List RxItem :=
  [⟨isSpace, 0, none⟩, ⟨isPrintable, 0, none⟩, ⟨fun c => c == 32, 1, none⟩,
   ⟨isHex, 1, some 8⟩, ⟨isSpace, 0, none⟩]

/-- Value of a hexadecimal digit. -/
def hexVal (c : UInt8) : Option Nat :=
  if 48 ≤ c ∧ c ≤ 57 then some (c.toNat - 48)
  else if 97 ≤ c ∧ c ≤ 102 then some (c.toNat - 87)
  else if 65 ≤ c ∧ c ≤ 70 then some (c.toNat - 55)
  else none

/-- The digit loop of `strconv.ParseUint(s, 16, 64)`. -/
def parseHexAux : Bytes → Nat → Except Error Nat
  | [], n => .ok n
  | c :: cs, n =>
    match hexVal c with
    | none => .error .ErrSyntax
    | some d => if n * 16 + d ≥ 2 ^ 64 then .error .ErrRange else parseHexAux cs (n * 16 + d)

/-- The call `strconv.ParseUint(s, 16, 64)`. -/
def ParseUint (s : Bytes) : Except Error Nat :=
  if s = [] then .error .ErrSyntax else parseHexAux s 0

/-- Go's sort of at most 12 elements (`insertionSortLessFunc`), one element: `x` moves
left over the elements it is less than. The sorted part is given last element first. -/
def insertBack {α : Type} (less : α → α → Bool) (x : α) : List α → List α
  | [] => [x]
  | y :: ys => if less x y then y :: insertBack less x ys else x :: y :: ys

/-- The call `sort.Slice`, as the insertion sort that it is for at most 12 elements. For a
longer slice `sort.Slice` gives a sorted arrangement too, in which elements that the
order does not tell apart may stand in another order. -/
def sortSlice {α : Type} (less : α → α → Bool) (l : List α) : List α :=
  (l.foldl (fun acc x => insertBack less x acc) []).reverse

/-! ## The SFV pass and `SrrFile.Unmarshal` -/

/-- The variables of the SFV pass: `f.SFVComments` and the map `sfv`, its entries in
insertion order. -/
structure SfvState where
  comments : List Bytes
  table : List (Bytes × Nat)
  deriving DecidableEq, Repr

/-- The loop over the lines of one `.sfv` file; the error ends `Unmarshal`. -/
def sfvLines (R : Runtime) (sfvPath : Bytes) : List Bytes → SfvState → SfvState × Option Error
  | [], st => (st, none)
  | line :: rest, st =>
    let l := trimCRLF line
    if line.length < 10 then
      sfvLines R sfvPath rest
        (if l ≠ [] then { st with comments := st.comments ++ [l] } else st)
    else if (rxSeq reSFVComment l).isSome then
      sfvLines R sfvPath rest { st with comments := st.comments ++ [l] }
    else
      match rxSearch reSFV l with
      | none => sfvLines R sfvPath rest st
      | some (pre, caps) =>
        let file := sfvPath ++ R.ToLower (pre ++ caps.getD 1 [])
        let crc := pre ++ caps.getD 3 []
        match ParseUint crc with
        | .error e => (st, some e)
        | .ok crc64 =>
          match st.table.lookup file with
          | some crc32 =>
            if crc32 ≠ crc64 % 2 ^ 32 then (st, some .ErrDuplSFV)
            else sfvLines R sfvPath rest st
          | none =>
            sfvLines R sfvPath rest { st with table := st.table ++ [(file, crc64 % 2 ^ 32)] }

/-- The loop over `f.StoredFiles`. -/
def sfvFiles (R : Runtime) : List StoredFile → SfvState → SfvState × Option Error
  | [], st => (st, none)
  | v :: vs, st =>
    if R.ToLower (filepathExt v.Path) = [46, 115, 102, 118] then
      let dir := R.ToLower (filepathDir v.Path)
      let sfvPath := if dir = [46] then [] else dir ++ [47]
      match sfvLines R sfvPath (findAllLines v.Data) st with
      | (st1, none) => sfvFiles R vs st1
      | (st1, some e) => (st1, some e)
    else sfvFiles R vs st

/-- The inner loop of the correlation pass, for one entry of the map. -/
def correlateOne (R : Runtime) (filename : Bytes) (crc : Nat) :
    List Nat → List RarFile → List RarFile
  | [], heap => heap
  | p :: ps, heap =>
    let rarPath := R.ToLower (deref heap p).Path
    if rarPath = filename then store heap p { deref heap p with CRC := crc }
    else if filepathBase rarPath = filepathBase filename ∧ (deref heap p).CRC = 0 then
      correlateOne R filename crc ps (store heap p { deref heap p with CRC := crc })
    else correlateOne R filename crc ps heap

/-- The correlation pass over the entries of the map, in the order they are visited. -/
def correlate (R : Runtime) (entries : List (Bytes × Nat)) (rarFiles : List Nat)
    (heap : List RarFile) : List RarFile :=
  entries.foldl (fun h e => correlateOne R e.1 e.2 rarFiles h) heap

/-- The order of the sort on paths: by lower-case path, then by path. -/
def keyLess (R : Runtime) (p q : Bytes) : Bool :=
  if R.ToLower p = R.ToLower q then strLess p q else strLess (R.ToLower p) (R.ToLower q)

/-- The order function given to `sort.Slice`. -/
def rarLess (R : Runtime) (heap : List RarFile) (i j : Nat) : Bool :=
  keyLess R (deref heap i).Path (deref heap j).Path

/-- How a call of `Unmarshal` ends: it returns (the record as it is then, and the error,
`none` for `nil`), or the program crashes. -/
inductive Outcome where
  | returned (f : SrrFile) (err : Option Error)
  | crashed
  deriving DecidableEq, Repr

/-- What follows the block loop when its condition fails: SFV pass, correlation, sort. -/
def finish (R : Runtime) (s : WalkState) : Outcome :=
  match sfvFiles R s.StoredFiles { comments := s.SFVComments, table := [] } with
  | (st, some e) => .returned { s.toFile with SFVComments := st.comments } (some e)
  | (st, none) =>
    let heap := correlate R (R.mapOrder st.table) s.RarFiles s.rarHeap
    let sorted := sortSlice (rarLess R heap) s.RarFiles
    .returned { s.toFile with RarFiles := sorted.map (deref heap),
                              SFVComments := st.comments } none

/-- `SrrFile.Unmarshal` on the record `f0` and the input `b`; `none` when the block loop
has not ended within `fuel` turns. -/
def Unmarshal (R : Runtime) (f0 : SrrFile) (b : Bytes) (fuel : Nat) : Option Outcome :=
  match walk b fuel (WalkState.init f0) with
  | none => none
  | some .crashed => some .crashed
  | some (.failed s e) => some (.returned s.toFile (some e))
  | some (.stopped s) => some (.returned s.toFile none)
  | some (.completed s) => some (finish R s)

/-- The record before a first call of `Unmarshal`. -/
def SrrFile.empty : SrrFile :=
  { ApplicationName := [], StoredFiles := [], OSOHashes := [], RarFiles := [],
    RarCompressed := false, PackedFiles := [], SFVComments := [] }

/-! ## Inputs of the examples -/

/-- A file-head block of 33 bytes (`header.Size = 33`): low flag byte `flags`, pack size
`pack` (one byte), file CRC `crc` (one byte), method `method`, name `x`. -/
def fileHeadBytes (flags pack crc method : UInt8) : Bytes :=
  [0, 0, 0x74, flags, 0, 33, 0,
   pack, 0, 0, 0,  0, 0, 0, 0,  0,  crc, 0, 0, 0,  0, 0, 0, 0,  29, method,  1, 0,
   0, 0, 0, 0,  120]

/-- Three file heads named `x`: CRC 1; CRC 2; then a continuation (`LHD_SPLIT_BEFORE`)
with CRC 1. -/
def dupInput : Bytes :=
  fileHeadBytes 0 5 1 0x30 ++ fileHeadBytes 0 5 2 0x30 ++ fileHeadBytes 1 5 1 0x30

/-- An SRR rar sub-block head of 10 bytes with a name of one byte. -/
def subBlockBytes (name : UInt8) : Bytes := [0x71, 0x71, 0x71, 0, 0, 10, 0,  1, 0,  name]

/-- Sub-block heads `b` and `a`, then a block of the unknown type `0x01`. -/
def unsortedInput : Bytes :=
  subBlockBytes 98 ++ subBlockBytes 97 ++ [0, 0, 0x01, 0, 0, 7, 0]

/-- An SRR pad block: `HAS_DATA`, `header.Size = 11`, two pad bytes. -/
def padBytes : Bytes := [0x6C, 0x6C, 0x6C, 0x00, 0x80, 11, 0,  2, 0, 0, 0,  0, 0]

/-- The RAR marker block `Rar!\x1a\x07\x00`: type `0x72`, size 7. -/
def markBytes : Bytes := [0x52, 0x61, 0x72, 0x21, 0x1a, 0x07, 0x00]

/-- A sub-block head, a pad block, a mark head. -/
def padMarkInput : Bytes := subBlockBytes 98 ++ padBytes ++ markBytes

/-- A file-head block of 41 bytes with `LHD_LARGE` (flags `0x01xx`, low byte `flags`):
low pack size 0, high pack size `0x80000000`, file CRC 1, method `0x30`, name `x`. -/
def fileHeadLargeBytes (flags : UInt8) : Bytes :=
  [0, 0, 0x74, flags, 0x01, 41, 0,
   0, 0, 0, 0,  0, 0, 0, 0,  0,  1, 0, 0, 0,  0, 0, 0, 0,  29, 0x30,  1, 0,  0, 0, 0, 0,
   0, 0, 0, 0x80,  0, 0, 0, 0,  120]

/-- A file named `x` with CRC 1 and method `0x30`, split in two parts whose pack sizes
are `2^63` each. -/
def overflowInput : Bytes := fileHeadLargeBytes 0 ++ fileHeadLargeBytes 1

/-- A file-head block of 33 bytes: low flag byte `flags`, pack size `p0 + 256 p1 +
65536 p2`, file CRC 1, method `0x30`, name `x`. -/
def splitHeadBytes (flags p0 p1 p2 : UInt8) : Bytes :=
  [0, 0, 0x74, flags, 0, 33, 0,
   p0, p1, p2, 0,  0, 0, 0, 0,  0,  1, 0, 0, 0,  0, 0, 0, 0,  29, 0x30,  1, 0,
   0, 0, 0, 0,  120]

/-- The split file of the specification: a part of 500000 bytes with `LHD_SPLIT_AFTER`,
a part of 300000 bytes with `LHD_SPLIT_BEFORE`. -/
def splitInput : Bytes := splitHeadBytes 2 0x20 0xA1 0x07 ++ splitHeadBytes 1 0xE0 0x93 0x04

/-- The file head that `splitHeadBytes` encodes. -/
def splitHead (flags pack : Nat) : FileHeadBlock :=
  { toRarHeader := { CRC := 0, HeadType := 0x74, Flags := flags, Size := 33 },
    LowPackSize := pack, LowUnpackSize := 0, HostOS := 0, FileCRC := 1, FileTime := 0,
    UnpackVersion := 29, Method := 0x30, NameSize := 1, FileAttr := 0, HighPackSize := 0,
    HighUnpackSize := 0, FileName := [120], Salt := 0 }

/-- The magic of a custom SRR block type: the type byte repeated (`0x6969` for `0x69`). -/
def magic (t : Nat) : Nat := t * 256 + t

/-- The five custom SRR block types. -/
def customTypes : List Nat :=
  [SrrVolHead, SrrStoredFileHead, OSOHashHead, SrrRarPadHead, SrrRarSubBlockHead]

/-- A volume head whose CRC field is `0x6900`. -/
def badMagicInput : Bytes := [0x00, 0x69, 0x69, 0, 0, 7, 0]

/-- A file-head block of 33 bytes: low flag byte `flags`, pack size 5, file CRC 1, method
`0x30`, a name of the one byte `name`. -/
def namedHeadBytes (flags name : UInt8) : Bytes :=
  [0, 0, 0x74, flags, 0, 33, 0,
   5, 0, 0, 0,  0, 0, 0, 0,  0,  1, 0, 0, 0,  0, 0, 0, 0,  29, 0x30,  1, 0,
   0, 0, 0, 0,  name]

/-- The file head that `namedHeadBytes` encodes. -/
def namedHead (flags : Nat) (name : UInt8) : FileHeadBlock :=
  { toRarHeader := { CRC := 0, HeadType := 0x74, Flags := flags, Size := 33 },
    LowPackSize := 5, LowUnpackSize := 0, HostOS := 0, FileCRC := 1, FileTime := 0,
    UnpackVersion := 29, Method := 0x30, NameSize := 1, FileAttr := 0, HighPackSize := 0,
    HighUnpackSize := 0, FileName := [name], Salt := 0 }

/-- A file head named `x`, then a continuation (`LHD_SPLIT_BEFORE`) named `y`. -/
def badDataInput : Bytes := namedHeadBytes 0 120 ++ namedHeadBytes 1 121

/-- The state of the loop on `badDataInput` after the first block. -/
def badDataState : WalkState :=
  (stateAt badDataInput SrrFile.empty 1).getD (WalkState.init SrrFile.empty)

/-- A new-sub block of 43 bytes with `LHD_LARGE`, low and high pack size `0xFFFFFFFF`,
named `CMT`. -/
def newSubWrapInput : Bytes :=
  [0, 0, 0x7A, 0x00, 0x01, 43, 0,
   0xFF, 0xFF, 0xFF, 0xFF,  0, 0, 0, 0,  0,  0, 0, 0, 0,  0, 0, 0, 0,  29, 0x30,  3, 0,
   0, 0, 0, 0,  0xFF, 0xFF, 0xFF, 0xFF,  0, 0, 0, 0,  67, 77, 84]

/-- A new-sub block of 35 bytes named `CMT` with pack size 2 and two bytes of data, then
an end-archive block. -/
def newSubInput : Bytes :=
  [0, 0, 0x7A, 0x00, 0x00, 35, 0,
   2, 0, 0, 0,  0, 0, 0, 0,  0,  0, 0, 0, 0,  0, 0, 0, 0,  29, 0x30,  3, 0,
   0, 0, 0, 0,  67, 77, 84,  9, 9,
   0, 0, 0x7B, 0, 0, 7, 0]

/-- A protect-head block of 18 bytes with `HAS_DATA` and packed size 5. -/
def protectInput : Bytes :=
  [0, 0, 0x78, 0x00, 0x80, 18, 0,  5, 0, 0, 0,  1,  0, 0,  0, 0, 0, 0]

/-- The state of the loop on `newSubInput` after the first block. -/
def newSubState : WalkState :=
  (stateAt newSubInput SrrFile.empty 1).getD (WalkState.init SrrFile.empty)

/-- The state of the loop on `protectInput` after the first block. -/
def protectState : WalkState :=
  (stateAt protectInput SrrFile.empty 1).getD (WalkState.init SrrFile.empty)

/-- A stored-file block with the right magic and without `HAS_DATA`. -/
def noDataInput : Bytes := [0x6A, 0x6A, 0x6A, 0x00, 0x00, 7, 0]

/-- The types of the three blocks that need `HAS_DATA`. -/
def dataTypes : List Nat := [SrrStoredFileHead, SrrRarPadHead, ProtectHead]

/-- A file head with `LHD_LARGE` and the given pack and unpack words. -/
def largeHead (lowPack highPack lowUnpack highUnpack : Nat) : FileHeadBlock :=
  { toRarHeader := { CRC := 0, HeadType := 0x74, Flags := 0x100, Size := 41 },
    LowPackSize := lowPack, LowUnpackSize := lowUnpack, HostOS := 0, FileCRC := 1,
    FileTime := 0, UnpackVersion := 29, Method := 0x30, NameSize := 1, FileAttr := 0,
    HighPackSize := highPack, HighUnpackSize := highUnpack, FileName := [120], Salt := 0 }

/-- The minimum SRR of the specification: header size `0x0D` and name length 4, then the
nine bytes `pyReScene`. -/
def specMinInput : Bytes :=
  [0x69, 0x69, 0x69, 0x01, 0x00, 0x0D, 0x00, 0x04, 0x00,
   112, 121, 82, 101, 83, 99, 101, 110, 101]

/-- A volume head of 18 bytes with the application name `pyReScene`: header size `0x12`,
name length 9. -/
def minInput : Bytes :=
  [0x69, 0x69, 0x69, 0x01, 0x00, 0x12, 0x00, 0x09, 0x00,
   112, 121, 82, 101, 83, 99, 101, 110, 101]

/-- An SRR stored-file block with the given name and data (each shorter than 200
bytes). -/
def storedFileBytes (name data : Bytes) : Bytes :=
  [0x6A, 0x6A, 0x6A, 0x00, 0x80, UInt8.ofNat (13 + name.length), 0,
   UInt8.ofNat data.length, 0, 0, 0, UInt8.ofNat name.length, 0] ++ name ++ data

/-- An SRR rar sub-block head with the given name (shorter than 200 bytes). -/
def subBlockNamed (name : Bytes) : Bytes :=
  [0x71, 0x71, 0x71, 0, 0, UInt8.ofNat (9 + name.length), 0, UInt8.ofNat name.length, 0] ++ name

/-- The SFV files `d/x.sfv` with the line `a.rar 11111111` and `e/y.sfv` with the line
`a.rar 22222222`, then the RAR file `a.rar`. -/
def twoSfvInput : Bytes :=
  storedFileBytes [100, 47, 120, 46, 115, 102, 118]
      [97, 46, 114, 97, 114, 32, 49, 49, 49, 49, 49, 49, 49, 49, 10] ++
    storedFileBytes [101, 47, 121, 46, 115, 102, 118]
      [97, 46, 114, 97, 114, 32, 50, 50, 50, 50, 50, 50, 50, 50, 10] ++
    subBlockNamed [97, 46, 114, 97, 114]

/-- The runtime `asciiRuntime`, with the entries of a map visited in the opposite
order. -/
def reverseRuntime : Runtime :=
  { ToLower := asciiRuntime.ToLower, mapOrder := fun t => t.reverse }

/-- An OSO hash block for the file `x` of size 5 with hash 9, then a volume head. -/
def osoInput : Bytes :=
  [0x6B, 0x6B, 0x6B, 0, 0, 26, 0,  5, 0, 0, 0, 0, 0, 0, 0,  9, 0, 0, 0, 0, 0, 0, 0,
   1, 0,  120,
   0x69, 0x69, 0x69, 0, 0, 7, 0]

/-- The OSO hash block that `osoInput` starts with. -/
def osoBlock : OSOHashHeadBlock :=
  { toRarHeader := { CRC := 0x6B6B, HeadType := 0x6B, Flags := 0, Size := 26 },
    FileSize := 5, OSOHash := 9, NameSize := 1, FileName := [120] }

/-- The stored file `a.txt` with an SFV line in it, then the RAR file `a.rar`. -/
def noSfvInput : Bytes :=
  storedFileBytes [97, 46, 116, 120, 116]
      [97, 46, 114, 97, 114, 32, 49, 49, 49, 49, 49, 49, 49, 49, 10] ++
    subBlockNamed [97, 46, 114, 97, 114]

/-- The record that `Unmarshal` makes of `noSfvInput`. -/
def noSfvFile : SrrFile :=
  { ApplicationName := [],
    StoredFiles := [⟨[97, 46, 116, 120, 116],
                     [97, 46, 114, 97, 114, 32, 49, 49, 49, 49, 49, 49, 49, 49, 10]⟩],
    OSOHashes := [],
    RarFiles := [⟨[97, 46, 114, 97, 114], 0, 0, false, false⟩],
    RarCompressed := false, PackedFiles := [], SFVComments := [] }

/-- The type tags that the switch of the block loop has a case for. -/
def knownTypes : List Nat :=
  [EmptyHead, SrrVolHead, SrrStoredFileHead, OSOHashHead, SrrRarPadHead, SrrRarSubBlockHead,
   MarkHead, MainHead, FileHead, CommHead, AvHead, SubHead, ProtectHead, SignHead,
   NewSubHead, EndArcHead]

/-- A volume head with header size 7 and an application name of 8 bytes, which lie after
the 7 bytes of the block; the next header, at offset 7, has the type `0x01`. The last byte
of the input is `x`. -/
def overlapInput (x : UInt8) : Bytes :=
  [0x69, 0x69, 0x69, 0x01, 0x00, 0x07, 0x00,
   0x08, 0x00, 0x01, 0x00, 0x00, 0x07, 0x00,  0x00, 0x00, x]

/-- A volume head with the application name `ab`, then a block of type `0x01`. -/
def unknownTagInput : Bytes :=
  [0x69, 0x69, 0x69, 0x01, 0x00, 0x0B, 0x00, 0x02, 0x00, 97, 98,
   0x00, 0x00, 0x01, 0x00, 0x00, 0x07, 0x00, 0xFF]

/-- The key and the CRC text that a line of an SFV file gives to the table: what the loop
over the lines computes as `file` and `crc` for a line that is long enough, is no comment
and matches `reSFV`; `none` for every other line. -/
def lineBinding (R : Runtime) (sfvPath : Bytes) (line : Bytes) : Option (Bytes × Bytes) :=
  let l := trimCRLF line
  if line.length < 10 then none
  else if (rxSeq reSFVComment l).isSome then none
  else
    match rxSearch reSFV l with
    | none => none
    | some (pre, caps) => some (sfvPath ++ R.ToLower (pre ++ caps.getD 1 []), pre ++ caps.getD 3 [])

/-- The keys and CRC texts of the lines of a stored file, in order; none when the file is
no `.sfv` file. -/
def fileBindings (R : Runtime) (v : StoredFile) : List (Bytes × Bytes) :=
  if R.ToLower (filepathExt v.Path) = [46, 115, 102, 118] then
    let dir := R.ToLower (filepathDir v.Path)
    let sfvPath := if dir = [46] then [] else dir ++ [47]
    (findAllLines v.Data).filterMap (lineBinding R sfvPath)
  else []

/-- The keys and CRC texts of the SFV lines of all stored files, in the order of the
loops. -/
def sfvBindings (R : Runtime) : List StoredFile → List (Bytes × Bytes)
  | [] => []
  | v :: vs => fileBindings R v ++ sfvBindings R vs

/-- What the SFV pass does with the keys and CRC texts, one after the other: the table
and the error. -/
def scanBindings : List (Bytes × Bytes) → List (Bytes × Nat) → List (Bytes × Nat) × Option Error
  | [], tbl => (tbl, none)
  | (file, crc) :: rest, tbl =>
    match ParseUint crc with
    | .error e => (tbl, some e)
    | .ok crc64 =>
      match tbl.lookup file with
      | some crc32 =>
        if crc32 ≠ crc64 % 2 ^ 32 then (tbl, some .ErrDuplSFV) else scanBindings rest tbl
      | none => scanBindings rest (tbl ++ [(file, crc64 % 2 ^ 32)])

/-- The SFV file `x.sfv` with the lines `\x01bc 12345678`, `a.rar 11111111` and
`a.rar 22222222`. -/
def dupSyntaxInput : Bytes :=
  storedFileBytes [120, 46, 115, 102, 118]
    ([1, 98, 99, 32, 49, 50, 51, 52, 53, 54, 55, 56, 10] ++
     [97, 46, 114, 97, 114, 32, 49, 49, 49, 49, 49, 49, 49, 49, 10] ++
     [97, 46, 114, 97, 114, 32, 50, 50, 50, 50, 50, 50, 50, 50, 10])

/-- The SFV file `x.sfv` with the lines `a.rar 11111111` and `a.rar 22222222`. -/
def duplInput : Bytes :=
  storedFileBytes [120, 46, 115, 102, 118]
    ([97, 46, 114, 97, 114, 32, 49, 49, 49, 49, 49, 49, 49, 49, 10] ++
     [97, 46, 114, 97, 114, 32, 50, 50, 50, 50, 50, 50, 50, 50, 10])

/-- The state in which the block loop on `duplInput` ends. -/
def duplState : WalkState :=
  { (WalkState.init SrrFile.empty) with
    StoredFiles := [⟨[120, 46, 115, 102, 118],
      [97, 46, 114, 97, 114, 32, 49, 49, 49, 49, 49, 49, 49, 49, 10] ++
      [97, 46, 114, 97, 114, 32, 50, 50, 50, 50, 50, 50, 50, 50, 10]⟩],
    offset := 48,
    prevHeader := { CRC := 0x6A6A, HeadType := 0x6A, Flags := 0x8000, Size := 18 } }

/-- The SFV file `x.sfv` with the line `a.rar 11111111`, then two RAR files `a.rar`. -/
def samePathInput : Bytes :=
  storedFileBytes [120, 46, 115, 102, 118]
      [97, 46, 114, 97, 114, 32, 49, 49, 49, 49, 49, 49, 49, 49, 10] ++
    subBlockNamed [97, 46, 114, 97, 114] ++ subBlockNamed [97, 46, 114, 97, 114]

/-- The SFV file `x.sfv` with the line `a.rar 00000000`, the SFV file `d/y.sfv` with the
line `a.rar 11111111`, then the RAR file `a.rar`. -/
def zeroCrcInput : Bytes :=
  storedFileBytes [120, 46, 115, 102, 118]
      [97, 46, 114, 97, 114, 32, 48, 48, 48, 48, 48, 48, 48, 48, 10] ++
    storedFileBytes [100, 47, 121, 46, 115, 102, 118]
      [97, 46, 114, 97, 114, 32, 49, 49, 49, 49, 49, 49, 49, 49, 10] ++
    subBlockNamed [97, 46, 114, 97, 114]

/-- The SFV file `x.sfv` with the line `a.rar 11111111`, then the RAR files `b.rar` and
`a.rar`. -/
def fullPathInput : Bytes :=
  storedFileBytes [120, 46, 115, 102, 118]
      [97, 46, 114, 97, 114, 32, 49, 49, 49, 49, 49, 49, 49, 49, 10] ++
    subBlockNamed [98, 46, 114, 97, 114] ++ subBlockNamed [97, 46, 114, 97, 114]

/-- The state in which the block loop on `fullPathInput` ends. -/
def fullPathState : WalkState :=
  { (WalkState.init SrrFile.empty) with
    StoredFiles := [⟨[120, 46, 115, 102, 118],
      [97, 46, 114, 97, 114, 32, 49, 49, 49, 49, 49, 49, 49, 49, 10]⟩],
    rarHeap := [default, ⟨[98, 46, 114, 97, 114], 0, 0, false, false⟩,
      ⟨[97, 46, 114, 97, 114], 0, 0, false, false⟩],
    RarFiles := [1, 2], currentRarFile := 2, offset := 61,
    prevHeader := { CRC := 0x7171, HeadType := 0x71, Flags := 0, Size := 14 } }

/-- Seven zero bytes: a block of type `0x00` (`EmptyHead`) whose size field is 0. -/
def zeroBlockInput : Bytes := [0, 0, 0, 0, 0, 0, 0]

/-- A main head of 7 bytes whose size field says 64. -/
def truncatedInput : Bytes := [0, 0, 0x73, 0, 0, 64, 0]

/-- The SFV file `x.sfv` with the given text, then the RAR file `ab`. -/
def shortLineInput (text : Bytes) : Bytes :=
  storedFileBytes [120, 46, 115, 102, 118] text ++ subBlockNamed [97, 98]

/-- A stored-file block for the file `a` with no data. -/
def emptyFileInput : Bytes := storedFileBytes [97] []

/-- The stored-file block that `emptyFileInput` is. -/
def emptyFileBlock : SrrStoredFileHeadBlock :=
  { toRarHeader := { CRC := 0x6A6A, HeadType := 0x6A, Flags := 0x8000, Size := 14 },
    DataSize := 0, NameSize := 1, FileName := [97], FileData := [] }

/-! ## Lyrics3 v2.00 blocks (`srs.go`, `matchers.go`) -/

/-- The digit loop of the fast path of `strconv.Atoi`. -/
def atoiDigits : Bytes → Int → Except Error Int
  | [], n => .ok n
  | c :: cs, n =>
    if 48 ≤ c ∧ c ≤ 57 then atoiDigits cs (n * 10 + ((c.toNat - 48 : Nat) : Int))
    else .error .ErrSyntax

/-- The call `strconv.Atoi(s)` for a string of fewer than 19 bytes (the fast path: an
optional sign, then decimal digits); the empty string is a syntax error. -/
def Atoi (s : Bytes) : Except Error Int :=
  match s with
  | [] => .error .ErrSyntax
  | c :: cs =>
    if c = 45 ∨ c = 43 then
      if cs = [] then .error .ErrSyntax
      else
        match atoiDigits cs 0 with
        | .ok n => .ok (if c = 45 then -n else n)
        | .error e => .error e
    else atoiDigits (c :: cs) 0

/-- `Lyrics200Matcher`: at least 11 bytes that start with `LYRICSBEGIN`. -/
def Lyrics200Matcher (buf : Bytes) : Bool :=
  decide (buf.length ≥ 11) && buf.take 11 == [76, 89, 82, 73, 67, 83, 66, 69, 71, 73, 78]

/-- The record `Lyrics200Block`; a nil `Data` is the empty list. -/
structure Lyrics200Block where
  Size : Int
  Data : Bytes
  deriving DecidableEq, Repr

/-- `Lyrics200SubBlock.Size` on the 5 bytes of the field `Len`: `8 + i`, or the error of
`Atoi`. -/
def Lyrics200SubBlock.Size (len : Bytes) : Except Error Int :=
  match Atoi len with
  | .ok i => .ok (intAdd 8 i)
  | .error e => .error e

/-- The loop of `Lyrics200Block.Unmarshal` from the offset `offset`, run for at most `fuel`
turns (`none` when it has not ended by then). A turn returns `ErrUnexpectedEOF` when fewer
than 15 bytes are left, returns the block when the bytes `offset + 6` to `offset + 14` are
`LYRICS200`, and else skips the sub-block, whose data `b[offset+8 : offset+s]` it slices.
When the loop condition fails the function returns `nil` with the block as it was made. -/
def Lyrics200Block.loop (b : Bytes) : Nat → Int → Option (Res Lyrics200Block)
  | 0, _ => none
  | fuel + 1, offset =>
    if offset < (b.length : Int) then
      if offset < 0 then some .crash
      else if (b.length : Int) - offset < 15 then some (.err .ErrUnexpectedEOF)
      else if (b.drop (offset.toNat + 6)).take 9 = [76, 89, 82, 73, 67, 83, 50, 48, 48] then
        some (.ok { Size := ((b.take (offset.toNat + 15)).length : Int),
                    Data := b.take (offset.toNat + 15) })
      else
        match Lyrics200SubBlock.Size ((b.drop (offset.toNat + 3)).take 5) with
        | .error e => some (.err e)
        | .ok s =>
          match goSlice b (intAdd offset 8) (intAdd offset s) with
          | none => some .crash
          | some _ => Lyrics200Block.loop b fuel (intAdd offset s)
    else some (.ok { Size := 0, Data := [] })

/-- `Lyrics200Block.Unmarshal`: the loop from offset 11. -/
def Lyrics200Block.Unmarshal (b : Bytes) (fuel : Nat) : Option (Res Lyrics200Block) :=
  Lyrics200Block.loop b fuel 11

/-- The 11 bytes `LYRICSBEGIN`. -/
def lyricsBegin : Bytes := [76, 89, 82, 73, 67, 83, 66, 69, 71, 73, 78]

/-- `LYRICSBEGIN`, then the sub-block `ABC00007` with 7 bytes of data, and no trailer. -/
def lyricsNoTrailer : Bytes :=
  lyricsBegin ++ [65, 66, 67, 48, 48, 48, 48, 55] ++ [1, 2, 3, 4, 5, 6, 7]

/-- `LYRICSBEGIN`, the sub-block `ABC00007` with 7 bytes of data, then the trailer
`000026LYRICS200`. -/
def lyricsWithTrailer : Bytes :=
  lyricsNoTrailer ++ [48, 48, 48, 48, 50, 54, 76, 89, 82, 73, 67, 83, 50, 48, 48]

/-! ## The size of a RAR file, in the words of the specification -/

/-- The types of the blocks that count with their header size alone. -/
def headerOnlyTypes : List Nat :=
  [MarkHead, MainHead, CommHead, AvHead, SubHead, SignHead, EndArcHead, EmptyHead]

/-- What a block adds to the size of the RAR file it belongs to, in the words of the
specification: the pad size for a pad block; the header size for mark, main, comm, av,
sub, sign, end-archive and empty blocks; the header size and the effective pack size for
file-head and new-sub blocks; the header size and the packed size for protect blocks; 0
for every other block. The fields are those that `Parse` decodes. -/
def claimedBlockSize (h : RarHeader) (data : Bytes) : Int :=
  if h.HeadType = SrrRarPadHead then
    match SrrRarPadHeadBlock.Parse h data with
    | .ok blk => (blk.PadSize : Int)
    | _ => 0
  else if h.HeadType ∈ headerOnlyTypes then (h.Size : Int)
  else if h.HeadType = FileHead then
    match FileHeadBlock.Parse h data with
    | .ok blk => (h.Size : Int) + (specPackSize h.Flags blk.LowPackSize blk.HighPackSize : Nat)
    | _ => 0
  else if h.HeadType = NewSubHead then
    match NewSubHeadBlock.Parse h data with
    | .ok blk => (h.Size : Int) + (specPackSize h.Flags blk.LowPackSize blk.HighPackSize : Nat)
    | _ => 0
  else if h.HeadType = ProtectHead then
    match ProtectHeadBlock.Parse h data with
    | .ok blk => (h.Size : Int) + (blk.PackedSize : Int)
    | _ => 0
  else 0

/-- A list of sums with `x` added to the last one. -/
def addToLast (l : List Int) (x : Int) : List Int :=
  l.set (l.length - 1) (l.getD (l.length - 1) 0 + x)

/-- The sums of what the blocks of the turns `0, ..., n - 1` add, by RAR file: a
sub-block head starts a new sum, at 0, and every other block adds `amt` to the last sum.
The first sum is that of the blocks before the first sub-block head. The amount may
depend on the state before the turn, the state after it, the header, and the bytes from
the cursor on. -/
def tallySizes (amt : WalkState → WalkState → RarHeader → Bytes → Int) (b : Bytes)
    (f0 : SrrFile) : Nat → List Int
  | 0 => [0]
  | n + 1 =>
    match stateAt b f0 n, stateAt b f0 (n + 1) with
    | some s, some s1 =>
      match headerAt b s with
      | some h =>
        if h.HeadType = SrrRarSubBlockHead then tallySizes amt b f0 n ++ [0]
        else addToLast (tallySizes amt b f0 n) (amt s s1 h (b.drop s.offset.toNat))
      | none => tallySizes amt b f0 n
    | _, _ => tallySizes amt b f0 n

/-- The sizes of the entries of `RarFiles` after `n` turns, in the words of the
specification, in the order of the sub-block heads. -/
def claimedSizes (b : Bytes) (f0 : SrrFile) (n : Nat) : List Int :=
  (tallySizes (fun _ _ h data => claimedBlockSize h data) b f0 n).tail

/-- The number of sub-block heads among the blocks of the turns `0, ..., n - 1`. -/
def subBlockTurns (b : Bytes) (f0 : SrrFile) (n : Nat) : Nat :=
  ((List.range n).filter fun k =>
    match (stateAt b f0 k).bind (headerAt b) with
    | some h => decide (h.HeadType = SrrRarSubBlockHead)
    | none => false).length

/-- The single-volume scenario of the specification without its volume head: the
sub-block head of `cd1.rar`, the RAR marker, a main head of 13 bytes with
`MHD_FIRSTVOLUME` and `MHD_NEWNUMBERING`, a file head of 41 bytes for `movie.mkv`
(method `0x30`, pack size 1048576, file CRC `0xDEADBEEF`), and an end-archive block of 7
bytes. -/
def singleVolumeInput : Bytes :=
  subBlockNamed [99, 100, 49, 46, 114, 97, 114] ++ markBytes ++
    [0, 0, 0x73, 0x10, 0x01, 13, 0,  0, 0, 0, 0, 0, 0] ++
    [0, 0, 0x74, 0, 0, 41, 0,
     0, 0, 0x10, 0,  0, 0, 0x10, 0,  0,  0xEF, 0xBE, 0xAD, 0xDE,  0, 0, 0, 0,  29, 0x30,
     9, 0,  0, 0, 0, 0,  109, 111, 118, 105, 101, 46, 109, 107, 118] ++
    [0, 0, 0x7B, 0, 0, 7, 0]

/-- The record that `Unmarshal` makes of `singleVolumeInput`. -/
def singleVolumeFile : SrrFile :=
  { ApplicationName := [], StoredFiles := [], OSOHashes := [],
    RarFiles := [⟨[99, 100, 49, 46, 114, 97, 114], 1048644, 0, true, true⟩],
    RarCompressed := false,
    PackedFiles := [⟨[109, 111, 118, 105, 101, 46, 109, 107, 118], 1048576, 0xDEADBEEF⟩],
    SFVComments := [] }

/-- A sub-block head, then a file head with `LHD_LARGE` whose pack size is `2^63`. -/
def largeVolumeInput : Bytes := subBlockBytes 97 ++ fileHeadLargeBytes 0

/-- The types of the blocks of a RAR volume (the RAR framing). -/
def framingTypes : List Nat :=
  [MarkHead, MainHead, FileHead, CommHead, AvHead, SubHead, ProtectHead, SignHead,
   NewSubHead, EndArcHead, EmptyHead]

/-- The size of the payload of a block that the SRR leaves out: the effective pack size of
a file head and of a new-sub block named `RR`, the packed size of a protect block. -/
def omittedPayload (h : RarHeader) (data : Bytes) : Int :=
  if h.HeadType = FileHead then
    match FileHeadBlock.Parse h data with
    | .ok blk => (specPackSize h.Flags blk.LowPackSize blk.HighPackSize : Nat)
    | _ => 0
  else if h.HeadType = NewSubHead then
    match NewSubHeadBlock.Parse h data with
    | .ok blk =>
      if blk.GetFileName = [0x52, 0x52] then
        (specPackSize h.Flags blk.LowPackSize blk.HighPackSize : Nat)
      else 0
    | _ => 0
  else if h.HeadType = ProtectHead then
    match ProtectHeadBlock.Parse h data with
    | .ok blk => (blk.PackedSize : Int)
    | _ => 0
  else 0

/-- The bytes of the RAR volume that a block stands for: for a block of the RAR framing,
the SRR input bytes it occupies (from the cursor before the turn to the cursor after it)
and the payload that the SRR leaves out; for a pad block its pad size; 0 for the other
SRR blocks. -/
def rarBytes (s s1 : WalkState) (h : RarHeader) (data : Bytes) : Int :=
  if h.HeadType ∈ framingTypes then (s1.offset - s.offset) + omittedPayload h data
  else if h.HeadType = SrrRarPadHead then
    match SrrRarPadHeadBlock.Parse h data with
    | .ok blk => (blk.PadSize : Int)
    | _ => 0
  else 0

/-- The sums of `rarBytes` by entry of `RarFiles` after `n` turns, in the order of the
sub-block heads. -/
def occupiedSizes (b : Bytes) (f0 : SrrFile) (n : Nat) : List Int :=
  (tallySizes rarBytes b f0 n).tail

/-! # Theorems -/

set_option linter.unreachableTactic false

set_option linter.unusedTactic false

set_option linter.unusedVariables false

/-! ## The block loop: turns and states -/

theorem stateFrom_succ_head (b : Bytes) (s : WalkState) (k : Nat) :
    stateFrom b s (k + 1) = (advance b s).bind (fun s' => stateFrom b s' k) := by
  induction k with
  | zero => simp [stateFrom]
  | succ k ih =>
    rw [stateFrom, ih, Option.bind_assoc]
    rfl

theorem walk_ends (b : Bytes) (fuel : Nat) (s : WalkState) (e : WalkEnd)
    (h : walk b fuel s = some e) :
    ∃ k sf, k < fuel ∧ stateFrom b s k = some sf ∧ endAt b sf = some e := by
  induction fuel generalizing s with
  | zero => simp [walk] at h
  | succ fuel ih =>
    rw [walk] at h
    by_cases hlt : s.offset < (b.length : Int)
    · rw [if_pos hlt] at h
      cases hstep : step b s with
      | next s' =>
        rw [hstep] at h
        obtain ⟨k, sf, hk, hsf, he⟩ := ih s' h
        refine ⟨k + 1, sf, by omega, ?_, he⟩
        rw [stateFrom_succ_head]
        simp [advance, hlt, hstep, hsf]
      | stop =>
        rw [hstep] at h
        exact ⟨0, s, by omega, rfl, by simp [endAt, hlt, hstep, ← h]⟩
      | fail err =>
        rw [hstep] at h
        exact ⟨0, s, by omega, rfl, by simp [endAt, hlt, hstep, ← h]⟩
      | crash =>
        rw [hstep] at h
        exact ⟨0, s, by omega, rfl, by simp [endAt, hlt, hstep, ← h]⟩
    · rw [if_neg hlt] at h
      exact ⟨0, s, by omega, rfl, by simp [endAt, hlt, ← h]⟩

theorem walk_of_endAt (b : Bytes) (k : Nat) (s sf : WalkState) (e : WalkEnd) (fuel : Nat)
    (hs : stateFrom b s k = some sf) (he : endAt b sf = some e) (hk : k < fuel) :
    walk b fuel s = some e := by
  induction k generalizing s fuel with
  | zero =>
    simp [stateFrom] at hs
    subst hs
    obtain ⟨fuel, rfl⟩ : ∃ n, fuel = n + 1 := ⟨fuel - 1, by omega⟩
    rw [walk]
    unfold endAt at he
    by_cases hlt : s.offset < (b.length : Int)
    · rw [if_pos hlt] at he ⊢
      cases hstep : step b s <;> rw [hstep] at he <;> simp_all
    · rw [if_neg hlt] at he ⊢
      exact he
  | succ k ih =>
    obtain ⟨fuel, rfl⟩ : ∃ n, fuel = n + 1 := ⟨fuel - 1, by omega⟩
    rw [stateFrom_succ_head] at hs
    cases hadv : advance b s with
    | none => simp [hadv] at hs
    | some s' =>
      rw [hadv] at hs
      simp only [Option.some_bind] at hs
      have := ih s' fuel hs (by omega)
      unfold advance at hadv
      rw [walk]
      by_cases hlt : s.offset < (b.length : Int)
      · rw [if_pos hlt] at hadv ⊢
        cases hstep : step b s <;> rw [hstep] at hadv <;> simp_all
      · rw [if_neg hlt] at hadv
        simp at hadv

/-! ## Decoders -/

theorem Res.bind_eq_ok {α β : Type} (x : Res α) (f : α → Res β) (y : β) :
    (x >>= f) = .ok y ↔ ∃ a, x = .ok a ∧ f a = .ok y := by
  cases x with
  | ok a => exact ⟨fun h => ⟨a, rfl, h⟩, fun ⟨a', ha, h⟩ => (by cases ha; exact h)⟩
  | err e => exact ⟨fun h => (by cases h), fun ⟨a', ha, _⟩ => (by cases ha)⟩
  | crash => exact ⟨fun h => (by cases h), fun ⟨a', ha, _⟩ => (by cases ha)⟩

theorem leNat_lt (bs : Bytes) : leNat bs < 256 ^ bs.length := by
  induction bs with
  | nil => simp [leNat]
  | cons x xs ih =>
    have hx : x.toNat < 256 := x.val.isLt
    simp only [leNat, List.length_cons, pow_succ]
    omega

theorem readBytes_length (n : Nat) (buf bs rest : Bytes) (h : readBytes n buf = .ok (bs, rest)) :
    bs.length = n ∧ buf = bs ++ rest := by
  unfold readBytes at h
  split_ifs at h with h1 h2 h3
  · simp at h; obtain ⟨rfl, rfl⟩ := h; simp [h1]
  · simp at h
    obtain ⟨rfl, rfl⟩ := h
    simp; omega

theorem readUint_lt (n : Nat) (buf rest : Bytes) (v : Nat) (h : readUint n buf = .ok (v, rest)) :
    v < 256 ^ n := by
  unfold readUint at h
  split at h <;> simp at h
  rename_i bs r heq
  obtain ⟨rfl, rfl⟩ := h
  have := (readBytes_length n buf bs r heq).1
  rw [← this]
  exact leNat_lt bs

theorem readUintIf_lt (flag : Bool) (n : Nat) (buf rest : Bytes) (v : Nat)
    (h : readUintIf flag n buf = .ok (v, rest)) : v < 256 ^ n := by
  unfold readUintIf at h
  split_ifs at h
  · exact readUint_lt n buf rest v h
  · simp at h
    rw [← h.1]
    positivity

theorem fileHead_parse_ok (h : RarHeader) (data : Bytes) (blk : FileHeadBlock)
    (hp : FileHeadBlock.Parse h data = .ok blk) :
    blk.toRarHeader = h ∧ blk.LowPackSize < 2 ^ 32 ∧ blk.HighPackSize < 2 ^ 32 := by
  unfold FileHeadBlock.Parse at hp
  simp only [Res.bind_eq_ok] at hp
  obtain ⟨buf0, -, ⟨lp, b1⟩, h1, ⟨lu, b2⟩, -, ⟨ho, b3⟩, -, ⟨fc, b4⟩, -, ⟨ft, b5⟩, -, ⟨uv, b6⟩, -,
    ⟨me, b7⟩, -, ⟨ns, b8⟩, -, ⟨fa, b9⟩, -, ⟨hpk, b10⟩, h10, ⟨hu, b11⟩, -, ⟨nm, b12⟩, -,
    ⟨sa, b13⟩, -, hfin⟩ := hp
  simp only [pure] at hfin
  injection hfin with hfin
  subst hfin
  exact ⟨rfl, readUint_lt 4 _ _ _ h1, readUintIf_lt _ 4 _ _ _ h10⟩

theorem Res.andThen_eq_next {α : Type} (r : Res α) (k : α → StepResult) (s' : WalkState) :
    r.andThen k = .next s' ↔ ∃ a, r = .ok a ∧ k a = .next s' := by
  cases r <;> simp [Res.andThen]

theorem headerAt_some (b : Bytes) (s : WalkState) (h : RarHeader) (hh : headerAt b s = some h) :
    s.offset < (b.length : Int) ∧
      ∃ hb, goSlice b s.offset (intAdd s.offset 7) = some hb ∧ RarHeader.Parse hb = .ok h := by
  unfold headerAt at hh
  split_ifs at hh with hlt
  refine ⟨hlt, ?_⟩
  split at hh
  · simp at hh
  · rename_i hb hg
    split at hh
    · rename_i hd hp
      simp at hh
      subst hh
      exact ⟨hb, hg, hp⟩
    · simp at hh

theorem step_of_headerAt (b : Bytes) (s : WalkState) (h : RarHeader)
    (hh : headerAt b s = some h) : step b s = dispatch (b.drop s.offset.toNat) s h := by
  obtain ⟨-, hb, hg, hp⟩ := headerAt_some b s h hh
  simp [step, hg, hp, Res.andThen]

theorem advance_some (b : Bytes) (s s' : WalkState) :
    advance b s = some s' ↔ s.offset < (b.length : Int) ∧ step b s = .next s' := by
  unfold advance
  by_cases hlt : s.offset < (b.length : Int)
  · simp only [hlt, if_true, true_and]
    cases step b s <;> simp
  · simp [hlt]

theorem headerAt_of_advance (b : Bytes) (s s' : WalkState) (ha : advance b s = some s') :
    ∃ h, headerAt b s = some h ∧ dispatch (b.drop s.offset.toNat) s h = .next s' := by
  obtain ⟨hlt, hs⟩ := (advance_some b s s').1 ha
  unfold step at hs
  split at hs
  · simp at hs
  · rename_i hb hg
    obtain ⟨h, hp, hd⟩ := (Res.andThen_eq_next _ _ _).1 hs
    exact ⟨h, by simp [headerAt, hlt, hg, hp], hd⟩

/-- A turn of the loop on a block that is no file head leaves the packed files and
`RarCompressed` as they are. -/
theorem dispatch_frame (data : Bytes) (s s' : WalkState) (h : RarHeader)
    (hty : h.HeadType ≠ FileHead) (hd : dispatch data s h = .next s') :
    s'.packed = s.packed ∧ s'.RarCompressed = s.RarCompressed := by
  unfold dispatch at hd
  by_cases h0 : h.HeadType = SrrVolHead
  · rw [if_pos h0] at hd
    try unfold stepPassive at hd
    try (rw [Res.andThen_eq_next] at hd; obtain ⟨_, _, hd⟩ := hd)
    try (rw [Res.andThen_eq_next] at hd; obtain ⟨_, _, hd⟩ := hd)
    injection hd with hd
    subst hd
    exact ⟨rfl, rfl⟩
  rw [if_neg h0] at hd
  by_cases h1 : h.HeadType = SrrStoredFileHead
  · rw [if_pos h1] at hd
    try unfold stepPassive at hd
    try (rw [Res.andThen_eq_next] at hd; obtain ⟨_, _, hd⟩ := hd)
    try (rw [Res.andThen_eq_next] at hd; obtain ⟨_, _, hd⟩ := hd)
    injection hd with hd
    subst hd
    exact ⟨rfl, rfl⟩
  rw [if_neg h1] at hd
  by_cases h2 : h.HeadType = OSOHashHead
  · rw [if_pos h2] at hd
    try unfold stepPassive at hd
    try (rw [Res.andThen_eq_next] at hd; obtain ⟨_, _, hd⟩ := hd)
    try (rw [Res.andThen_eq_next] at hd; obtain ⟨_, _, hd⟩ := hd)
    injection hd with hd
    subst hd
    exact ⟨rfl, rfl⟩
  rw [if_neg h2] at hd
  by_cases h3 : h.HeadType = SrrRarPadHead
  · rw [if_pos h3] at hd
    try unfold stepPassive at hd
    try (rw [Res.andThen_eq_next] at hd; obtain ⟨_, _, hd⟩ := hd)
    try (rw [Res.andThen_eq_next] at hd; obtain ⟨_, _, hd⟩ := hd)
    injection hd with hd
    subst hd
    exact ⟨rfl, rfl⟩
  rw [if_neg h3] at hd
  by_cases h4 : h.HeadType = SrrRarSubBlockHead
  · rw [if_pos h4] at hd
    try unfold stepPassive at hd
    try (rw [Res.andThen_eq_next] at hd; obtain ⟨_, _, hd⟩ := hd)
    try (rw [Res.andThen_eq_next] at hd; obtain ⟨_, _, hd⟩ := hd)
    injection hd with hd
    subst hd
    exact ⟨rfl, rfl⟩
  rw [if_neg h4] at hd
  by_cases h5 : h.HeadType = MarkHead
  · rw [if_pos h5] at hd
    try unfold stepPassive at hd
    try (rw [Res.andThen_eq_next] at hd; obtain ⟨_, _, hd⟩ := hd)
    try (rw [Res.andThen_eq_next] at hd; obtain ⟨_, _, hd⟩ := hd)
    split at hd
    · cases hd
    · injection hd with hd
      subst hd
      exact ⟨rfl, rfl⟩
  rw [if_neg h5] at hd
  by_cases h6 : h.HeadType = MainHead
  · rw [if_pos h6] at hd
    try unfold stepPassive at hd
    try (rw [Res.andThen_eq_next] at hd; obtain ⟨_, _, hd⟩ := hd)
    try (rw [Res.andThen_eq_next] at hd; obtain ⟨_, _, hd⟩ := hd)
    injection hd with hd
    subst hd
    exact ⟨rfl, rfl⟩
  rw [if_neg h6] at hd
  by_cases h7 : h.HeadType = FileHead
  · exact absurd h7 hty
  rw [if_neg h7] at hd
  by_cases h8 : h.HeadType = CommHead
  · rw [if_pos h8] at hd
    try unfold stepPassive at hd
    try (rw [Res.andThen_eq_next] at hd; obtain ⟨_, _, hd⟩ := hd)
    try (rw [Res.andThen_eq_next] at hd; obtain ⟨_, _, hd⟩ := hd)
    injection hd with hd
    subst hd
    exact ⟨rfl, rfl⟩
  rw [if_neg h8] at hd
  by_cases h9 : h.HeadType = AvHead
  · rw [if_pos h9] at hd
    try unfold stepPassive at hd
    try (rw [Res.andThen_eq_next] at hd; obtain ⟨_, _, hd⟩ := hd)
    try (rw [Res.andThen_eq_next] at hd; obtain ⟨_, _, hd⟩ := hd)
    injection hd with hd
    subst hd
    exact ⟨rfl, rfl⟩
  rw [if_neg h9] at hd
  by_cases h10 : h.HeadType = SubHead
  · rw [if_pos h10] at hd
    try unfold stepPassive at hd
    try (rw [Res.andThen_eq_next] at hd; obtain ⟨_, _, hd⟩ := hd)
    try (rw [Res.andThen_eq_next] at hd; obtain ⟨_, _, hd⟩ := hd)
    injection hd with hd
    subst hd
    exact ⟨rfl, rfl⟩
  rw [if_neg h10] at hd
  by_cases h11 : h.HeadType = ProtectHead
  · rw [if_pos h11] at hd
    try unfold stepPassive at hd
    try (rw [Res.andThen_eq_next] at hd; obtain ⟨_, _, hd⟩ := hd)
    try (rw [Res.andThen_eq_next] at hd; obtain ⟨_, _, hd⟩ := hd)
    injection hd with hd
    subst hd
    exact ⟨rfl, rfl⟩
  rw [if_neg h11] at hd
  by_cases h12 : h.HeadType = SignHead
  · rw [if_pos h12] at hd
    try unfold stepPassive at hd
    try (rw [Res.andThen_eq_next] at hd; obtain ⟨_, _, hd⟩ := hd)
    try (rw [Res.andThen_eq_next] at hd; obtain ⟨_, _, hd⟩ := hd)
    injection hd with hd
    subst hd
    exact ⟨rfl, rfl⟩
  rw [if_neg h12] at hd
  by_cases h13 : h.HeadType = NewSubHead
  · rw [if_pos h13] at hd
    try unfold stepPassive at hd
    try (rw [Res.andThen_eq_next] at hd; obtain ⟨_, _, hd⟩ := hd)
    try (rw [Res.andThen_eq_next] at hd; obtain ⟨_, _, hd⟩ := hd)
    injection hd with hd
    subst hd
    exact ⟨rfl, rfl⟩
  rw [if_neg h13] at hd
  by_cases h14 : h.HeadType = EndArcHead
  · rw [if_pos h14] at hd
    try unfold stepPassive at hd
    try (rw [Res.andThen_eq_next] at hd; obtain ⟨_, _, hd⟩ := hd)
    try (rw [Res.andThen_eq_next] at hd; obtain ⟨_, _, hd⟩ := hd)
    injection hd with hd
    subst hd
    exact ⟨rfl, rfl⟩
  rw [if_neg h14] at hd
  by_cases h15 : h.HeadType = EmptyHead
  · rw [if_pos h15] at hd
    try unfold stepPassive at hd
    try (rw [Res.andThen_eq_next] at hd; obtain ⟨_, _, hd⟩ := hd)
    try (rw [Res.andThen_eq_next] at hd; obtain ⟨_, _, hd⟩ := hd)
    injection hd with hd
    subst hd
    exact ⟨rfl, rfl⟩
  rw [if_neg h15] at hd
  cases hd

/-! ## File heads along the loop -/

theorem fileHeadAt_some (b : Bytes) (s : WalkState) (blk : FileHeadBlock)
    (h : fileHeadAt b s = some blk) :
    ∃ hd, headerAt b s = some hd ∧ hd.HeadType = FileHead ∧
      FileHeadBlock.Parse hd (b.drop s.offset.toNat) = .ok blk := by
  unfold fileHeadAt at h
  split at h
  · simp at h
  · rename_i hd hh
    split_ifs at h with hty
    split at h
    · rename_i blk' hp
      simp at h
      subst h
      exact ⟨hd, hh, hty, hp⟩
    · simp at h

theorem step_fileHead (b : Bytes) (s : WalkState) (blk : FileHeadBlock)
    (h : fileHeadAt b s = some blk) :
    ∃ hd, headerAt b s = some hd ∧ step b s = stepFileHead s hd blk := by
  obtain ⟨hd, hh, hty, hp⟩ := fileHeadAt_some b s blk h
  refine ⟨hd, hh, ?_⟩
  rw [step_of_headerAt b s hd hh]
  unfold dispatch
  simp +decide only [hty, if_false, if_true]
  rw [hp]
  rfl

theorem stepFileHead_ne_stop (s : WalkState) (hd : RarHeader) (blk : FileHeadBlock) :
    stepFileHead s hd blk ≠ .stop := by
  unfold stepFileHead
  cases packedFileHead s.packed blk <;> simp [Res.andThen]

theorem stepFileHead_next (s s' : WalkState) (hd : RarHeader) (blk : FileHeadBlock)
    (h : stepFileHead s hd blk = .next s') :
    packedFileHead s.packed blk = .ok s'.packed ∧
      s'.RarCompressed = (s.RarCompressed || blk.IsCompressed) := by
  unfold stepFileHead at h
  rw [Res.andThen_eq_next] at h
  obtain ⟨ps, hps, h⟩ := h
  injection h with h
  subst h
  refine ⟨hps, ?_⟩
  show (if (!s.RarCompressed && blk.IsCompressed) = true then true else s.RarCompressed) = _
  cases s.RarCompressed <;> cases blk.IsCompressed <;> rfl

theorem advance_fileHead (b : Bytes) (s s' : WalkState) (blk : FileHeadBlock)
    (ha : advance b s = some s') (hf : fileHeadAt b s = some blk) :
    packedFileHead s.packed blk = .ok s'.packed ∧
      s'.RarCompressed = (s.RarCompressed || blk.IsCompressed) := by
  obtain ⟨hd, -, hs⟩ := step_fileHead b s blk hf
  obtain ⟨-, hn⟩ := (advance_some b s s').1 ha
  rw [hs] at hn
  exact stepFileHead_next s s' hd blk hn

theorem advance_no_fileHead (b : Bytes) (s s' : WalkState)
    (ha : advance b s = some s') (hf : fileHeadAt b s = none) :
    s'.packed = s.packed ∧ s'.RarCompressed = s.RarCompressed := by
  obtain ⟨h, hh, hd⟩ := headerAt_of_advance b s s' ha
  by_cases hty : h.HeadType = FileHead
  · exfalso
    unfold dispatch at hd
    simp +decide only [hty, if_false, if_true] at hd
    rw [Res.andThen_eq_next] at hd
    obtain ⟨blk, hp, -⟩ := hd
    simp [fileHeadAt, hh, hty, hp] at hf
  · exact dispatch_frame _ s s' h hty hd

theorem stateFrom_none_after (b : Bytes) (s0 s : WalkState) (k : Nat)
    (hs : stateFrom b s0 k = some s) (ha : advance b s = none) (m : Nat) (hm : k < m) :
    stateFrom b s0 m = none := by
  induction m with
  | zero => omega
  | succ m ih =>
    rw [stateFrom]
    by_cases hkm : k = m
    · subst hkm
      rw [hs]
      exact ha
    · rw [ih (by omega)]
      rfl

theorem decodedFileHeads_succ (b : Bytes) (f0 : SrrFile) (n : Nat) :
    decodedFileHeads b f0 (n + 1) =
      decodedFileHeads b f0 n ++ ((stateAt b f0 n).bind (fileHeadAt b)).toList := by
  unfold decodedFileHeads
  rw [List.range_succ, List.filterMap_append]
  cases h : (stateAt b f0 n).bind (fileHeadAt b) <;> simp [List.filterMap_cons, h]

theorem decodedFileHeads_of_end (b : Bytes) (f0 : SrrFile) (k : Nat) (s : WalkState)
    (hk : stateAt b f0 k = some s) (ha : advance b s = none) (hf : fileHeadAt b s = none)
    (n : Nat) (hn : k ≤ n) : decodedFileHeads b f0 n = decodedFileHeads b f0 k := by
  induction n with
  | zero =>
    have : k = 0 := by omega
    subst this
    rfl
  | succ n ih =>
    by_cases hkn : k = n + 1
    · subst hkn
      rfl
    · rw [decodedFileHeads_succ, ih (by omega)]
      by_cases hkn2 : k = n
      · subst hkn2
        simp [hk, hf]
      · have : stateAt b f0 n = none := stateFrom_none_after b _ s k hk ha n (by omega)
        simp [this]

theorem packedRun_snoc (l : List FileHeadBlock) (blk : FileHeadBlock) :
    packedRun (l ++ [blk]) = (packedRun l).bind fun ps =>
      match packedFileHead ps blk with
      | .ok ps1 => some ps1
      | _ => none := by
  unfold packedRun
  rw [List.foldl_append]
  rfl

/-- Along the loop, the packed-file variables and `RarCompressed` are what the file heads
decoded so far make them. -/
theorem stateAt_packed (b : Bytes) (f0 : SrrFile) (k : Nat) (s : WalkState)
    (hs : stateAt b f0 k = some s) :
    packedRun (decodedFileHeads b f0 k) = some s.packed ∧
      s.RarCompressed = (decodedFileHeads b f0 k).any (fun blk => blk.IsCompressed) := by
  induction k generalizing s with
  | zero =>
    simp [stateAt, stateFrom] at hs
    subst hs
    exact ⟨rfl, rfl⟩
  | succ k ih =>
    unfold stateAt at hs
    rw [stateFrom] at hs
    cases hk : stateFrom b (WalkState.init f0) k with
    | none => simp [hk] at hs
    | some s0 =>
      rw [hk] at hs
      simp only [Option.some_bind] at hs
      obtain ⟨ih1, ih2⟩ := ih s0 hk
      rw [decodedFileHeads_succ]
      have hk' : stateAt b f0 k = some s0 := hk
      rw [hk']
      simp only [Option.some_bind]
      cases hf : fileHeadAt b s0 with
      | none =>
        obtain ⟨h1, h2⟩ := advance_no_fileHead b s0 s hs hf
        simp only [Option.toList, List.append_nil]
        rw [h1, h2]
        exact ⟨ih1, ih2⟩
      | some blk =>
        obtain ⟨h1, h2⟩ := advance_fileHead b s0 s blk hs hf
        simp only [Option.toList]
        rw [packedRun_snoc, ih1, List.any_append, ← ih2, h2]
        simp [h1]

theorem finish_frame (R : Runtime) (s : WalkState) (f : SrrFile) (e : Option Error)
    (h : finish R s = .returned f e) :
    f.PackedFiles = s.PackedFiles.map (deref s.packedHeap) ∧
      f.RarCompressed = s.RarCompressed := by
  unfold finish at h
  split at h
  · injection h with h1 h2
    subst h1
    exact ⟨rfl, rfl⟩
  · injection h with h1 h2
    subst h1
    exact ⟨rfl, rfl⟩

/-- A call that returns `nil` has come to the end of its block loop in some turn `k`: no
file head is decoded in that turn, and no turn follows it. -/
theorem Unmarshal_returned (R : Runtime) (f0 f : SrrFile) (b : Bytes) (fuel : Nat)
    (h : Unmarshal R f0 b fuel = some (.returned f none)) :
    ∃ k s, k < fuel ∧ stateAt b f0 k = some s ∧ advance b s = none ∧
      fileHeadAt b s = none ∧
      f.PackedFiles = s.PackedFiles.map (deref s.packedHeap) ∧
      f.RarCompressed = s.RarCompressed := by
  unfold Unmarshal at h
  cases hw : walk b fuel (WalkState.init f0) with
  | none => simp [hw] at h
  | some e =>
    rw [hw] at h
    obtain ⟨k, s, hk, hs, he⟩ := walk_ends b fuel _ e hw
    refine ⟨k, s, hk, hs, ?_⟩
    unfold endAt at he
    by_cases hlt : s.offset < (b.length : Int)
    · rw [if_pos hlt] at he
      cases hstep : step b s with
      | next s' => rw [hstep] at he; simp at he
      | fail err =>
        rw [hstep] at he
        simp at he
        subst he
        simp at h
      | crash =>
        rw [hstep] at he
        simp at he
        subst he
        simp at h
      | stop =>
        rw [hstep] at he
        simp at he
        subst he
        simp at h
        subst h
        refine ⟨by simp [advance, hlt, hstep], ?_, rfl, rfl⟩
        cases hf : fileHeadAt b s with
        | none => rfl
        | some blk =>
          obtain ⟨hd, -, hs2⟩ := step_fileHead b s blk hf
          rw [hstep] at hs2
          exact absurd hs2.symm (stepFileHead_ne_stop s hd blk)
    · rw [if_neg hlt] at he
      simp at he
      subst he
      simp at h
      obtain ⟨h1, h2⟩ := finish_frame R s f none h
      exact ⟨by simp [advance, hlt], by simp [fileHeadAt, headerAt, hlt], h1, h2⟩

/-! ## Claims C1 to C4 -/

/-- C1 (the code breaks the claim): on three file heads named `x` with CRC 1, CRC 2 and,
as a continuation of the second, CRC 1, `Unmarshal` returns `nil` and `PackedFiles` has two
entries with path `x` and CRC 1: the continuation rewrites the CRC of the second entry,
which is in the slice already. -/
theorem packedFiles_duplicate :
    Unmarshal asciiRuntime SrrFile.empty dupInput 4 =
      some (.returned
        { SrrFile.empty with PackedFiles := [⟨[120], 5, 1⟩, ⟨[120], 10, 1⟩] } none) := by
  decide

/-- C2 (the code breaks the claim): when the loop stops at a block of unknown type,
`Unmarshal` returns `nil` before the sort: the sub-block heads `b`, `a` give `RarFiles`
in the order `b`, `a`, although `a < b`. -/
theorem rarFiles_unsorted_after_unknown_tag :
    Unmarshal asciiRuntime SrrFile.empty unsortedInput 4 =
      some (.returned
        { SrrFile.empty with
          RarFiles := [⟨[98], 0, 0, false, false⟩, ⟨[97], 0, 0, false, false⟩] } none) ∧
    strLess (asciiRuntime.ToLower [97]) (asciiRuntime.ToLower [98]) = true := by
  decide

theorem intAdd_zero_seven : intAdd 0 7 = 7 := by decide

/-- C3 (the code breaks the claim): on every input of 1 to 6 bytes the slice expression
`b[offset:offset+7]` is out of range, and the call ends in a run-time crash instead of
returning an error. -/
theorem short_input_crashes (R : Runtime) (f0 : SrrFile) (x : UInt8) (xs : Bytes)
    (fuel : Nat) : Unmarshal R f0 (x :: xs.take 5) (fuel + 1) = some .crashed := by
  have hlen : (x :: xs.take 5).length ≤ 6 := by
    simp only [List.length_cons, List.length_take]
    omega
  have hs : step (x :: xs.take 5) (WalkState.init f0) = .crash := by
    unfold step
    have : goSlice (x :: xs.take 5) (WalkState.init f0).offset
        (intAdd (WalkState.init f0).offset 7) = none := by
      show goSlice (x :: xs.take 5) 0 (intAdd 0 7) = none
      rw [intAdd_zero_seven]
      unfold goSlice
      rw [if_neg]
      intro h
      have := h.2.2
      omega
    rw [this]
  have hw : walk (x :: xs.take 5) (fuel + 1) (WalkState.init f0) = some .crashed := by
    rw [walk, if_pos, hs]
    show (0 : Int) < ((x :: xs.take 5).length : Int)
    simp only [List.length_cons]
    omega
  unfold Unmarshal
  rw [hw]

/-- C4 (the code breaks the claim): a mark head that follows a sub-block head and an SRR
pad block is accepted, because the pad case does not record its header as `prevHeader`;
a mark head at the start of the input is refused with `ErrBadFile`. -/
theorem mark_accepted_after_pad :
    Unmarshal asciiRuntime SrrFile.empty padMarkInput 4 =
      some (.returned
        { SrrFile.empty with RarFiles := [⟨[98], 9, 0, false, false⟩] } none) ∧
    Unmarshal asciiRuntime SrrFile.empty markBytes 4 =
      some (.returned SrrFile.empty (some .ErrBadFile)) := by
  decide

/-! ## Claim C5 -/

theorem wrapInt64_emod (x : Int) : wrapInt64 x % 2 ^ 64 = x % 2 ^ 64 := by
  unfold wrapInt64
  omega

theorem toUint64_wrap (x : Int) : toUint64 (wrapInt64 x) = toUint64 x := by
  unfold toUint64
  rw [wrapInt64_emod]

theorem toUint64_natCast (n : Nat) : toUint64 (n : Int) = n % 2 ^ 64 := by
  unfold toUint64
  omega

theorem specPackSize_eq (flags low high : Nat) (hl : low < 2 ^ 32) :
    specPackSize flags low high =
      if (flags &&& LHD_LARGE) = LHD_LARGE then high * 2 ^ 32 + low else low := by
  unfold specPackSize
  split_ifs
  · rw [Nat.shiftLeft_eq, Nat.mul_comm, Nat.mul_add_lt_is_or hl]
  · rfl

theorem toUint64_GetPackSize (blk : FileHeadBlock) (hl : blk.LowPackSize < 2 ^ 32) :
    toUint64 blk.GetPackSize =
      specPackSize blk.Flags blk.LowPackSize blk.HighPackSize % 2 ^ 64 := by
  rw [specPackSize_eq _ _ _ hl]
  unfold FileHeadBlock.GetPackSize RarHeader.Flag
  by_cases hf : (blk.Flags &&& LHD_LARGE) = LHD_LARGE
  · simp only [hf, beq_self_eq_true, if_true]
    unfold intAdd intShl32
    rw [toUint64_wrap]
    unfold toUint64 wrapInt64
    omega
  · simp only [hf, beq_iff_eq, if_false]
    exact toUint64_natCast _

theorem getCRC_of_name (blk : FileHeadBlock) (h : blk.GetFileName ≠ []) :
    blk.GetCRC = blk.FileCRC := by
  unfold FileHeadBlock.GetFileName at h
  unfold FileHeadBlock.GetCRC
  by_cases hn : blk.NameSize > 0
  · rw [if_pos hn]
  · rw [if_neg hn] at h
    exact absurd rfl h

theorem packedFileHead_first (blk : FileHeadBlock) (n : Bytes) (c : Nat) (hn : n ≠ [])
    (hn1 : blk.GetFileName = n) (hc1 : blk.FileCRC = c) (hm1 : blk.Method = 0x30)
    (hs1 : blk.toRarHeader.Flag LHD_SPLIT_BEFORE = false) :
    packedFileHead { heap := [default], files := [], current := 0 } blk =
      .ok { heap := [default, ⟨n, u64Add 0 (toUint64 blk.GetPackSize), c⟩],
            files := [1], current := 1 } := by
  have hcrc : blk.GetCRC = c := by
    rw [getCRC_of_name blk (by rw [hn1]; exact hn), hc1]
  simp [packedFileHead, hs1, FileHeadBlock.UpdatePackedFile, hn1, hn, hcrc,
    FileHeadBlock.GetMethod, hm1, deref, store]

theorem packedFileHead_second (blk : FileHeadBlock) (n : Bytes) (c c0 sz : Nat) (hn : n ≠ [])
    (hn1 : blk.GetFileName = n) (hc1 : blk.FileCRC = c) (hm1 : blk.Method = 0x30)
    (hs1 : blk.toRarHeader.Flag LHD_SPLIT_BEFORE = true) :
    packedFileHead { heap := [default, ⟨n, sz, c0⟩], files := [1], current := 1 } blk =
      .ok { heap := [default, ⟨n, u64Add sz (toUint64 blk.GetPackSize), c⟩],
            files := [1], current := 1 } := by
  have hcrc : blk.GetCRC = c := by
    rw [getCRC_of_name blk (by rw [hn1]; exact hn), hc1]
  simp [packedFileHead, hs1, FileHeadBlock.UpdatePackedFile, hn1, hn, hcrc,
    FileHeadBlock.GetMethod, hm1, deref, store]

theorem mem_decodedFileHeads (b : Bytes) (f0 : SrrFile) (n : Nat) (blk : FileHeadBlock)
    (h : blk ∈ decodedFileHeads b f0 n) :
    ∃ k s, k < n ∧ stateAt b f0 k = some s ∧ fileHeadAt b s = some blk := by
  unfold decodedFileHeads at h
  rw [List.mem_filterMap] at h
  obtain ⟨k, hk, hb⟩ := h
  rw [List.mem_range] at hk
  cases hs : stateAt b f0 k with
  | none => simp [hs] at hb
  | some s =>
    rw [hs] at hb
    exact ⟨k, s, hk, hs, hb⟩

theorem decoded_lowPack_lt (b : Bytes) (f0 : SrrFile) (n : Nat) (blk : FileHeadBlock)
    (h : blk ∈ decodedFileHeads b f0 n) : blk.LowPackSize < 2 ^ 32 := by
  obtain ⟨k, s, -, -, hf⟩ := mem_decodedFileHeads b f0 n blk h
  obtain ⟨hd, -, -, hp⟩ := fileHeadAt_some b s blk hf
  exact (fileHead_parse_ok hd _ blk hp).2.1

/-- The file heads that a call decodes, once it has returned `nil`, are those of its
turns up to the last. -/
theorem packed_of_returned (R : Runtime) (f0 f : SrrFile) (b : Bytes) (fuel : Nat)
    (h : Unmarshal R f0 b fuel = some (.returned f none)) :
    ∃ ps, packedRun (decodedFileHeads b f0 fuel) = some ps ∧
      f.PackedFiles = ps.files.map (deref ps.heap) ∧
      f.RarCompressed = (decodedFileHeads b f0 fuel).any (fun blk => blk.IsCompressed) := by
  obtain ⟨k, s, hk, hs, ha, hf, h1, h2⟩ := Unmarshal_returned R f0 f b fuel h
  obtain ⟨g1, g2⟩ := stateAt_packed b f0 k s hs
  rw [decodedFileHeads_of_end b f0 k s hs ha hf fuel (by omega)]
  exact ⟨s.packed, g1, h1, by rw [h2, g2]⟩


/-- C5 (the claim as stated fails): two parts of `2^63` bytes each of one stored file give
one entry, and its `Size` is 0, not `2^63 + 2^63`: `Size` is a `uint64`. -/
theorem split_size_wraps :
    (decodedFileHeads overflowInput SrrFile.empty 3).map
        (fun blk => (blk.GetFileName, blk.FileCRC, blk.Method,
          blk.toRarHeader.Flag LHD_SPLIT_BEFORE,
          specPackSize blk.Flags blk.LowPackSize blk.HighPackSize)) =
      [([120], 1, 0x30, false, 2 ^ 63), ([120], 1, 0x30, true, 2 ^ 63)] ∧
    Unmarshal asciiRuntime SrrFile.empty overflowInput 3 =
      some (.returned { SrrFile.empty with PackedFiles := [⟨[120], 0, 1⟩] } none) ∧
    (0 : Nat) ≠ 2 ^ 63 + 2 ^ 63 := by
  decide

/-- C5 (amended): if the file heads that a call decodes are two, both with name `n` (not
empty), CRC `c` and method `0x30`, the first without and the second with
`LHD_SPLIT_BEFORE`, and the call returns `nil`, then `PackedFiles` has exactly one entry,
with path `n`, CRC `c` and size `(p1 + p2) mod 2^64` for the effective pack sizes `p1`,
`p2` of the two blocks. -/
theorem split_file_single_entry (R : Runtime) (f0 f : SrrFile) (b : Bytes) (fuel : Nat)
    (blk1 blk2 : FileHeadBlock) (n : Bytes) (c : Nat)
    (hU : Unmarshal R f0 b fuel = some (.returned f none))
    (hd : decodedFileHeads b f0 fuel = [blk1, blk2])
    (hn : n ≠ []) (hn1 : blk1.GetFileName = n) (hn2 : blk2.GetFileName = n)
    (hc1 : blk1.FileCRC = c) (hc2 : blk2.FileCRC = c)
    (hm1 : blk1.Method = 0x30) (hm2 : blk2.Method = 0x30)
    (hs1 : blk1.toRarHeader.Flag LHD_SPLIT_BEFORE = false)
    (hs2 : blk2.toRarHeader.Flag LHD_SPLIT_BEFORE = true) :
    f.PackedFiles =
      [⟨n, (specPackSize blk1.Flags blk1.LowPackSize blk1.HighPackSize +
              specPackSize blk2.Flags blk2.LowPackSize blk2.HighPackSize) % 2 ^ 64, c⟩] := by
  obtain ⟨ps, hps, hf, -⟩ := packed_of_returned R f0 f b fuel hU
  have hl1 : blk1.LowPackSize < 2 ^ 32 := decoded_lowPack_lt b f0 fuel blk1 (by simp [hd])
  have hl2 : blk2.LowPackSize < 2 ^ 32 := decoded_lowPack_lt b f0 fuel blk2 (by simp [hd])
  rw [hd] at hps
  have hrun : packedRun [blk1, blk2] =
      some { heap := [default, ⟨n, u64Add (u64Add 0 (toUint64 blk1.GetPackSize))
                                     (toUint64 blk2.GetPackSize), c⟩],
             files := [1], current := 1 } := by
    unfold packedRun
    simp only [List.foldl_cons, List.foldl_nil, Option.some_bind]
    rw [packedFileHead_first blk1 n c hn hn1 hc1 hm1 hs1]
    simp only [Option.some_bind]
    rw [packedFileHead_second blk2 n c c _ hn hn2 hc2 hm2 hs2]
  rw [hrun] at hps
  injection hps with hps
  subst hps
  rw [hf, toUint64_GetPackSize blk1 hl1, toUint64_GetPackSize blk2 hl2]
  simp only [List.map_cons, List.map_nil, deref, List.getD_cons_succ, List.getD_cons_zero,
    u64Add]
  congr 2
  omega

/-- The split file of the specification: 500000 + 300000 = 800000. -/
theorem split_file_single_entry_witness :
    Unmarshal asciiRuntime SrrFile.empty splitInput 3 =
      some (.returned { SrrFile.empty with PackedFiles := [⟨[120], 800000, 1⟩] } none) ∧
    ({ SrrFile.empty with PackedFiles := [⟨[120], 800000, 1⟩] } : SrrFile).PackedFiles =
      [⟨[120], (specPackSize 2 500000 0 + specPackSize 1 300000 0) % 2 ^ 64, 1⟩] :=
  ⟨by decide,
   split_file_single_entry asciiRuntime SrrFile.empty _ splitInput 3
     (splitHead 2 500000) (splitHead 1 300000) [120] 1
     (by decide) (by decide) (by decide) (by decide) (by decide) (by decide) (by decide)
     (by decide) (by decide) (by decide) (by decide)⟩

/-! ## Claim C6 -/

/-- C6: when `Unmarshal` returns `nil`, `RarCompressed` is true if and only if one of the
file-head blocks decoded by the block loop has a method byte other than `0x30`, whatever
the record `f0` held before the call. -/
theorem rarCompressed_iff (R : Runtime) (f0 f : SrrFile) (b : Bytes) (fuel : Nat)
    (hU : Unmarshal R f0 b fuel = some (.returned f none)) :
    f.RarCompressed = true ↔ ∃ blk ∈ decodedFileHeads b f0 fuel, blk.Method ≠ 0x30 := by
  obtain ⟨ps, -, -, hc⟩ := packed_of_returned R f0 f b fuel hU
  rw [hc, List.any_eq_true]
  constructor
  · rintro ⟨blk, hmem, hblk⟩
    refine ⟨blk, hmem, ?_⟩
    intro hm
    simp [FileHeadBlock.IsCompressed, FileHeadBlock.GetMethod, hm] at hblk
  · rintro ⟨blk, hmem, hblk⟩
    refine ⟨blk, hmem, ?_⟩
    simp [FileHeadBlock.IsCompressed, FileHeadBlock.GetMethod, hblk]

/-- A record that says `RarCompressed` before the call, and an input with one file head
of method `0x33`: the flag is set by that block; on the empty input it is reset. -/
theorem rarCompressed_iff_witness :
    Unmarshal asciiRuntime { SrrFile.empty with RarCompressed := true }
        (fileHeadBytes 0 5 1 0x33) 2 =
      some (.returned
        { SrrFile.empty with RarCompressed := true, PackedFiles := [⟨[120], 0, 1⟩] } none) ∧
    (({ SrrFile.empty with RarCompressed := true, PackedFiles := [⟨[120], 0, 1⟩] } :
        SrrFile).RarCompressed = true ↔
      ∃ blk ∈ decodedFileHeads (fileHeadBytes 0 5 1 0x33)
        { SrrFile.empty with RarCompressed := true } 2, blk.Method ≠ 0x30) :=
  ⟨by decide,
   rarCompressed_iff asciiRuntime { SrrFile.empty with RarCompressed := true } _
     (fileHeadBytes 0 5 1 0x33) 2 (by decide)⟩

/-! ## Claim C7 -/

theorem Unmarshal_of_fail (R : Runtime) (f0 : SrrFile) (b : Bytes) (k : Nat) (s : WalkState)
    (e : Error) (fuel : Nat) (hs : stateAt b f0 k = some s)
    (hlt : s.offset < (b.length : Int)) (hstep : step b s = .fail e) (hk : k < fuel) :
    Unmarshal R f0 b fuel = some (.returned s.toFile (some e)) := by
  have he : endAt b s = some (.failed s e) := by simp [endAt, hlt, hstep]
  unfold Unmarshal
  rw [walk_of_endAt b k _ s _ fuel hs he hk]

theorem dispatch_custom_crc (data : Bytes) (s : WalkState) (h : RarHeader)
    (hty : h.HeadType ∈ customTypes) (hcrc : h.CRC ≠ magic h.HeadType) :
    dispatch data s h = .fail .ErrCRC := by
  simp only [customTypes, List.mem_cons, List.mem_singleton, List.not_mem_nil, or_false] at hty
  unfold dispatch
  rcases hty with hty | hty | hty | hty | hty
  · rw [hty] at hcrc
    simp +decide only [hty, if_false, if_true]
    rw [SrrVolHeadBlock.Parse, if_pos (show h.CRC ≠ 0x6969 from hcrc)]
    rfl
  · rw [hty] at hcrc
    simp +decide only [hty, if_false, if_true]
    rw [SrrStoredFileHeadBlock.Parse, if_pos (show h.CRC ≠ 0x6A6A from hcrc)]
    rfl
  · rw [hty] at hcrc
    simp +decide only [hty, if_false, if_true]
    rw [OSOHashHeadBlock.Parse, if_pos (show h.CRC ≠ 0x6B6B from hcrc)]
    rfl
  · rw [hty] at hcrc
    simp +decide only [hty, if_false, if_true]
    rw [SrrRarPadHeadBlock.Parse, if_pos (show h.CRC ≠ 0x6C6C from hcrc)]
    rfl
  · rw [hty] at hcrc
    simp +decide only [hty, if_false, if_true]
    rw [SrrRarSubBlockHeadBlock.Parse, if_pos (show h.CRC ≠ 0x7171 from hcrc)]
    rfl

/-- C7: for each of the five custom SRR block types, `Parse` returns `ErrCRC` whenever the
CRC field of the header is not the type byte repeated, whatever the flags and the bytes
that follow; when the loop reads such a header, `Unmarshal` returns `ErrCRC`; and a custom
block after which the loop goes on has the magic of its type in its CRC field. -/
theorem custom_crc_mismatch (R : Runtime) (f0 : SrrFile) (b : Bytes) (k : Nat)
    (s : WalkState) (h : RarHeader) (fuel : Nat)
    (hs : stateAt b f0 k = some s) (hh : headerAt b s = some h)
    (hty : h.HeadType ∈ customTypes) (hcrc : h.CRC ≠ magic h.HeadType) (hk : k < fuel) :
    ((∀ h1 data, h1.CRC ≠ 0x6969 → SrrVolHeadBlock.Parse h1 data = .err .ErrCRC) ∧
     (∀ h1 data, h1.CRC ≠ 0x6A6A → SrrStoredFileHeadBlock.Parse h1 data = .err .ErrCRC) ∧
     (∀ h1 data, h1.CRC ≠ 0x6B6B → OSOHashHeadBlock.Parse h1 data = .err .ErrCRC) ∧
     (∀ h1 data, h1.CRC ≠ 0x6C6C → SrrRarPadHeadBlock.Parse h1 data = .err .ErrCRC) ∧
     (∀ h1 data, h1.CRC ≠ 0x7171 → SrrRarSubBlockHeadBlock.Parse h1 data = .err .ErrCRC)) ∧
    step b s = .fail .ErrCRC ∧
    Unmarshal R f0 b fuel = some (.returned s.toFile (some .ErrCRC)) ∧
    (∀ s2 h2 s3, headerAt b s2 = some h2 → h2.HeadType ∈ customTypes →
      advance b s2 = some s3 → h2.CRC = magic h2.HeadType) := by
  have hstep : step b s = .fail .ErrCRC := by
    rw [step_of_headerAt b s h hh]
    exact dispatch_custom_crc _ s h hty hcrc
  refine ⟨⟨?_, ?_, ?_, ?_, ?_⟩, hstep, ?_, ?_⟩
  · intro h1 data hc
    rw [SrrVolHeadBlock.Parse, if_pos hc]
  · intro h1 data hc
    rw [SrrStoredFileHeadBlock.Parse, if_pos hc]
  · intro h1 data hc
    rw [OSOHashHeadBlock.Parse, if_pos hc]
  · intro h1 data hc
    rw [SrrRarPadHeadBlock.Parse, if_pos hc]
  · intro h1 data hc
    rw [SrrRarSubBlockHeadBlock.Parse, if_pos hc]
  · exact Unmarshal_of_fail R f0 b k s _ fuel hs (headerAt_some b s h hh).1 hstep hk
  · intro s2 h2 s3 hh2 hty2 ha
    by_contra hne
    obtain ⟨-, hn⟩ := (advance_some b s2 s3).1 ha
    rw [step_of_headerAt b s2 h2 hh2, dispatch_custom_crc _ s2 h2 hty2 hne] at hn
    cases hn

/-- A volume head with the CRC field `0x6900`: the call returns `ErrCRC`. -/
theorem custom_crc_mismatch_witness :
    headerAt badMagicInput (WalkState.init SrrFile.empty) =
      some { CRC := 0x6900, HeadType := 0x69, Flags := 0, Size := 7 } ∧
    Unmarshal asciiRuntime SrrFile.empty badMagicInput 1 =
      some (.returned SrrFile.empty (some .ErrCRC)) :=
  ⟨by decide,
   (custom_crc_mismatch asciiRuntime SrrFile.empty badMagicInput 0
     (WalkState.init SrrFile.empty) { CRC := 0x6900, HeadType := 0x69, Flags := 0, Size := 7 } 1
     (by decide) (by decide) (by decide) (by decide) (by decide)).2.2.1⟩

/-! ## Claim C8 -/

theorem deref_append_length {α : Type} [Inhabited α] (heap : List α) (x : α) :
    deref (heap ++ [x]) heap.length = x := by
  simp [deref, List.getD_eq_getElem?_getD]

theorem UpdatePackedFile_err (blk : FileHeadBlock) (p : PackedFile) :
    (blk.UpdatePackedFile p = .err .ErrBadData ↔ (p.Path ≠ [] ∧ p.Path ≠ blk.GetFileName)) ∧
    (¬(p.Path ≠ [] ∧ p.Path ≠ blk.GetFileName) → ∃ q, blk.UpdatePackedFile p = .ok q) := by
  unfold FileHeadBlock.UpdatePackedFile
  by_cases h1 : p.Path = []
  · simp only [h1, if_true, ne_eq, not_true_eq_false, if_false, false_and, iff_false]
    constructor
    · split_ifs <;> simp
    · intro _
      split_ifs <;> exact ⟨_, rfl⟩
  · simp only [h1, if_false, ne_eq, not_false_eq_true, true_and]
    by_cases h2 : p.Path = blk.GetFileName
    · rw [if_neg (by simpa using h2)]
      constructor
      · simp only [h2, not_true_eq_false, iff_false]
        split_ifs <;> simp
      · intro _
        split_ifs <;> exact ⟨_, rfl⟩
    · rw [if_pos h2]
      simp [h2]

/-- What the packed-file part of the case `FileHead` does, by the cases of the claim. -/
theorem packedFileHead_cases (ps : PackedState) (blk : FileHeadBlock) :
    (packedFileHead ps blk = .err .ErrBadData ↔
      (blk.toRarHeader.Flag LHD_SPLIT_BEFORE = true ∧ (deref ps.heap ps.current).Path ≠ [] ∧
        (deref ps.heap ps.current).Path ≠ blk.GetFileName)) ∧
    (¬(blk.toRarHeader.Flag LHD_SPLIT_BEFORE = true ∧ (deref ps.heap ps.current).Path ≠ [] ∧
        (deref ps.heap ps.current).Path ≠ blk.GetFileName) →
      ∃ ps1, packedFileHead ps blk = .ok ps1) ∧
    (blk.toRarHeader.Flag LHD_SPLIT_BEFORE = false →
      ∃ ps1, packedFileHead ps blk = .ok ps1 ∧ ps1.current = ps.heap.length ∧
        ps1.heap.length = ps.heap.length + 1) := by
  unfold packedFileHead
  by_cases hopen : (!blk.toRarHeader.Flag LHD_SPLIT_BEFORE ||
        ((deref ps.heap ps.current).Path == [] && blk.GetFileName != [])) = true
  · simp only [if_pos hopen, deref_append_length]
    have hok := (UpdatePackedFile_err blk
      { Path := blk.GetFileName, Size := 0, CRC := blk.GetCRC }).2 (by simp)
    obtain ⟨q, hq⟩ := hok
    rw [hq]
    refine ⟨⟨fun h => ?_, ?_⟩, fun _ => ⟨_, rfl⟩, fun _ => ⟨_, rfl, rfl, by simp [store]⟩⟩
    · cases h
    · rintro ⟨hflag, hne, -⟩
      simp [hflag, hne] at hopen
  · have hflag : blk.toRarHeader.Flag LHD_SPLIT_BEFORE = true := by
      by_contra hc
      simp [hc] at hopen
    simp only [if_neg hopen]
    obtain ⟨herr, hok⟩ := UpdatePackedFile_err blk (deref ps.heap ps.current)
    refine ⟨?_, ?_, fun h => ?_⟩
    · rw [show (blk.toRarHeader.Flag LHD_SPLIT_BEFORE = true ∧
          (deref ps.heap ps.current).Path ≠ [] ∧
          (deref ps.heap ps.current).Path ≠ blk.GetFileName) ↔
          ((deref ps.heap ps.current).Path ≠ [] ∧
          (deref ps.heap ps.current).Path ≠ blk.GetFileName) from by simp [hflag], ← herr]
      cases hu : blk.UpdatePackedFile (deref ps.heap ps.current) <;> simp
    · intro hn
      obtain ⟨q, hq⟩ := hok (fun hc => hn ⟨hflag, hc⟩)
      rw [hq]
      exact ⟨_, rfl⟩
    · rw [hflag] at h
      cases h

/-- C8: a file-head block that parses is refused with `ErrBadData` exactly when it has
`LHD_SPLIT_BEFORE`, the current packed file has a path that is not empty, and that path
is not the effective file name of the block; otherwise the loop goes on, and a block
without `LHD_SPLIT_BEFORE` opens a new packed file. -/
theorem fileHead_badData_iff (b : Bytes) (s : WalkState) (blk : FileHeadBlock)
    (hf : fileHeadAt b s = some blk) :
    (step b s = .fail .ErrBadData ↔
      (blk.toRarHeader.Flag LHD_SPLIT_BEFORE = true ∧
        (deref s.packedHeap s.currentPackedFile).Path ≠ [] ∧
        (deref s.packedHeap s.currentPackedFile).Path ≠ blk.GetFileName)) ∧
    (¬(blk.toRarHeader.Flag LHD_SPLIT_BEFORE = true ∧
        (deref s.packedHeap s.currentPackedFile).Path ≠ [] ∧
        (deref s.packedHeap s.currentPackedFile).Path ≠ blk.GetFileName) →
      ∃ s1, step b s = .next s1) ∧
    (blk.toRarHeader.Flag LHD_SPLIT_BEFORE = false →
      ∃ s1, step b s = .next s1 ∧ s1.currentPackedFile = s.packedHeap.length ∧
        s1.packedHeap.length = s.packedHeap.length + 1) := by
  obtain ⟨hd, -, hs⟩ := step_fileHead b s blk hf
  obtain ⟨h1, h2, h3⟩ := packedFileHead_cases s.packed blk
  change (_ ↔ (blk.toRarHeader.Flag LHD_SPLIT_BEFORE = true ∧
        (deref s.packedHeap s.currentPackedFile).Path ≠ [] ∧
        (deref s.packedHeap s.currentPackedFile).Path ≠ blk.GetFileName)) at h1
  change (¬(blk.toRarHeader.Flag LHD_SPLIT_BEFORE = true ∧
        (deref s.packedHeap s.currentPackedFile).Path ≠ [] ∧
        (deref s.packedHeap s.currentPackedFile).Path ≠ blk.GetFileName) → _) at h2
  change (_ → ∃ ps1 : PackedState, _ ∧ ps1.current = s.packedHeap.length ∧
        ps1.heap.length = s.packedHeap.length + 1) at h3
  rw [hs]
  unfold stepFileHead
  refine ⟨?_, ?_, ?_⟩
  · rw [← h1]
    cases hp : packedFileHead s.packed blk <;> simp [Res.andThen]
  · intro hn
    obtain ⟨ps1, hp⟩ := h2 hn
    rw [hp]
    exact ⟨_, rfl⟩
  · intro hn
    obtain ⟨ps1, hp, hc, hl⟩ := h3 hn
    rw [hp]
    exact ⟨_, rfl, hc, hl⟩

/-- A continuation named `y` of a packed file named `x` is refused with `ErrBadData`. -/
theorem fileHead_badData_iff_witness :
    fileHeadAt badDataInput badDataState = some (namedHead 1 121) ∧
    step badDataInput badDataState = .fail .ErrBadData :=
  ⟨by decide,
   (fileHead_badData_iff badDataInput badDataState (namedHead 1 121) (by decide)).1.2
     ⟨by decide, by decide, by decide⟩⟩

/-! ## Claim C9 -/

theorem wrapInt64_eq_self (x : Int) (h1 : -2 ^ 63 ≤ x) (h2 : x < 2 ^ 63) : wrapInt64 x = x := by
  unfold wrapInt64
  omega

theorem intAdd_eq (x y : Int) (h1 : -2 ^ 63 ≤ x + y) (h2 : x + y < 2 ^ 63) :
    intAdd x y = x + y := wrapInt64_eq_self _ h1 h2

theorem wrapInt64_add_wrap (x y : Int) : wrapInt64 (x + wrapInt64 y) = wrapInt64 (x + y) := by
  unfold wrapInt64
  omega

theorem header_parse_size_lt (hb : Bytes) (h : RarHeader) (hp : RarHeader.Parse hb = .ok h) :
    h.Size < 2 ^ 16 := by
  unfold RarHeader.Parse at hp
  split_ifs at hp
  simp only [Res.bind_eq_ok] at hp
  obtain ⟨⟨buf, r⟩, -, hfin⟩ := hp
  simp only [pure] at hfin
  injection hfin with hfin
  subst hfin
  have := leNat_lt ((buf.drop 5).take 2)
  have hl : ((buf.drop 5).take 2).length ≤ 2 := by simp
  calc leNat ((buf.drop 5).take 2) < 256 ^ ((buf.drop 5).take 2).length := this
    _ ≤ 256 ^ 2 := Nat.pow_le_pow_right (by norm_num) hl
    _ = 2 ^ 16 := by norm_num

theorem headerAt_bounds (b : Bytes) (s : WalkState) (h : RarHeader)
    (hh : headerAt b s = some h) :
    0 ≤ s.offset ∧ s.offset < (b.length : Int) ∧ h.Size < 2 ^ 16 := by
  obtain ⟨hlt, hb, hg, hp⟩ := headerAt_some b s h hh
  refine ⟨?_, hlt, header_parse_size_lt hb h hp⟩
  unfold goSlice at hg
  split_ifs at hg with hc
  exact hc.1

theorem storedFile_parse_ok (h : RarHeader) (data : Bytes)
    (blk : SrrStoredFileHeadBlock) (hp : SrrStoredFileHeadBlock.Parse h data = .ok blk) :
    blk.toRarHeader = h ∧ blk.DataSize < 2 ^ 32 := by
  unfold SrrStoredFileHeadBlock.Parse at hp
  split_ifs at hp
  simp only [Res.bind_eq_ok] at hp
  obtain ⟨buf0, -, ⟨ds, b1⟩, h1, ⟨ns, b2⟩, -, ⟨nm, b3⟩, -, ⟨fd, b4⟩, -, hfin⟩ := hp
  simp only [pure] at hfin
  injection hfin with hfin
  subst hfin
  exact ⟨rfl, readUint_lt 4 _ _ _ h1⟩

theorem pad_parse_ok (h : RarHeader) (data : Bytes)
    (blk : SrrRarPadHeadBlock) (hp : SrrRarPadHeadBlock.Parse h data = .ok blk) :
    blk.toRarHeader = h ∧ blk.PadSize < 2 ^ 32 := by
  unfold SrrRarPadHeadBlock.Parse at hp
  split_ifs at hp
  simp only [Res.bind_eq_ok] at hp
  obtain ⟨buf0, -, ⟨ds, b1⟩, h1, ⟨pd, b2⟩, -, hfin⟩ := hp
  simp only [pure] at hfin
  injection hfin with hfin
  subst hfin
  exact ⟨rfl, readUint_lt 4 _ _ _ h1⟩

theorem protect_parse_ok (h : RarHeader) (data : Bytes)
    (blk : ProtectHeadBlock) (hp : ProtectHeadBlock.Parse h data = .ok blk) :
    blk.toRarHeader = h ∧ blk.PackedSize < 2 ^ 32 := by
  unfold ProtectHeadBlock.Parse at hp
  split_ifs at hp
  simp only [Res.bind_eq_ok] at hp
  obtain ⟨buf0, -, ⟨ps, b1⟩, h1, ⟨v, b2⟩, -, ⟨rc, b3⟩, -, ⟨dc, b4⟩, -, hfin⟩ := hp
  simp only [pure] at hfin
  injection hfin with hfin
  subst hfin
  exact ⟨rfl, readUint_lt 4 _ _ _ h1⟩

theorem newSub_parse_ok (h : RarHeader) (data : Bytes) (blk : NewSubHeadBlock)
    (hp : NewSubHeadBlock.Parse h data = .ok blk) :
    blk.toRarHeader = h ∧ blk.LowPackSize < 2 ^ 32 ∧ blk.HighPackSize < 2 ^ 32 := by
  unfold NewSubHeadBlock.Parse at hp
  simp only [Res.bind_eq_ok] at hp
  obtain ⟨buf0, -, ⟨lp, b1⟩, h1, ⟨lu, b2⟩, -, ⟨ho, b3⟩, -, ⟨fc, b4⟩, -, ⟨ft, b5⟩, -, ⟨uv, b6⟩, -,
    ⟨me, b7⟩, -, ⟨ns, b8⟩, -, ⟨fa, b9⟩, -, ⟨hpk, b10⟩, h10, ⟨hu, b11⟩, -, ⟨nm, b12⟩, -,
    ⟨sa, b13⟩, -, hfin⟩ := hp
  simp only [pure] at hfin
  injection hfin with hfin
  subst hfin
  exact ⟨rfl, readUint_lt 4 _ _ _ h1, readUintIf_lt _ 4 _ _ _ h10⟩

theorem newSub_wrap_getPackSize (blk : NewSubHeadBlock) (x : Int)
    (hl : blk.LowPackSize < 2 ^ 32) :
    wrapInt64 (x + blk.GetPackSize) =
      wrapInt64 (x + (specPackSize blk.Flags blk.LowPackSize blk.HighPackSize : Nat)) := by
  rw [specPackSize_eq _ _ _ hl]
  unfold NewSubHeadBlock.GetPackSize RarHeader.Flag
  by_cases hf : (blk.Flags &&& LHD_LARGE) = LHD_LARGE
  · simp only [hf, beq_self_eq_true, if_true]
    unfold intAdd intShl32 wrapInt64
    push_cast
    omega
  · simp only [hf, beq_iff_eq, if_false]


/-- C9 (the claim as stated fails): a new-sub block named `CMT` at offset 0 with header
size 43 and effective pack size `2^64 - 1` moves the cursor to 42, not to
`0 + 43 + (2^64 - 1)`: `GetPackSize` is computed in the 64-bit `int` and is -1. The next
header slice `b[42:49]` is then out of range. -/
theorem newSub_cursor_wraps :
    headerAt newSubWrapInput (WalkState.init SrrFile.empty) =
      some { CRC := 0, HeadType := 0x7A, Flags := 0x100, Size := 43 } ∧
    (∃ blk, NewSubHeadBlock.Parse { CRC := 0, HeadType := 0x7A, Flags := 0x100, Size := 43 }
        newSubWrapInput = .ok blk ∧ blk.GetFileName = [67, 77, 84] ∧
      specPackSize blk.Flags blk.LowPackSize blk.HighPackSize = 2 ^ 64 - 1) ∧
    (stateAt newSubWrapInput SrrFile.empty 1).map (fun s => s.offset) = some 42 ∧
    (42 : Int) ≠ 0 + 43 + (2 ^ 64 - 1 : Nat) ∧
    Unmarshal asciiRuntime SrrFile.empty newSubWrapInput 3 = some .crashed := by
  refine ⟨by decide, ⟨_, rfl, by decide, by decide⟩, by decide, by decide, by decide⟩

/-- C9 (amended): after a turn of the loop on a block at offset `o` of an input of fewer
than `2^62` bytes, the cursor is `o + header.Size + DataSize` for an SRR stored-file
block, `o + header.Size + PadSize` for an SRR pad block, `o + header.Size` for a new-sub
block named `RR`, and for any other new-sub block `o + header.Size + p` reduced to the
range of the 64-bit `int`, where `p` is the effective pack size: `o + header.Size + p`
itself whenever that is below `2^63`. -/
theorem cursor_after_payload_block (b : Bytes) (s s1 : WalkState) (h : RarHeader)
    (hlen : b.length < 2 ^ 62) (hh : headerAt b s = some h) (hstep : step b s = .next s1) :
    (h.HeadType = SrrStoredFileHead →
      ∃ blk, SrrStoredFileHeadBlock.Parse h (b.drop s.offset.toNat) = .ok blk ∧
        s1.offset = s.offset + h.Size + blk.DataSize) ∧
    (h.HeadType = SrrRarPadHead →
      ∃ blk, SrrRarPadHeadBlock.Parse h (b.drop s.offset.toNat) = .ok blk ∧
        s1.offset = s.offset + h.Size + blk.PadSize) ∧
    (h.HeadType = NewSubHead →
      ∃ blk, NewSubHeadBlock.Parse h (b.drop s.offset.toNat) = .ok blk ∧
        (blk.GetFileName = [0x52, 0x52] → s1.offset = s.offset + h.Size) ∧
        (blk.GetFileName ≠ [0x52, 0x52] →
          s1.offset = wrapInt64 (s.offset + h.Size +
            (specPackSize blk.Flags blk.LowPackSize blk.HighPackSize : Nat)) ∧
          (s.offset + h.Size +
              (specPackSize blk.Flags blk.LowPackSize blk.HighPackSize : Nat) < 2 ^ 63 →
            s1.offset = s.offset + h.Size +
              (specPackSize blk.Flags blk.LowPackSize blk.HighPackSize : Nat)))) := by
  obtain ⟨h0, hlt, hsz⟩ := headerAt_bounds b s h hh
  rw [step_of_headerAt b s h hh] at hstep
  unfold dispatch at hstep
  refine ⟨fun hty => ?_, fun hty => ?_, fun hty => ?_⟩
  · simp +decide only [hty, if_false, if_true] at hstep
    rw [Res.andThen_eq_next] at hstep
    obtain ⟨blk, hp, hstep⟩ := hstep
    rw [Res.andThen_eq_next] at hstep
    obtain ⟨sf, -, hstep⟩ := hstep
    injection hstep with hstep
    subst hstep
    obtain ⟨hhd, hds⟩ := storedFile_parse_ok h _ blk hp
    refine ⟨blk, hp, ?_⟩
    show intAdd s.offset (intAdd (blk.toRarHeader.Size : Int) (blk.DataSize : Int)) = _
    rw [hhd, intAdd_eq (h.Size : Int) _ (by omega) (by omega), intAdd_eq _ _ (by omega) (by omega)]
    omega
  · simp +decide only [hty, if_false, if_true] at hstep
    rw [Res.andThen_eq_next] at hstep
    obtain ⟨blk, hp, hstep⟩ := hstep
    injection hstep with hstep
    subst hstep
    obtain ⟨hhd, hds⟩ := pad_parse_ok h _ blk hp
    refine ⟨blk, hp, ?_⟩
    show intAdd s.offset (intAdd (blk.toRarHeader.Size : Int) (blk.PadSize : Int)) = _
    rw [hhd, intAdd_eq (h.Size : Int) _ (by omega) (by omega), intAdd_eq _ _ (by omega) (by omega)]
    omega
  · simp +decide only [hty, if_false, if_true] at hstep
    rw [Res.andThen_eq_next] at hstep
    obtain ⟨blk, hp, hstep⟩ := hstep
    injection hstep with hstep
    subst hstep
    obtain ⟨hhd, hlow, -⟩ := newSub_parse_ok h _ blk hp
    refine ⟨blk, hp, fun hrr => ?_, fun hrr => ?_⟩
    · show (if blk.GetFileName = [0x52, 0x52] then intAdd s.offset (h.Size : Int)
        else intAdd s.offset (intAdd (h.Size : Int) blk.GetPackSize)) = _
      rw [if_pos hrr, intAdd_eq _ _ (by omega) (by omega)]
    · have hoff : (if blk.GetFileName = [0x52, 0x52] then intAdd s.offset (h.Size : Int)
          else intAdd s.offset (intAdd (h.Size : Int) blk.GetPackSize)) =
          wrapInt64 (s.offset + h.Size +
            (specPackSize blk.Flags blk.LowPackSize blk.HighPackSize : Nat)) := by
        rw [if_neg hrr]
        unfold intAdd
        rw [wrapInt64_add_wrap, ← add_assoc, newSub_wrap_getPackSize blk _ hlow]
      refine ⟨hoff, fun hsmall => ?_⟩
      show (if blk.GetFileName = [0x52, 0x52] then intAdd s.offset (h.Size : Int)
          else intAdd s.offset (intAdd (h.Size : Int) blk.GetPackSize)) = _
      rw [hoff]
      exact wrapInt64_eq_self _ (by omega) hsmall

/-- A new-sub block named `CMT` with two bytes of data at offset 0: the next block is
read at `0 + 35 + 2`. -/
theorem cursor_after_payload_block_witness :
    step newSubInput (WalkState.init SrrFile.empty) = .next newSubState ∧
    newSubState.offset = 37 ∧
    ∃ blk, NewSubHeadBlock.Parse { CRC := 0, HeadType := 0x7A, Flags := 0, Size := 35 }
        newSubInput = .ok blk ∧
      (blk.GetFileName = [0x52, 0x52] → newSubState.offset = 0 + (35 : Nat)) ∧
      (blk.GetFileName ≠ [0x52, 0x52] →
        newSubState.offset = wrapInt64 (0 + (35 : Nat) +
          (specPackSize blk.Flags blk.LowPackSize blk.HighPackSize : Nat)) ∧
        ((0 : Int) + (35 : Nat) +
            (specPackSize blk.Flags blk.LowPackSize blk.HighPackSize : Nat) < 2 ^ 63 →
          newSubState.offset = 0 + (35 : Nat) +
            (specPackSize blk.Flags blk.LowPackSize blk.HighPackSize : Nat))) :=
  ⟨by decide, by decide,
   (cursor_after_payload_block newSubInput (WalkState.init SrrFile.empty) newSubState
     { CRC := 0, HeadType := 0x7A, Flags := 0, Size := 35 }
     (by decide) (by decide) (by decide)).2.2 rfl⟩

/-! ## Claim C10 -/

/-- C10 (the claim as stated fails): after a protect-head block with header size 18 and
packed size 5 at offset 0, the next block is read at 18, not at `0 + 18 + 5`. -/
theorem protect_cursor_header_only :
    headerAt protectInput (WalkState.init SrrFile.empty) =
      some { CRC := 0, HeadType := 0x78, Flags := 0x8000, Size := 18 } ∧
    (∃ blk, ProtectHeadBlock.Parse { CRC := 0, HeadType := 0x78, Flags := 0x8000, Size := 18 }
        protectInput = .ok blk ∧ blk.PackedSize = 5) ∧
    step protectInput (WalkState.init SrrFile.empty) = .next protectState ∧
    protectState.offset = 18 ∧ (18 : Int) ≠ 0 + 18 + 5 := by
  refine ⟨by decide, ⟨_, rfl, by decide⟩, by decide, by decide, by decide⟩

/-- C10 (amended): after a turn of the loop on a protect-head block at offset `o` (input
of fewer than `2^62` bytes), the cursor is `o + header.Size`: the packed size is not
skipped. What the block adds to the size of the current RAR file is
`header.Size + PackedSize`. -/
theorem cursor_after_protect (b : Bytes) (s s1 : WalkState) (h : RarHeader)
    (hlen : b.length < 2 ^ 62) (hh : headerAt b s = some h) (hty : h.HeadType = ProtectHead)
    (hstep : step b s = .next s1) :
    ∃ blk, ProtectHeadBlock.Parse h (b.drop s.offset.toNat) = .ok blk ∧
      s1.offset = s.offset + h.Size ∧
      s1.rarHeap = s.addRarSize ((h.Size : Int) + (blk.PackedSize : Int)) := by
  obtain ⟨h0, hlt, hsz⟩ := headerAt_bounds b s h hh
  rw [step_of_headerAt b s h hh] at hstep
  unfold dispatch at hstep
  simp +decide only [hty, if_false, if_true] at hstep
  rw [Res.andThen_eq_next] at hstep
  obtain ⟨blk, hp, hstep⟩ := hstep
  injection hstep with hstep
  subst hstep
  obtain ⟨hhd, hps⟩ := protect_parse_ok h _ blk hp
  refine ⟨blk, hp, ?_, ?_⟩
  · show intAdd s.offset (h.Size : Int) = _
    rw [intAdd_eq _ _ (by omega) (by omega)]
  · show s.addRarSize (intAdd (blk.toRarHeader.Size : Int) (blk.PackedSize : Int)) = _
    rw [hhd, intAdd_eq _ _ (by omega) (by omega)]

/-- The protect-head block of `protectInput`: the cursor moves from 0 to 18. -/
theorem cursor_after_protect_witness :
    step protectInput (WalkState.init SrrFile.empty) = .next protectState ∧
    ∃ blk, ProtectHeadBlock.Parse { CRC := 0, HeadType := 0x78, Flags := 0x8000, Size := 18 }
        protectInput = .ok blk ∧
      protectState.offset = 0 + (18 : Nat) ∧
      protectState.rarHeap =
        (WalkState.init SrrFile.empty).addRarSize (((18 : Nat) : Int) + (blk.PackedSize : Int)) :=
  ⟨by decide,
   cursor_after_protect protectInput (WalkState.init SrrFile.empty) protectState
     { CRC := 0, HeadType := 0x78, Flags := 0x8000, Size := 18 }
     (by decide) (by decide) (by decide) (by decide)⟩

/-! ## Further facts: short tails, the sort -/

theorem Unmarshal_of_crash (R : Runtime) (f0 : SrrFile) (b : Bytes) (k : Nat) (s : WalkState)
    (fuel : Nat) (hs : stateAt b f0 k = some s)
    (hlt : s.offset < (b.length : Int)) (hstep : step b s = .crash) (hk : k < fuel) :
    Unmarshal R f0 b fuel = some .crashed := by
  have he : endAt b s = some .crashed := by simp [endAt, hlt, hstep]
  unfold Unmarshal
  rw [walk_of_endAt b k _ s _ fuel hs he hk]

/-- Whenever the loop starts a turn with fewer than 7 bytes left, the header slice
`b[offset:offset+7]` is out of range and the call ends in a run-time crash. -/
theorem short_tail_crashes (R : Runtime) (f0 : SrrFile) (b : Bytes) (k : Nat) (s : WalkState)
    (fuel : Nat) (hs : stateAt b f0 k = some s) (hlt : s.offset < (b.length : Int))
    (hshort : (b.length : Int) < s.offset + 7) (hk : k < fuel) :
    Unmarshal R f0 b fuel = some .crashed := by
  refine Unmarshal_of_crash R f0 b k s fuel hs hlt ?_ hk
  unfold step
  have : goSlice b s.offset (intAdd s.offset 7) = none := by
    unfold goSlice
    rw [if_neg]
    unfold intAdd wrapInt64
    omega
  rw [this]

theorem byte_eq_of_not_lt (x y : UInt8) (h1 : ¬ x < y) (h2 : ¬ y < x) : x = y := by
  apply UInt8.toNat.inj
  have a := UInt8.not_lt.1 h1
  have c := UInt8.not_lt.1 h2
  rw [UInt8.le_def, BitVec.le_def] at a c
  exact Nat.le_antisymm c a

theorem strLess_irrefl (a : Bytes) : strLess a a = false := by
  induction a with
  | nil => rfl
  | cons x xs ih => simp [strLess, ih]

theorem strLess_asymm (a b : Bytes) (h : strLess a b = true) : strLess b a = false := by
  induction a generalizing b with
  | nil => cases b <;> simp_all [strLess]
  | cons x xs ih =>
    cases b with
    | nil => simp [strLess] at h
    | cons y ys =>
      unfold strLess at h ⊢
      by_cases hxy : x < y
      · have hyx : ¬ y < x := UInt8.lt_asymm hxy
        simp [hxy, hyx]
      · by_cases hyx : y < x
        · simp [hxy, hyx] at h
        · simp only [hxy, hyx, if_false] at h ⊢
          exact ih ys h

theorem strLess_trans (a b c : Bytes) (h1 : strLess a b = true) (h2 : strLess b c = true) :
    strLess a c = true := by
  induction a generalizing b c with
  | nil =>
    cases b with
    | nil => simp [strLess] at h1
    | cons y ys =>
      cases c with
      | nil => simp [strLess] at h2
      | cons z zs => rfl
  | cons x xs ih =>
    cases b with
    | nil => simp [strLess] at h1
    | cons y ys =>
      cases c with
      | nil => simp [strLess] at h2
      | cons z zs =>
        unfold strLess at h1 h2 ⊢
        by_cases hxy : x < y
        · by_cases hyz : y < z
          · simp [UInt8.lt_trans hxy hyz]
          · by_cases hzy : z < y
            · simp [hyz, hzy] at h2
            · have := byte_eq_of_not_lt y z hyz hzy
              subst this
              simp [hxy]
        · by_cases hyx : y < x
          · simp [hxy, hyx] at h1
          · have := byte_eq_of_not_lt x y hxy hyx
            subst this
            simp only [hxy, if_false] at h1
            by_cases hxz : x < z
            · simp [hxz]
            · by_cases hzx : z < x
              · simp [hxz, hzx] at h2
              · simp only [hxz, hzx, if_false] at h2 ⊢
                exact ih ys zs h1 h2

theorem strLess_total (a b : Bytes) (h1 : strLess a b = false) (h2 : strLess b a = false) :
    a = b := by
  induction a generalizing b with
  | nil => cases b <;> simp_all [strLess]
  | cons x xs ih =>
    cases b with
    | nil => simp [strLess] at h2
    | cons y ys =>
      unfold strLess at h1 h2
      by_cases hxy : x < y
      · simp [hxy] at h1
      · by_cases hyx : y < x
        · simp [hyx] at h2
        · have := byte_eq_of_not_lt x y hxy hyx
          subst this
          simp only [hxy, if_false] at h1 h2
          rw [ih ys h1 h2]

theorem strLess_negTrans (a b c : Bytes) (h1 : strLess a b = false) (h2 : strLess b c = false) :
    strLess a c = false := by
  by_contra h
  have hac : strLess a c = true := by simpa using h
  by_cases hba : strLess b a = true
  · have := strLess_trans b a c hba hac
    rw [this] at h2
    cases h2
  · have hab : a = b := strLess_total a b h1 (by simpa using hba)
    subst hab
    rw [hac] at h2
    cases h2

theorem keyLess_asymm (R : Runtime) (p q : Bytes) (h : keyLess R p q = true) :
    keyLess R q p = false := by
  unfold keyLess at h ⊢
  by_cases he : R.ToLower p = R.ToLower q
  · rw [if_pos he] at h
    rw [if_pos he.symm]
    exact strLess_asymm p q h
  · rw [if_neg he] at h
    rw [if_neg (fun h' => he h'.symm)]
    exact strLess_asymm _ _ h

theorem keyLess_negTrans (R : Runtime) (p q r : Bytes) (h1 : keyLess R p q = false)
    (h2 : keyLess R q r = false) : keyLess R p r = false := by
  unfold keyLess at h1 h2 ⊢
  by_cases hpq : R.ToLower p = R.ToLower q
  · rw [if_pos hpq] at h1
    by_cases hqr : R.ToLower q = R.ToLower r
    · rw [if_pos hqr] at h2
      rw [if_pos (hpq.trans hqr)]
      exact strLess_negTrans p q r h1 h2
    · rw [if_neg hqr] at h2
      rw [if_neg (by rw [hpq]; exact hqr), hpq]
      exact h2
  · rw [if_neg hpq] at h1
    by_cases hqr : R.ToLower q = R.ToLower r
    · rw [if_pos hqr] at h2
      rw [if_neg (by rw [← hqr]; exact hpq), ← hqr]
      exact h1
    · rw [if_neg hqr] at h2
      have h3 := strLess_negTrans _ _ _ h1 h2
      by_cases hpr : R.ToLower p = R.ToLower r
      · exfalso
        rw [hpr] at h1
        exact hqr (strLess_total _ _ h2 h1)
      · rw [if_neg hpr]
        exact h3

theorem mem_insertBack {α : Type} (less : α → α → Bool) (x z : α) (l : List α)
    (h : z ∈ insertBack less x l) : z = x ∨ z ∈ l := by
  induction l with
  | nil => simpa [insertBack] using h
  | cons y ys ih =>
    unfold insertBack at h
    split_ifs at h
    · rcases List.mem_cons.1 h with h | h
      · exact Or.inr (by simp [h])
      · rcases ih h with h | h
        · exact Or.inl h
        · exact Or.inr (List.mem_cons_of_mem _ h)
    · rcases List.mem_cons.1 h with h | h
      · exact Or.inl h
      · exact Or.inr h

theorem insertBack_pairwise {α : Type} (less : α → α → Bool)
    (hA : ∀ a c, less a c = true → less c a = false)
    (hN : ∀ a c d, less a c = false → less c d = false → less a d = false)
    (x : α) (l : List α) (hl : l.Pairwise (fun a c => less a c = false)) :
    (insertBack less x l).Pairwise (fun a c => less a c = false) := by
  induction l with
  | nil => simp [insertBack]
  | cons y ys ih =>
    rw [List.pairwise_cons] at hl
    unfold insertBack
    by_cases hxy : less x y = true
    · rw [if_pos hxy, List.pairwise_cons]
      refine ⟨fun z hz => ?_, ih hl.2⟩
      rcases mem_insertBack less x z ys hz with h | h
      · rw [h]
        exact hA x y hxy
      · exact hl.1 z h
    · rw [if_neg hxy, List.pairwise_cons, List.pairwise_cons]
      have hxy' : less x y = false := by simpa using hxy
      refine ⟨fun z hz => ?_, hl.1, hl.2⟩
      rcases List.mem_cons.1 hz with h | h
      · rw [h]
        exact hxy'
      · exact hN x y z hxy' (hl.1 z h)

theorem sortSlice_pairwise {α : Type} (less : α → α → Bool)
    (hA : ∀ a c, less a c = true → less c a = false)
    (hN : ∀ a c d, less a c = false → less c d = false → less a d = false)
    (l : List α) : (sortSlice less l).Pairwise (fun a c => less c a = false) := by
  unfold sortSlice
  rw [List.pairwise_reverse]
  have key : ∀ (l acc : List α), acc.Pairwise (fun a c => less a c = false) →
      (l.foldl (fun acc x => insertBack less x acc) acc).Pairwise
        (fun a c => less a c = false) := by
    intro l
    induction l with
    | nil => intro acc h; exact h
    | cons x xs ih =>
      intro acc h
      exact ih _ (insertBack_pairwise less hA hN x acc h)
  exact key l [] List.Pairwise.nil

theorem endAt_advance_none (b : Bytes) (s : WalkState) (e : WalkEnd)
    (h : endAt b s = some e) : advance b s = none := by
  unfold endAt at h
  unfold advance
  by_cases hlt : s.offset < (b.length : Int)
  · rw [if_pos hlt] at h ⊢
    cases hstep : step b s <;> simp [hstep] at h ⊢
  · rw [if_neg hlt]

theorem last_turn_unique (b : Bytes) (s0 s s1 : WalkState) (k k1 : Nat)
    (hs : stateFrom b s0 k = some s) (ha : advance b s = none)
    (hs1 : stateFrom b s0 k1 = some s1) (ha1 : advance b s1 = none) : k = k1 ∧ s = s1 := by
  have hk : k = k1 := by
    by_contra hne
    rcases Nat.lt_or_gt_of_ne hne with h | h
    · rw [stateFrom_none_after b s0 s k hs ha k1 h] at hs1
      cases hs1
    · rw [stateFrom_none_after b s0 s1 k1 hs1 ha1 k h] at hs
      cases hs
  subst hk
  rw [hs] at hs1
  injection hs1 with hs1
  exact ⟨rfl, hs1⟩

/-- When the block loop ends by its condition and `Unmarshal` returns `nil`, `RarFiles`
is sorted by lower-case path, then by path: no entry is less than one before it. -/
theorem rarFiles_sorted_of_completed (R : Runtime) (f0 f : SrrFile) (b : Bytes)
    (fuel k : Nat) (s : WalkState) (hs : stateAt b f0 k = some s)
    (hend : ¬ s.offset < (b.length : Int))
    (hU : Unmarshal R f0 b fuel = some (.returned f none)) :
    f.RarFiles.Pairwise (fun r q => keyLess R q.Path r.Path = false) := by
  unfold Unmarshal at hU
  cases hw : walk b fuel (WalkState.init f0) with
  | none => simp [hw] at hU
  | some e =>
    rw [hw] at hU
    obtain ⟨k1, s1, hk1, hs1, he⟩ := walk_ends b fuel _ e hw
    have ha : advance b s = none := by simp [advance, hend]
    obtain ⟨-, hss⟩ := last_turn_unique b _ s s1 k k1 hs ha hs1 (endAt_advance_none b s1 e he)
    subst hss
    simp only [endAt, if_neg hend, Option.some.injEq] at he
    subst he
    simp only [Option.some.injEq] at hU
    unfold finish at hU
    split at hU
    · injection hU with h1 h2
      cases h2
    · injection hU with h1 h2
      subst h1
      show (List.map _ _).Pairwise _
      rw [List.pairwise_map]
      exact sortSlice_pairwise (rarLess R _)
        (fun a c h => keyLess_asymm R _ _ h)
        (fun a c d h1 h2 => keyLess_negTrans R _ _ _ h1 h2) _

/-! ## Claim C12 -/

theorem dispatch_no_data (data : Bytes) (s : WalkState) (h : RarHeader)
    (hty : h.HeadType ∈ dataTypes) (hcrc : h.HeadType ≠ ProtectHead → h.CRC = magic h.HeadType)
    (hflag : h.Flag HAS_DATA = false) : dispatch data s h = .fail .ErrBadBlock := by
  simp only [dataTypes, List.mem_cons, List.mem_singleton, List.not_mem_nil, or_false] at hty
  unfold dispatch
  rcases hty with hty | hty | hty
  · have hc : h.CRC = 0x6A6A := by rw [hcrc (by rw [hty]; decide), hty]; rfl
    simp +decide only [hty, if_false, if_true]
    rw [SrrStoredFileHeadBlock.Parse, if_neg (by simp [hc]), if_pos (by simp [hflag])]
    rfl
  · have hc : h.CRC = 0x6C6C := by rw [hcrc (by rw [hty]; decide), hty]; rfl
    simp +decide only [hty, if_false, if_true]
    rw [SrrRarPadHeadBlock.Parse, if_neg (by simp [hc]), if_pos (by simp [hflag])]
    rfl
  · simp +decide only [hty, if_false, if_true]
    rw [ProtectHeadBlock.Parse, if_pos (by simp [hflag])]
    rfl

/-- C12: a stored-file block or a pad block with the right magic, and a protect-head
block, whose flags do not have `HAS_DATA`, are refused: `Parse` returns `ErrBadBlock`
whatever the bytes after the header are (there may be none), and when the loop reads such
a header `Unmarshal` returns `ErrBadBlock`. -/
theorem no_data_rejected (R : Runtime) (f0 : SrrFile) (b : Bytes) (k : Nat)
    (s : WalkState) (h : RarHeader) (fuel : Nat)
    (hs : stateAt b f0 k = some s) (hh : headerAt b s = some h)
    (hty : h.HeadType ∈ dataTypes) (hcrc : h.HeadType ≠ ProtectHead → h.CRC = magic h.HeadType)
    (hflag : h.Flags &&& 0x8000 ≠ 0x8000) (hk : k < fuel) :
    ((∀ h1 data, h1.CRC = 0x6A6A → h1.Flags &&& 0x8000 ≠ 0x8000 →
        SrrStoredFileHeadBlock.Parse h1 data = .err .ErrBadBlock) ∧
     (∀ h1 data, h1.CRC = 0x6C6C → h1.Flags &&& 0x8000 ≠ 0x8000 →
        SrrRarPadHeadBlock.Parse h1 data = .err .ErrBadBlock) ∧
     (∀ h1 data, h1.Flags &&& 0x8000 ≠ 0x8000 →
        ProtectHeadBlock.Parse h1 data = .err .ErrBadBlock)) ∧
    step b s = .fail .ErrBadBlock ∧
    Unmarshal R f0 b fuel = some (.returned s.toFile (some .ErrBadBlock)) := by
  have hF : ∀ h1 : RarHeader, h1.Flags &&& 0x8000 ≠ 0x8000 → h1.Flag HAS_DATA = false := by
    intro h1 hf
    simp [RarHeader.Flag, hf]
  have hstep : step b s = .fail .ErrBadBlock := by
    rw [step_of_headerAt b s h hh]
    exact dispatch_no_data _ s h hty hcrc (hF h hflag)
  refine ⟨⟨?_, ?_, ?_⟩, hstep, ?_⟩
  · intro h1 data hc hf
    rw [SrrStoredFileHeadBlock.Parse, if_neg (by simp [hc]), if_pos (by simp [hF h1 hf])]
  · intro h1 data hc hf
    rw [SrrRarPadHeadBlock.Parse, if_neg (by simp [hc]), if_pos (by simp [hF h1 hf])]
  · intro h1 data hf
    rw [ProtectHeadBlock.Parse, if_pos (by simp [hF h1 hf])]
  · exact Unmarshal_of_fail R f0 b k s _ fuel hs (headerAt_some b s h hh).1 hstep hk

/-- A stored-file block of 7 bytes with flags 0: the call returns `ErrBadBlock`. -/
theorem no_data_rejected_witness :
    headerAt noDataInput (WalkState.init SrrFile.empty) =
      some { CRC := 0x6A6A, HeadType := 0x6A, Flags := 0, Size := 7 } ∧
    Unmarshal asciiRuntime SrrFile.empty noDataInput 1 =
      some (.returned SrrFile.empty (some .ErrBadBlock)) :=
  ⟨by decide,
   (no_data_rejected asciiRuntime SrrFile.empty noDataInput 0
     (WalkState.init SrrFile.empty) { CRC := 0x6A6A, HeadType := 0x6A, Flags := 0, Size := 7 } 1
     (by decide) (by decide) (by decide) (by decide) (by decide) (by decide)).2.2⟩

/-! ## Claim C14 -/

/-- C14 (the claim as stated fails): with `LHD_LARGE`, high word `0x80000000` and low
word 0, `GetPackSize` and `GetUnpackSize` return `-2^63`, not `2^63`: the shift is done
in the 64-bit `int`. -/
theorem getPackSize_negative :
    (largeHead 0 0x80000000 0 0x80000000).GetPackSize = -2 ^ 63 ∧
    (largeHead 0 0x80000000 0 0x80000000).GetUnpackSize = -2 ^ 63 ∧
    specPackSize 0x100 0 0x80000000 = 2 ^ 63 ∧
    (0x80000000 : Nat) * 2 ^ 32 + 0 = 2 ^ 63 := by
  decide

theorem specPackSize_lt (flags low high : Nat) (hl : low < 2 ^ 32) (hh : high < 2 ^ 32) :
    specPackSize flags low high < 2 ^ 64 := by
  rw [specPackSize_eq _ _ _ hl]
  split_ifs <;> omega

theorem getPackSize_eq (blk : FileHeadBlock) (hl : blk.LowPackSize < 2 ^ 32) :
    blk.GetPackSize =
      wrapInt64 (specPackSize blk.Flags blk.LowPackSize blk.HighPackSize : Nat) := by
  rw [specPackSize_eq _ _ _ hl]
  unfold FileHeadBlock.GetPackSize RarHeader.Flag
  by_cases hf : (blk.Flags &&& LHD_LARGE) = LHD_LARGE
  · simp only [hf, beq_self_eq_true, if_true]
    unfold intAdd intShl32 wrapInt64
    push_cast
    omega
  · simp only [hf, beq_iff_eq, if_false]
    unfold wrapInt64
    omega

theorem getUnpackSize_eq (blk : FileHeadBlock) (hl : blk.LowUnpackSize < 2 ^ 32) :
    blk.GetUnpackSize =
      wrapInt64 (specPackSize blk.Flags blk.LowUnpackSize blk.HighUnpackSize : Nat) := by
  rw [specPackSize_eq _ _ _ hl]
  unfold FileHeadBlock.GetUnpackSize RarHeader.Flag
  by_cases hf : (blk.Flags &&& LHD_LARGE) = LHD_LARGE
  · simp only [hf, beq_self_eq_true, if_true]
    unfold intAdd intShl32 wrapInt64
    push_cast
    omega
  · simp only [hf, beq_iff_eq, if_false]
    unfold wrapInt64
    omega

/-- C14 (amended): for 32-bit low and high words, `GetPackSize` returns the effective
pack size `(highPack << 32) | lowPack = highPack * 2^32 + lowPack` (`lowPack` without
`LHD_LARGE`) reduced to the range of the 64-bit `int`: that value itself when
`highPack < 2^31`, and in every case a value whose conversion to `uint64` is the
effective pack size. The same holds for `GetUnpackSize`. With high words 0 the sizes
are the low words, with or without `LHD_LARGE`. -/
theorem getPackSize_spec (blk : FileHeadBlock)
    (hlp : blk.LowPackSize < 2 ^ 32) (hhp : blk.HighPackSize < 2 ^ 32)
    (hlu : blk.LowUnpackSize < 2 ^ 32) (hhu : blk.HighUnpackSize < 2 ^ 32) :
    (specPackSize blk.Flags blk.LowPackSize blk.HighPackSize =
      if blk.toRarHeader.Flag LHD_LARGE then blk.HighPackSize * 2 ^ 32 + blk.LowPackSize
      else blk.LowPackSize) ∧
    blk.GetPackSize =
      wrapInt64 (specPackSize blk.Flags blk.LowPackSize blk.HighPackSize : Nat) ∧
    (blk.HighPackSize < 2 ^ 31 →
      blk.GetPackSize = (specPackSize blk.Flags blk.LowPackSize blk.HighPackSize : Nat)) ∧
    toUint64 blk.GetPackSize = specPackSize blk.Flags blk.LowPackSize blk.HighPackSize ∧
    blk.GetUnpackSize =
      wrapInt64 (specPackSize blk.Flags blk.LowUnpackSize blk.HighUnpackSize : Nat) ∧
    (blk.HighUnpackSize < 2 ^ 31 →
      blk.GetUnpackSize =
        (specPackSize blk.Flags blk.LowUnpackSize blk.HighUnpackSize : Nat)) ∧
    toUint64 blk.GetUnpackSize =
      specPackSize blk.Flags blk.LowUnpackSize blk.HighUnpackSize ∧
    (blk.HighPackSize = 0 → blk.GetPackSize = blk.LowPackSize) ∧
    (blk.HighUnpackSize = 0 → blk.GetUnpackSize = blk.LowUnpackSize) := by
  have e1 := getPackSize_eq blk hlp
  have e2 := getUnpackSize_eq blk hlu
  have s1 := specPackSize_eq blk.Flags blk.LowPackSize blk.HighPackSize hlp
  have s2 := specPackSize_eq blk.Flags blk.LowUnpackSize blk.HighUnpackSize hlu
  have b1 := specPackSize_lt blk.Flags _ _ hlp hhp
  have b2 := specPackSize_lt blk.Flags _ _ hlu hhu
  refine ⟨?_, e1, ?_, ?_, e2, ?_, ?_, ?_, ?_⟩
  · rw [s1]
    simp [RarHeader.Flag]
  · intro h
    rw [e1]
    apply wrapInt64_eq_self
    · omega
    · rw [s1]
      split_ifs <;> omega
  · rw [toUint64_GetPackSize blk hlp]
    exact Nat.mod_eq_of_lt b1
  · intro h
    rw [e2]
    apply wrapInt64_eq_self
    · omega
    · rw [s2]
      split_ifs <;> omega
  · rw [e2, toUint64_wrap, toUint64_natCast]
    exact Nat.mod_eq_of_lt b2
  · intro h
    rw [e1, s1, h]
    unfold wrapInt64
    split_ifs <;> omega
  · intro h
    rw [e2, s2, h]
    unfold wrapInt64
    split_ifs <;> omega

/-- A file head with `LHD_LARGE`, pack words 5 and 1, unpack words 7 and 0: the pack
size is `2^32 + 5` and the unpack size is 7. -/
theorem getPackSize_spec_witness :
    (largeHead 5 1 7 0).GetPackSize = 2 ^ 32 + 5 ∧ (largeHead 5 1 7 0).GetUnpackSize = 7 :=
  have h := getPackSize_spec (largeHead 5 1 7 0) (by decide) (by decide) (by decide) (by decide)
  ⟨(h.2.2.1 (by decide)).trans (by decide), h.2.2.2.2.2.2.2.2 rfl⟩

/-! ## Claims C15, C16 and C20 -/

--THMS
/-- C15: for every slice of exactly 7 bytes `RarHeader.Parse` succeeds and decodes the
CRC from bytes 0 and 1, the type from byte 2, the flags from bytes 3 and 4 and the size
from bytes 5 and 6, all little-endian; `GetSize` returns that size. -/
theorem header_parse_seven (b0 b1 b2 b3 b4 b5 b6 : UInt8) :
    RarHeader.Parse [b0, b1, b2, b3, b4, b5, b6] =
      .ok { CRC := b0.toNat + 256 * b1.toNat, HeadType := b2.toNat,
            Flags := b3.toNat + 256 * b4.toNat, Size := b5.toNat + 256 * b6.toNat } ∧
    (RarHeader.mk (b0.toNat + 256 * b1.toNat) b2.toNat (b3.toNat + 256 * b4.toNat)
        (b5.toNat + 256 * b6.toNat)).GetSize =
      ((b5.toNat + 256 * b6.toNat : Nat) : Int) := by
  constructor
  · simp [RarHeader.Parse, readUint, readBytes, leNat, bind, Res.bind, pure]
  · rfl

/-- C16 (the claim as stated fails): on the 18 bytes of the specification, whose header
size is `0x0D` and whose name length is 4, the volume head gives the application name
`pyRe` and moves the cursor to 13; the read of the next header at `b[13:20]` is past the
end of the input and the call panics. -/
theorem spec_min_input_crashes :
    specMinInput.length = 18 ∧
    (stateAt specMinInput SrrFile.empty 1).map (fun s => (s.ApplicationName, s.offset)) =
      some ([112, 121, 82, 101], 13) ∧
    Unmarshal asciiRuntime SrrFile.empty specMinInput 2 = some .crashed := by
  decide

/-- C16 (amended): on the 18 bytes `69 69 69 01 00 12 00 09 00` followed by `pyReScene`
(header size `0x12`, name length 9) `Unmarshal` returns no error, the application name is
`pyReScene`, every list is empty and `RarCompressed` is false. -/
theorem min_input_returns :
    minInput.length = 18 ∧
    Unmarshal asciiRuntime SrrFile.empty minInput 2 =
      some (.returned
        { ApplicationName := [112, 121, 82, 101, 83, 99, 101, 110, 101], StoredFiles := [],
          OSOHashes := [], RarFiles := [], RarCompressed := false, PackedFiles := [],
          SFVComments := [] } none) := by
  decide

/-- C20: the result depends on the order in which the entries of the SFV table are
visited. The SFV files `d/x.sfv` and `e/y.sfv` give the keys `d/a.rar` with CRC
`0x11111111` and `e/a.rar` with CRC `0x22222222`; both match the RAR file `a.rar` by base
name, and the key visited first sets its CRC. -/
theorem crc_depends_on_map_order :
    Unmarshal asciiRuntime SrrFile.empty twoSfvInput 4 =
      some (.returned
        { ApplicationName := [],
          StoredFiles :=
            [⟨[100, 47, 120, 46, 115, 102, 118],
              [97, 46, 114, 97, 114, 32, 49, 49, 49, 49, 49, 49, 49, 49, 10]⟩,
             ⟨[101, 47, 121, 46, 115, 102, 118],
              [97, 46, 114, 97, 114, 32, 50, 50, 50, 50, 50, 50, 50, 50, 10]⟩],
          OSOHashes := [],
          RarFiles := [⟨[97, 46, 114, 97, 114], 0, 0x11111111, false, false⟩],
          RarCompressed := false, PackedFiles := [], SFVComments := [] } none) ∧
    Unmarshal reverseRuntime SrrFile.empty twoSfvInput 4 =
      some (.returned
        { ApplicationName := [],
          StoredFiles :=
            [⟨[100, 47, 120, 46, 115, 102, 118],
              [97, 46, 114, 97, 114, 32, 49, 49, 49, 49, 49, 49, 49, 49, 10]⟩,
             ⟨[101, 47, 121, 46, 115, 102, 118],
              [97, 46, 114, 97, 114, 32, 50, 50, 50, 50, 50, 50, 50, 50, 10]⟩],
          OSOHashes := [],
          RarFiles := [⟨[97, 46, 114, 97, 114], 0, 0x22222222, false, false⟩],
          RarCompressed := false, PackedFiles := [], SFVComments := [] } none) := by
  decide

/-! ## What one turn of the loop changes -/

--THMS
theorem dispatch_shape (data : Bytes) (s s1 : WalkState) (h : RarHeader)
    (hd : dispatch data s h = .next s1) :
    s1.SFVComments = s.SFVComments ∧
    (h.HeadType ≠ OSOHashHead → s1.OSOHashes = s.OSOHashes) ∧
    (h.HeadType ≠ SrrStoredFileHead → s1.StoredFiles = s.StoredFiles) ∧
    (h.HeadType ≠ SrrVolHead → s1.ApplicationName = s.ApplicationName) ∧
    ((s1.rarHeap = s.rarHeap ∧ s1.RarFiles = s.RarFiles ∧
        s1.currentRarFile = s.currentRarFile) ∨
     (∃ r : RarFile, r.Path = (deref s.rarHeap s.currentRarFile).Path ∧
        r.CRC = (deref s.rarHeap s.currentRarFile).CRC ∧
        s1.rarHeap = store s.rarHeap s.currentRarFile r ∧ s1.RarFiles = s.RarFiles ∧
        s1.currentRarFile = s.currentRarFile) ∨
     (∃ name : Bytes, s1.rarHeap = s.rarHeap ++ [⟨name, 0, 0, false, false⟩] ∧
        s1.RarFiles = s.RarFiles ++ [s.rarHeap.length] ∧
        s1.currentRarFile = s.rarHeap.length)) := by
  unfold dispatch at hd
  by_cases h0 : h.HeadType = SrrVolHead
  · rw [if_pos h0] at hd
    try unfold stepPassive at hd
    try (rw [Res.andThen_eq_next] at hd; obtain ⟨_, _, hd⟩ := hd)
    try unfold stepFileHead at hd
    try (rw [Res.andThen_eq_next] at hd; obtain ⟨_, _, hd⟩ := hd)
    injection hd with hd
    subst hd
    refine ⟨rfl, ?_, ?_, ?_, ?_⟩
    · first
      | exact fun _ => rfl
      | exact fun hne => absurd h0 hne
    · first
      | exact fun _ => rfl
      | exact fun hne => absurd h0 hne
    · first
      | exact fun _ => rfl
      | exact fun hne => absurd h0 hne
    · first
      | exact Or.inl ⟨rfl, rfl, rfl⟩
      | exact Or.inr (Or.inl ⟨_, by rfl, by rfl, rfl, rfl, rfl⟩)
      | exact Or.inr (Or.inr ⟨_, rfl, rfl, rfl⟩)
  rw [if_neg h0] at hd
  by_cases h1 : h.HeadType = SrrStoredFileHead
  · rw [if_pos h1] at hd
    try unfold stepPassive at hd
    try (rw [Res.andThen_eq_next] at hd; obtain ⟨_, _, hd⟩ := hd)
    try unfold stepFileHead at hd
    try (rw [Res.andThen_eq_next] at hd; obtain ⟨_, _, hd⟩ := hd)
    injection hd with hd
    subst hd
    refine ⟨rfl, ?_, ?_, ?_, ?_⟩
    · first
      | exact fun _ => rfl
      | exact fun hne => absurd h1 hne
    · first
      | exact fun _ => rfl
      | exact fun hne => absurd h1 hne
    · first
      | exact fun _ => rfl
      | exact fun hne => absurd h1 hne
    · first
      | exact Or.inl ⟨rfl, rfl, rfl⟩
      | exact Or.inr (Or.inl ⟨_, by rfl, by rfl, rfl, rfl, rfl⟩)
      | exact Or.inr (Or.inr ⟨_, rfl, rfl, rfl⟩)
  rw [if_neg h1] at hd
  by_cases h2 : h.HeadType = OSOHashHead
  · rw [if_pos h2] at hd
    try unfold stepPassive at hd
    try (rw [Res.andThen_eq_next] at hd; obtain ⟨_, _, hd⟩ := hd)
    try unfold stepFileHead at hd
    try (rw [Res.andThen_eq_next] at hd; obtain ⟨_, _, hd⟩ := hd)
    injection hd with hd
    subst hd
    refine ⟨rfl, ?_, ?_, ?_, ?_⟩
    · first
      | exact fun _ => rfl
      | exact fun hne => absurd h2 hne
    · first
      | exact fun _ => rfl
      | exact fun hne => absurd h2 hne
    · first
      | exact fun _ => rfl
      | exact fun hne => absurd h2 hne
    · first
      | exact Or.inl ⟨rfl, rfl, rfl⟩
      | exact Or.inr (Or.inl ⟨_, by rfl, by rfl, rfl, rfl, rfl⟩)
      | exact Or.inr (Or.inr ⟨_, rfl, rfl, rfl⟩)
  rw [if_neg h2] at hd
  by_cases h3 : h.HeadType = SrrRarPadHead
  · rw [if_pos h3] at hd
    try unfold stepPassive at hd
    try (rw [Res.andThen_eq_next] at hd; obtain ⟨_, _, hd⟩ := hd)
    try unfold stepFileHead at hd
    try (rw [Res.andThen_eq_next] at hd; obtain ⟨_, _, hd⟩ := hd)
    injection hd with hd
    subst hd
    refine ⟨rfl, ?_, ?_, ?_, ?_⟩
    · first
      | exact fun _ => rfl
      | exact fun hne => absurd h3 hne
    · first
      | exact fun _ => rfl
      | exact fun hne => absurd h3 hne
    · first
      | exact fun _ => rfl
      | exact fun hne => absurd h3 hne
    · first
      | exact Or.inl ⟨rfl, rfl, rfl⟩
      | exact Or.inr (Or.inl ⟨_, by rfl, by rfl, rfl, rfl, rfl⟩)
      | exact Or.inr (Or.inr ⟨_, rfl, rfl, rfl⟩)
  rw [if_neg h3] at hd
  by_cases h4 : h.HeadType = SrrRarSubBlockHead
  · rw [if_pos h4] at hd
    try unfold stepPassive at hd
    try (rw [Res.andThen_eq_next] at hd; obtain ⟨_, _, hd⟩ := hd)
    try unfold stepFileHead at hd
    try (rw [Res.andThen_eq_next] at hd; obtain ⟨_, _, hd⟩ := hd)
    injection hd with hd
    subst hd
    refine ⟨rfl, ?_, ?_, ?_, ?_⟩
    · first
      | exact fun _ => rfl
      | exact fun hne => absurd h4 hne
    · first
      | exact fun _ => rfl
      | exact fun hne => absurd h4 hne
    · first
      | exact fun _ => rfl
      | exact fun hne => absurd h4 hne
    · first
      | exact Or.inl ⟨rfl, rfl, rfl⟩
      | exact Or.inr (Or.inl ⟨_, by rfl, by rfl, rfl, rfl, rfl⟩)
      | exact Or.inr (Or.inr ⟨_, rfl, rfl, rfl⟩)
  rw [if_neg h4] at hd
  by_cases h5 : h.HeadType = MarkHead
  · rw [if_pos h5] at hd
    try unfold stepPassive at hd
    try (rw [Res.andThen_eq_next] at hd; obtain ⟨_, _, hd⟩ := hd)
    try unfold stepFileHead at hd
    try (rw [Res.andThen_eq_next] at hd; obtain ⟨_, _, hd⟩ := hd)
    split at hd
    · cases hd
    · injection hd with hd
      subst hd
      refine ⟨rfl, ?_, ?_, ?_, ?_⟩
      · first
        | exact fun _ => rfl
        | exact fun hne => absurd h5 hne
      · first
        | exact fun _ => rfl
        | exact fun hne => absurd h5 hne
      · first
        | exact fun _ => rfl
        | exact fun hne => absurd h5 hne
      · first
        | exact Or.inl ⟨rfl, rfl, rfl⟩
        | exact Or.inr (Or.inl ⟨_, by rfl, by rfl, rfl, rfl, rfl⟩)
        | exact Or.inr (Or.inr ⟨_, rfl, rfl, rfl⟩)
  rw [if_neg h5] at hd
  by_cases h6 : h.HeadType = MainHead
  · rw [if_pos h6] at hd
    try unfold stepPassive at hd
    try (rw [Res.andThen_eq_next] at hd; obtain ⟨_, _, hd⟩ := hd)
    try unfold stepFileHead at hd
    try (rw [Res.andThen_eq_next] at hd; obtain ⟨_, _, hd⟩ := hd)
    injection hd with hd
    subst hd
    refine ⟨rfl, ?_, ?_, ?_, ?_⟩
    · first
      | exact fun _ => rfl
      | exact fun hne => absurd h6 hne
    · first
      | exact fun _ => rfl
      | exact fun hne => absurd h6 hne
    · first
      | exact fun _ => rfl
      | exact fun hne => absurd h6 hne
    · first
      | exact Or.inl ⟨rfl, rfl, rfl⟩
      | exact Or.inr (Or.inl ⟨_, by rfl, by rfl, rfl, rfl, rfl⟩)
      | exact Or.inr (Or.inr ⟨_, rfl, rfl, rfl⟩)
  rw [if_neg h6] at hd
  by_cases h7 : h.HeadType = FileHead
  · rw [if_pos h7] at hd
    try unfold stepPassive at hd
    try (rw [Res.andThen_eq_next] at hd; obtain ⟨_, _, hd⟩ := hd)
    try unfold stepFileHead at hd
    try (rw [Res.andThen_eq_next] at hd; obtain ⟨_, _, hd⟩ := hd)
    injection hd with hd
    subst hd
    refine ⟨rfl, ?_, ?_, ?_, ?_⟩
    · first
      | exact fun _ => rfl
      | exact fun hne => absurd h7 hne
    · first
      | exact fun _ => rfl
      | exact fun hne => absurd h7 hne
    · first
      | exact fun _ => rfl
      | exact fun hne => absurd h7 hne
    · first
      | exact Or.inl ⟨rfl, rfl, rfl⟩
      | exact Or.inr (Or.inl ⟨_, by rfl, by rfl, rfl, rfl, rfl⟩)
      | exact Or.inr (Or.inr ⟨_, rfl, rfl, rfl⟩)
  rw [if_neg h7] at hd
  by_cases h8 : h.HeadType = CommHead
  · rw [if_pos h8] at hd
    try unfold stepPassive at hd
    try (rw [Res.andThen_eq_next] at hd; obtain ⟨_, _, hd⟩ := hd)
    try unfold stepFileHead at hd
    try (rw [Res.andThen_eq_next] at hd; obtain ⟨_, _, hd⟩ := hd)
    injection hd with hd
    subst hd
    refine ⟨rfl, ?_, ?_, ?_, ?_⟩
    · first
      | exact fun _ => rfl
      | exact fun hne => absurd h8 hne
    · first
      | exact fun _ => rfl
      | exact fun hne => absurd h8 hne
    · first
      | exact fun _ => rfl
      | exact fun hne => absurd h8 hne
    · first
      | exact Or.inl ⟨rfl, rfl, rfl⟩
      | exact Or.inr (Or.inl ⟨_, by rfl, by rfl, rfl, rfl, rfl⟩)
      | exact Or.inr (Or.inr ⟨_, rfl, rfl, rfl⟩)
  rw [if_neg h8] at hd
  by_cases h9 : h.HeadType = AvHead
  · rw [if_pos h9] at hd
    try unfold stepPassive at hd
    try (rw [Res.andThen_eq_next] at hd; obtain ⟨_, _, hd⟩ := hd)
    try unfold stepFileHead at hd
    try (rw [Res.andThen_eq_next] at hd; obtain ⟨_, _, hd⟩ := hd)
    injection hd with hd
    subst hd
    refine ⟨rfl, ?_, ?_, ?_, ?_⟩
    · first
      | exact fun _ => rfl
      | exact fun hne => absurd h9 hne
    · first
      | exact fun _ => rfl
      | exact fun hne => absurd h9 hne
    · first
      | exact fun _ => rfl
      | exact fun hne => absurd h9 hne
    · first
      | exact Or.inl ⟨rfl, rfl, rfl⟩
      | exact Or.inr (Or.inl ⟨_, by rfl, by rfl, rfl, rfl, rfl⟩)
      | exact Or.inr (Or.inr ⟨_, rfl, rfl, rfl⟩)
  rw [if_neg h9] at hd
  by_cases h10 : h.HeadType = SubHead
  · rw [if_pos h10] at hd
    try unfold stepPassive at hd
    try (rw [Res.andThen_eq_next] at hd; obtain ⟨_, _, hd⟩ := hd)
    try unfold stepFileHead at hd
    try (rw [Res.andThen_eq_next] at hd; obtain ⟨_, _, hd⟩ := hd)
    injection hd with hd
    subst hd
    refine ⟨rfl, ?_, ?_, ?_, ?_⟩
    · first
      | exact fun _ => rfl
      | exact fun hne => absurd h10 hne
    · first
      | exact fun _ => rfl
      | exact fun hne => absurd h10 hne
    · first
      | exact fun _ => rfl
      | exact fun hne => absurd h10 hne
    · first
      | exact Or.inl ⟨rfl, rfl, rfl⟩
      | exact Or.inr (Or.inl ⟨_, by rfl, by rfl, rfl, rfl, rfl⟩)
      | exact Or.inr (Or.inr ⟨_, rfl, rfl, rfl⟩)
  rw [if_neg h10] at hd
  by_cases h11 : h.HeadType = ProtectHead
  · rw [if_pos h11] at hd
    try unfold stepPassive at hd
    try (rw [Res.andThen_eq_next] at hd; obtain ⟨_, _, hd⟩ := hd)
    try unfold stepFileHead at hd
    try (rw [Res.andThen_eq_next] at hd; obtain ⟨_, _, hd⟩ := hd)
    injection hd with hd
    subst hd
    refine ⟨rfl, ?_, ?_, ?_, ?_⟩
    · first
      | exact fun _ => rfl
      | exact fun hne => absurd h11 hne
    · first
      | exact fun _ => rfl
      | exact fun hne => absurd h11 hne
    · first
      | exact fun _ => rfl
      | exact fun hne => absurd h11 hne
    · first
      | exact Or.inl ⟨rfl, rfl, rfl⟩
      | exact Or.inr (Or.inl ⟨_, by rfl, by rfl, rfl, rfl, rfl⟩)
      | exact Or.inr (Or.inr ⟨_, rfl, rfl, rfl⟩)
  rw [if_neg h11] at hd
  by_cases h12 : h.HeadType = SignHead
  · rw [if_pos h12] at hd
    try unfold stepPassive at hd
    try (rw [Res.andThen_eq_next] at hd; obtain ⟨_, _, hd⟩ := hd)
    try unfold stepFileHead at hd
    try (rw [Res.andThen_eq_next] at hd; obtain ⟨_, _, hd⟩ := hd)
    injection hd with hd
    subst hd
    refine ⟨rfl, ?_, ?_, ?_, ?_⟩
    · first
      | exact fun _ => rfl
      | exact fun hne => absurd h12 hne
    · first
      | exact fun _ => rfl
      | exact fun hne => absurd h12 hne
    · first
      | exact fun _ => rfl
      | exact fun hne => absurd h12 hne
    · first
      | exact Or.inl ⟨rfl, rfl, rfl⟩
      | exact Or.inr (Or.inl ⟨_, by rfl, by rfl, rfl, rfl, rfl⟩)
      | exact Or.inr (Or.inr ⟨_, rfl, rfl, rfl⟩)
  rw [if_neg h12] at hd
  by_cases h13 : h.HeadType = NewSubHead
  · rw [if_pos h13] at hd
    try unfold stepPassive at hd
    try (rw [Res.andThen_eq_next] at hd; obtain ⟨_, _, hd⟩ := hd)
    try unfold stepFileHead at hd
    try (rw [Res.andThen_eq_next] at hd; obtain ⟨_, _, hd⟩ := hd)
    injection hd with hd
    subst hd
    refine ⟨rfl, ?_, ?_, ?_, ?_⟩
    · first
      | exact fun _ => rfl
      | exact fun hne => absurd h13 hne
    · first
      | exact fun _ => rfl
      | exact fun hne => absurd h13 hne
    · first
      | exact fun _ => rfl
      | exact fun hne => absurd h13 hne
    · first
      | exact Or.inl ⟨rfl, rfl, rfl⟩
      | exact Or.inr (Or.inl ⟨_, by rfl, by rfl, rfl, rfl, rfl⟩)
      | exact Or.inr (Or.inr ⟨_, rfl, rfl, rfl⟩)
  rw [if_neg h13] at hd
  by_cases h14 : h.HeadType = EndArcHead
  · rw [if_pos h14] at hd
    try unfold stepPassive at hd
    try (rw [Res.andThen_eq_next] at hd; obtain ⟨_, _, hd⟩ := hd)
    try unfold stepFileHead at hd
    try (rw [Res.andThen_eq_next] at hd; obtain ⟨_, _, hd⟩ := hd)
    injection hd with hd
    subst hd
    refine ⟨rfl, ?_, ?_, ?_, ?_⟩
    · first
      | exact fun _ => rfl
      | exact fun hne => absurd h14 hne
    · first
      | exact fun _ => rfl
      | exact fun hne => absurd h14 hne
    · first
      | exact fun _ => rfl
      | exact fun hne => absurd h14 hne
    · first
      | exact Or.inl ⟨rfl, rfl, rfl⟩
      | exact Or.inr (Or.inl ⟨_, by rfl, by rfl, rfl, rfl, rfl⟩)
      | exact Or.inr (Or.inr ⟨_, rfl, rfl, rfl⟩)
  rw [if_neg h14] at hd
  by_cases h15 : h.HeadType = EmptyHead
  · rw [if_pos h15] at hd
    try unfold stepPassive at hd
    try (rw [Res.andThen_eq_next] at hd; obtain ⟨_, _, hd⟩ := hd)
    try unfold stepFileHead at hd
    try (rw [Res.andThen_eq_next] at hd; obtain ⟨_, _, hd⟩ := hd)
    injection hd with hd
    subst hd
    refine ⟨rfl, ?_, ?_, ?_, ?_⟩
    · first
      | exact fun _ => rfl
      | exact fun hne => absurd h15 hne
    · first
      | exact fun _ => rfl
      | exact fun hne => absurd h15 hne
    · first
      | exact fun _ => rfl
      | exact fun hne => absurd h15 hne
    · first
      | exact Or.inl ⟨rfl, rfl, rfl⟩
      | exact Or.inr (Or.inl ⟨_, by rfl, by rfl, rfl, rfl, rfl⟩)
      | exact Or.inr (Or.inr ⟨_, rfl, rfl, rfl⟩)
  rw [if_neg h15] at hd
  cases hd

/-! ## Claim C13 -/

/-- A call that returns has come to the end of its block loop in some turn `k`: by the
default case, by an error of a block, or because the input is used up. -/
theorem Unmarshal_cases (R : Runtime) (f0 f : SrrFile) (b : Bytes) (fuel : Nat)
    (e : Option Error) (h : Unmarshal R f0 b fuel = some (.returned f e)) :
    ∃ k s, k < fuel ∧ stateAt b f0 k = some s ∧
      ((s.offset < (b.length : Int) ∧ step b s = .stop ∧ f = s.toFile ∧ e = none) ∨
       (s.offset < (b.length : Int) ∧ ∃ e1, step b s = .fail e1 ∧ f = s.toFile ∧ e = some e1) ∨
       (¬ s.offset < (b.length : Int) ∧ finish R s = .returned f e)) := by
  unfold Unmarshal at h
  cases hw : walk b fuel (WalkState.init f0) with
  | none => simp [hw] at h
  | some w =>
    rw [hw] at h
    obtain ⟨k, s, hk, hs, he⟩ := walk_ends b fuel _ w hw
    refine ⟨k, s, hk, hs, ?_⟩
    unfold endAt at he
    by_cases hlt : s.offset < (b.length : Int)
    · rw [if_pos hlt] at he
      cases hstep : step b s with
      | next s' => rw [hstep] at he; simp at he
      | fail err =>
        rw [hstep] at he
        simp at he
        subst he
        simp at h
        exact Or.inr (Or.inl ⟨hlt, err, rfl, h.1.symm, h.2.symm⟩)
      | crash =>
        rw [hstep] at he
        simp at he
        subst he
        simp at h
      | stop =>
        rw [hstep] at he
        simp at he
        subst he
        simp at h
        exact Or.inl ⟨hlt, rfl, h.1.symm, h.2.symm⟩
    · rw [if_neg hlt] at he
      simp at he
      subst he
      simp at h
      exact Or.inr (Or.inr ⟨hlt, h⟩)

/-- A property of the state before the loop that every turn keeps holds in every state of
the loop. -/
theorem stateFrom_induct (P : WalkState → Prop) (b : Bytes) (s0 : WalkState) (h0 : P s0)
    (hstep : ∀ s s1 h, P s → headerAt b s = some h →
      dispatch (b.drop s.offset.toNat) s h = .next s1 → P s1)
    (k : Nat) (s : WalkState) (hs : stateFrom b s0 k = some s) : P s := by
  induction k generalizing s with
  | zero =>
    simp [stateFrom] at hs
    subst hs
    exact h0
  | succ k ih =>
    rw [stateFrom] at hs
    cases hk : stateFrom b s0 k with
    | none => simp [hk] at hs
    | some s1 =>
      rw [hk] at hs
      simp only [Option.some_bind] at hs
      obtain ⟨h, hh, hd⟩ := headerAt_of_advance b s1 s hs
      exact hstep s1 s h (ih s1 hk) hh hd

theorem deref_crc_zero (heap : List RarFile) (h : ∀ r ∈ heap, r.CRC = 0) (p : Nat) :
    (deref heap p).CRC = 0 := by
  unfold deref
  rw [List.getD_eq_getElem?_getD]
  cases hp : heap[p]? with
  | none => rfl
  | some r => exact h r (List.mem_iff_getElem?.2 ⟨p, hp⟩)

/-- Along the loop `SFVComments` stays empty, every RAR file object has CRC 0, and the
pointers of `RarFiles` are distinct and refer to objects that exist. -/
theorem stateAt_rar_inv (b : Bytes) (f0 : SrrFile) (k : Nat) (s : WalkState)
    (hs : stateAt b f0 k = some s) :
    s.SFVComments = [] ∧ (∀ r ∈ s.rarHeap, r.CRC = 0) ∧ s.RarFiles.Nodup ∧
      (∀ p ∈ s.RarFiles, p < s.rarHeap.length) := by
  refine stateFrom_induct
    (fun s => s.SFVComments = [] ∧ (∀ r ∈ s.rarHeap, r.CRC = 0) ∧ s.RarFiles.Nodup ∧
      (∀ p ∈ s.RarFiles, p < s.rarHeap.length))
    b (WalkState.init f0) ?_ ?_ k s hs
  · refine ⟨rfl, ?_, List.nodup_nil, ?_⟩
    · intro r hr
      simp [WalkState.init] at hr
      subst hr
      rfl
    · intro p hp
      simp [WalkState.init] at hp
  · intro s s1 h ⟨i1, i2, i3, i4⟩ _ hd
    obtain ⟨c1, -, -, -, c5⟩ := dispatch_shape _ s s1 h hd
    refine ⟨c1.trans i1, ?_⟩
    rcases c5 with ⟨e1, e2, -⟩ | ⟨r, -, rc, e1, e2, -⟩ | ⟨name, e1, e2, -⟩
    · rw [e1, e2]
      exact ⟨i2, i3, i4⟩
    · rw [e1, e2]
      refine ⟨?_, i3, ?_⟩
      · intro r1 hr1
        rcases List.mem_or_eq_of_mem_set hr1 with hm | hm
        · exact i2 r1 hm
        · rw [hm, rc]
          exact deref_crc_zero _ i2 _
      · intro p hp
        simp only [store, List.length_set]
        exact i4 p hp
    · rw [e1, e2]
      refine ⟨?_, ?_, ?_⟩
      · intro r1 hr1
        rcases List.mem_append.1 hr1 with hm | hm
        · exact i2 r1 hm
        · simp at hm
          subst hm
          rfl
      · rw [List.nodup_append]
        refine ⟨i3, List.nodup_singleton _, ?_⟩
        intro a ha hb
        simp at hb
        have := i4 a ha
        omega
      · intro p hp
        simp only [List.length_append, List.length_singleton]
        rcases List.mem_append.1 hp with hm | hm
        · have := i4 p hm
          omega
        · simp at hm
          omega

theorem readBytes_eq (n : Nat) (buf bs rest : Bytes) (h : readBytes n buf = .ok (bs, rest)) :
    bs = buf.take n ∧ rest = buf.drop n := by
  unfold readBytes at h
  split_ifs at h with h1 h2 h3
  · simp at h
    obtain ⟨rfl, rfl⟩ := h
    simp [h1]
  · simp at h
    obtain ⟨rfl, rfl⟩ := h
    exact ⟨rfl, rfl⟩

theorem readUint_eq (n : Nat) (buf rest : Bytes) (v : Nat) (h : readUint n buf = .ok (v, rest)) :
    v = leNat (buf.take n) ∧ rest = buf.drop n := by
  unfold readUint at h
  split at h <;> simp at h
  rename_i bs r heq
  obtain ⟨rfl, rfl⟩ := h
  obtain ⟨e1, e2⟩ := readBytes_eq n buf bs r heq
  rw [e1, e2]
  exact ⟨rfl, rfl⟩

theorem sliceFrom7_eq (data buf : Bytes) (h : sliceFrom7 data = .ok buf) :
    7 ≤ data.length ∧ buf = data.drop 7 := by
  unfold sliceFrom7 at h
  split_ifs at h with h1
  simp at h
  exact ⟨by omega, h.symm⟩

theorem oso_parse_ok (h : RarHeader) (data : Bytes) (blk : OSOHashHeadBlock)
    (hp : OSOHashHeadBlock.Parse h data = .ok blk) :
    blk.toRarHeader = h ∧ blk.FileSize = leNat ((data.drop 7).take 8) ∧
      blk.OSOHash = leNat ((data.drop 15).take 8) ∧
      blk.NameSize = leNat ((data.drop 23).take 2) ∧
      blk.FileName = (data.drop 25).take blk.NameSize := by
  unfold OSOHashHeadBlock.Parse at hp
  split_ifs at hp with hc
  simp only [Res.bind_eq_ok] at hp
  obtain ⟨buf0, h0, ⟨fs, b1⟩, h1, ⟨oh, b2⟩, h2, ⟨ns, b3⟩, h3, ⟨nm, b4⟩, h4, hfin⟩ := hp
  simp only [pure] at hfin
  injection hfin with hfin
  subst hfin
  obtain ⟨-, rfl⟩ := sliceFrom7_eq _ _ h0
  obtain ⟨e1, rfl⟩ := readUint_eq _ _ _ _ h1
  obtain ⟨e2, rfl⟩ := readUint_eq _ _ _ _ h2
  obtain ⟨e3, rfl⟩ := readUint_eq _ _ _ _ h3
  obtain ⟨e4, -⟩ := readBytes_eq _ _ _ _ h4
  simp only [List.drop_drop] at e2 e3 e4
  exact ⟨rfl, e1, e2, e3, e4⟩

/-- OSO hashes and stored files are appended by the blocks of their type only. -/
theorem stateAt_succ_frame (b : Bytes) (f0 : SrrFile) (j : Nat) (s2 s3 : WalkState)
    (h2 : RarHeader) (hs2 : stateAt b f0 j = some s2) (hs3 : stateAt b f0 (j + 1) = some s3)
    (hh : headerAt b s2 = some h2) :
    (h2.HeadType ≠ OSOHashHead → s3.OSOHashes = s2.OSOHashes) ∧
    (h2.HeadType ≠ SrrStoredFileHead → s3.StoredFiles = s2.StoredFiles) ∧
    (h2.HeadType ≠ SrrVolHead → s3.ApplicationName = s2.ApplicationName) := by
  unfold stateAt at hs2 hs3
  rw [stateFrom, hs2] at hs3
  simp only [Option.some_bind] at hs3
  obtain ⟨h, hh1, hd⟩ := headerAt_of_advance b s2 s3 hs3
  rw [hh] at hh1
  injection hh1 with hh1
  subst hh1
  obtain ⟨-, c2, c3, c4, -⟩ := dispatch_shape _ s2 s3 h2 hd
  exact ⟨c2, c3, c4⟩

/-- C13: for an OSO hash block that parses, `GetOSOHash` fails with `ErrNoData` exactly
when the file size, the hash or the name size is 0, and `Unmarshal` then returns
`ErrNoData`; otherwise the turn appends the one record made of the name bytes, the file
size and the hash to `OSOHashes`. A turn on a block of another type leaves `OSOHashes` as
it is, so the list has the OSO hash blocks in the order they are met. -/
theorem oso_hash_block (R : Runtime) (f0 : SrrFile) (b : Bytes) (k : Nat) (s : WalkState)
    (h : RarHeader) (blk : OSOHashHeadBlock) (fuel : Nat)
    (hs : stateAt b f0 k = some s) (hh : headerAt b s = some h)
    (hty : h.HeadType = OSOHashHead)
    (hp : OSOHashHeadBlock.Parse h (b.drop s.offset.toNat) = .ok blk) (hk : k < fuel) :
    (blk.GetOSOHash = .err .ErrNoData ↔
      (blk.FileSize = 0 ∨ blk.OSOHash = 0 ∨ blk.NameSize = 0)) ∧
    ((blk.FileSize = 0 ∨ blk.OSOHash = 0 ∨ blk.NameSize = 0) →
      Unmarshal R f0 b fuel = some (.returned s.toFile (some .ErrNoData))) ∧
    (¬ (blk.FileSize = 0 ∨ blk.OSOHash = 0 ∨ blk.NameSize = 0) →
      blk.GetOSOHash = .ok ⟨blk.FileName, blk.FileSize, blk.OSOHash⟩ ∧
      ∃ s1, stateAt b f0 (k + 1) = some s1 ∧
        s1.OSOHashes = s.OSOHashes ++ [⟨blk.FileName, blk.FileSize, blk.OSOHash⟩]) ∧
    (blk.FileName = ((b.drop s.offset.toNat).drop 25).take blk.NameSize ∧
      blk.FileSize = leNat (((b.drop s.offset.toNat).drop 7).take 8) ∧
      blk.OSOHash = leNat (((b.drop s.offset.toNat).drop 15).take 8)) ∧
    (∀ j s2 s3 h2, stateAt b f0 j = some s2 → stateAt b f0 (j + 1) = some s3 →
      headerAt b s2 = some h2 → h2.HeadType ≠ OSOHashHead → s3.OSOHashes = s2.OSOHashes) := by
  have hstep : step b s = blk.GetOSOHash.andThen fun hsh =>
      .next { s with OSOHashes := s.OSOHashes ++ [hsh],
                     offset := intAdd s.offset blk.toRarHeader.GetSize,
                     prevHeader := h } := by
    rw [step_of_headerAt b s h hh]
    unfold dispatch
    simp +decide only [hty, if_false, if_true]
    rw [hp]
    rfl
  refine ⟨?_, ?_, ?_, ?_, ?_⟩
  · unfold OSOHashHeadBlock.GetOSOHash
    split_ifs with hc
    · simp [hc]
    · simp [hc]
  · intro hc
    have hg : blk.GetOSOHash = .err .ErrNoData := by
      rw [OSOHashHeadBlock.GetOSOHash, if_pos hc]
    rw [hg] at hstep
    exact Unmarshal_of_fail R f0 b k s _ fuel hs (headerAt_some b s h hh).1 hstep hk
  · intro hc
    have hg : blk.GetOSOHash = .ok ⟨blk.FileName, blk.FileSize, blk.OSOHash⟩ := by
      rw [OSOHashHeadBlock.GetOSOHash, if_neg hc]
    rw [hg] at hstep
    refine ⟨hg, { s with OSOHashes := s.OSOHashes ++ [⟨blk.FileName, blk.FileSize, blk.OSOHash⟩],
                         offset := intAdd s.offset blk.toRarHeader.GetSize,
                         prevHeader := h }, ?_, rfl⟩
    unfold stateAt at hs ⊢
    rw [stateFrom, hs]
    simp only [Option.some_bind]
    rw [advance_some]
    exact ⟨(headerAt_some b s h hh).1, hstep⟩
  · obtain ⟨-, e1, e2, -, e4⟩ := oso_parse_ok h _ blk hp
    exact ⟨e4, e1, e2⟩
  · intro j s2 s3 h2 hs2 hs3 hh2 hne
    exact (stateAt_succ_frame b f0 j s2 s3 h2 hs2 hs3 hh2).1 hne

/-- An OSO hash block for the file `x` of size 5 with hash 9: the record is appended. -/
theorem oso_hash_block_witness :
    osoBlock.GetOSOHash = .ok ⟨[120], 5, 9⟩ ∧
    ∃ s1, stateAt osoInput SrrFile.empty 1 = some s1 ∧ s1.OSOHashes = [⟨[120], 5, 9⟩] :=
  (oso_hash_block asciiRuntime SrrFile.empty osoInput 0 (WalkState.init SrrFile.empty)
    { CRC := 0x6B6B, HeadType := 0x6B, Flags := 0, Size := 26 } osoBlock 2
    (by decide) (by decide) (by decide) (by decide) (by decide)).2.2.1 (by decide)

/-! ## Claim C18 -/

theorem sfvFiles_no_sfv (R : Runtime) (files : List StoredFile) (st : SfvState)
    (h : ∀ v ∈ files, R.ToLower (filepathExt v.Path) ≠ [46, 115, 102, 118]) :
    sfvFiles R files st = (st, none) := by
  induction files with
  | nil => rfl
  | cons v vs ih =>
    rw [sfvFiles, if_neg (h v (List.mem_cons_self _ _))]
    exact ih fun w hw => h w (List.mem_cons_of_mem _ hw)

theorem finish_storedFiles (R : Runtime) (s : WalkState) (f : SrrFile) (e : Option Error)
    (h : finish R s = .returned f e) : f.StoredFiles = s.StoredFiles := by
  unfold finish at h
  split at h
  · injection h with h1 h2
    subst h1
    rfl
  · injection h with h1 h2
    subst h1
    rfl

/-- C18: when no stored file has the extension `.sfv` (compared in lower case), a call
that returns `nil` leaves `SFVComments` empty and every entry of `RarFiles` with CRC 0,
whatever the stored files contain. (A visit of an empty table visits nothing.) -/
theorem no_sfv_no_crc (R : Runtime) (hR : R.mapOrder [] = []) (f0 f : SrrFile) (b : Bytes)
    (fuel : Nat) (hret : Unmarshal R f0 b fuel = some (.returned f none))
    (hext : ∀ v ∈ f.StoredFiles, R.ToLower (filepathExt v.Path) ≠ [46, 115, 102, 118]) :
    f.SFVComments = [] ∧ ∀ r ∈ f.RarFiles, r.CRC = 0 := by
  obtain ⟨k, s, -, hs, hc⟩ := Unmarshal_cases R f0 f b fuel none hret
  obtain ⟨i1, i2, -, -⟩ := stateAt_rar_inv b f0 k s hs
  rcases hc with ⟨-, -, hf, -⟩ | ⟨-, e1, -, -, he⟩ | ⟨-, hfin⟩
  · subst hf
    refine ⟨i1, ?_⟩
    intro r hr
    simp only [WalkState.toFile, List.mem_map] at hr
    obtain ⟨p, -, rfl⟩ := hr
    exact deref_crc_zero _ i2 p
  · cases he
  · have hsf := finish_storedFiles R s f none hfin
    rw [hsf] at hext
    unfold finish at hfin
    rw [sfvFiles_no_sfv R _ _ hext] at hfin
    simp only [hR, correlate, List.foldl_nil] at hfin
    injection hfin with h1 h2
    subst h1
    refine ⟨i1, ?_⟩
    intro r hr
    simp only [List.mem_map] at hr
    obtain ⟨p, -, rfl⟩ := hr
    exact deref_crc_zero _ i2 p

/-- The stored file `a.txt` holds an SFV line for `a.rar`: the CRC of `a.rar` stays 0. -/
theorem no_sfv_no_crc_witness :
    noSfvFile.SFVComments = [] ∧ ∀ r ∈ noSfvFile.RarFiles, r.CRC = 0 :=
  no_sfv_no_crc asciiRuntime rfl SrrFile.empty noSfvFile noSfvInput 3 (by decide) (by decide)

/-! ## Longer inputs -/

theorem readBytes_append (n : Nat) (buf bs rest t : Bytes)
    (h : readBytes n buf = .ok (bs, rest)) : readBytes n (buf ++ t) = .ok (bs, rest ++ t) := by
  unfold readBytes at h ⊢
  by_cases h1 : n = 0
  · rw [if_pos h1] at h ⊢
    simp at h
    obtain ⟨rfl, rfl⟩ := h
    rfl
  · rw [if_neg h1] at h ⊢
    by_cases h2 : buf.length = 0
    · rw [if_pos h2] at h
      cases h
    · rw [if_neg h2] at h
      by_cases h3 : buf.length < n
      · rw [if_pos h3] at h
        cases h
      · rw [if_neg h3] at h
        simp at h
        obtain ⟨rfl, rfl⟩ := h
        have e1 : ¬ (buf ++ t).length = 0 := by rw [List.length_append]; omega
        have e2 : ¬ (buf ++ t).length < n := by rw [List.length_append]; omega
        rw [if_neg e1, if_neg e2]
        have hn : n ≤ buf.length := by omega
        rw [List.take_append_of_le_length hn, List.drop_append_of_le_length hn]

theorem readUint_append (n : Nat) (buf rest t : Bytes) (v : Nat)
    (h : readUint n buf = .ok (v, rest)) : readUint n (buf ++ t) = .ok (v, rest ++ t) := by
  unfold readUint at h ⊢
  split at h <;> simp at h
  rename_i bs r heq
  obtain ⟨rfl, rfl⟩ := h
  rw [readBytes_append n buf bs r t heq]

theorem readUintIf_append (flag : Bool) (n : Nat) (buf rest t : Bytes) (v : Nat)
    (h : readUintIf flag n buf = .ok (v, rest)) :
    readUintIf flag n (buf ++ t) = .ok (v, rest ++ t) := by
  unfold readUintIf at h ⊢
  split_ifs at h ⊢
  · exact readUint_append n buf rest t v h
  · simp at h
    obtain ⟨rfl, rfl⟩ := h
    rfl

theorem sliceFrom7_append (data buf t : Bytes) (h : sliceFrom7 data = .ok buf) :
    sliceFrom7 (data ++ t) = .ok (buf ++ t) := by
  obtain ⟨h7, rfl⟩ := sliceFrom7_eq data buf h
  unfold sliceFrom7
  rw [if_neg (by simp; omega), List.drop_append_of_le_length h7]

theorem header_parse_append (b t : Bytes) (h : RarHeader)
    (hp : RarHeader.Parse b = .ok h) : RarHeader.Parse (b ++ t) = .ok h := by
  unfold RarHeader.Parse at hp ⊢
  by_cases h7 : b.length < 7
  · rw [if_pos h7] at hp
    cases hp
  · rw [if_neg h7] at hp
    rw [if_neg (by simp; omega), List.take_append_of_le_length (by omega)]
    exact hp


theorem storedFile_parse_append (h : RarHeader) (data t : Bytes) (blk : SrrStoredFileHeadBlock)
    (hp : SrrStoredFileHeadBlock.Parse h data = .ok blk) : SrrStoredFileHeadBlock.Parse h (data ++ t) = .ok blk := by
  unfold SrrStoredFileHeadBlock.Parse at hp ⊢
  by_cases c0 : h.CRC ≠ 0x6A6A
  · rw [if_pos c0] at hp
    cases hp
  rw [if_neg c0] at hp ⊢
  by_cases c1 : (!h.Flag HAS_DATA) = true
  · rw [if_pos c1] at hp
    cases hp
  rw [if_neg c1] at hp ⊢
  simp only [Res.bind_eq_ok] at hp ⊢
  obtain ⟨buf0, h0, ⟨v1, b1⟩, h1, ⟨v2, b2⟩, h2, ⟨v3, b3⟩, h3, ⟨v4, b4⟩, h4, hfin⟩ := hp
  exact ⟨_, sliceFrom7_append _ _ t h0, _, readUint_append _ _ _ t _ h1, _, readUint_append _ _ _ t _ h2, _, readBytes_append _ _ _ _ t h3, _, readBytes_append _ _ _ _ t h4, hfin⟩


theorem oso_parse_append (h : RarHeader) (data t : Bytes) (blk : OSOHashHeadBlock)
    (hp : OSOHashHeadBlock.Parse h data = .ok blk) : OSOHashHeadBlock.Parse h (data ++ t) = .ok blk := by
  unfold OSOHashHeadBlock.Parse at hp ⊢
  by_cases c0 : h.CRC ≠ 0x6B6B
  · rw [if_pos c0] at hp
    cases hp
  rw [if_neg c0] at hp ⊢
  simp only [Res.bind_eq_ok] at hp ⊢
  obtain ⟨buf0, h0, ⟨v1, b1⟩, h1, ⟨v2, b2⟩, h2, ⟨v3, b3⟩, h3, ⟨v4, b4⟩, h4, hfin⟩ := hp
  exact ⟨_, sliceFrom7_append _ _ t h0, _, readUint_append _ _ _ t _ h1, _, readUint_append _ _ _ t _ h2, _, readUint_append _ _ _ t _ h3, _, readBytes_append _ _ _ _ t h4, hfin⟩


theorem pad_parse_append (h : RarHeader) (data t : Bytes) (blk : SrrRarPadHeadBlock)
    (hp : SrrRarPadHeadBlock.Parse h data = .ok blk) : SrrRarPadHeadBlock.Parse h (data ++ t) = .ok blk := by
  unfold SrrRarPadHeadBlock.Parse at hp ⊢
  by_cases c0 : h.CRC ≠ 0x6C6C
  · rw [if_pos c0] at hp
    cases hp
  rw [if_neg c0] at hp ⊢
  by_cases c1 : (!h.Flag HAS_DATA) = true
  · rw [if_pos c1] at hp
    cases hp
  rw [if_neg c1] at hp ⊢
  simp only [Res.bind_eq_ok] at hp ⊢
  obtain ⟨buf0, h0, ⟨v1, b1⟩, h1, ⟨v2, b2⟩, h2, hfin⟩ := hp
  exact ⟨_, sliceFrom7_append _ _ t h0, _, readUint_append _ _ _ t _ h1, _, readBytes_append _ _ _ _ t h2, hfin⟩


theorem subBlock_parse_append (h : RarHeader) (data t : Bytes) (blk : SrrRarSubBlockHeadBlock)
    (hp : SrrRarSubBlockHeadBlock.Parse h data = .ok blk) : SrrRarSubBlockHeadBlock.Parse h (data ++ t) = .ok blk := by
  unfold SrrRarSubBlockHeadBlock.Parse at hp ⊢
  by_cases c0 : h.CRC ≠ 0x7171
  · rw [if_pos c0] at hp
    cases hp
  rw [if_neg c0] at hp ⊢
  simp only [Res.bind_eq_ok] at hp ⊢
  obtain ⟨buf0, h0, ⟨v1, b1⟩, h1, ⟨v2, b2⟩, h2, hfin⟩ := hp
  exact ⟨_, sliceFrom7_append _ _ t h0, _, readUint_append _ _ _ t _ h1, _, readBytes_append _ _ _ _ t h2, hfin⟩


theorem fileHead_parse_append (h : RarHeader) (data t : Bytes) (blk : FileHeadBlock)
    (hp : FileHeadBlock.Parse h data = .ok blk) : FileHeadBlock.Parse h (data ++ t) = .ok blk := by
  unfold FileHeadBlock.Parse at hp ⊢
  simp only [Res.bind_eq_ok] at hp ⊢
  obtain ⟨buf0, h0, ⟨v1, b1⟩, h1, ⟨v2, b2⟩, h2, ⟨v3, b3⟩, h3, ⟨v4, b4⟩, h4, ⟨v5, b5⟩, h5, ⟨v6, b6⟩, h6, ⟨v7, b7⟩, h7, ⟨v8, b8⟩, h8, ⟨v9, b9⟩, h9, ⟨v10, b10⟩, h10, ⟨v11, b11⟩, h11, ⟨v12, b12⟩, h12, ⟨v13, b13⟩, h13, hfin⟩ := hp
  exact ⟨_, sliceFrom7_append _ _ t h0, _, readUint_append _ _ _ t _ h1, _, readUint_append _ _ _ t _ h2, _, readUint_append _ _ _ t _ h3, _, readUint_append _ _ _ t _ h4, _, readUint_append _ _ _ t _ h5, _, readUint_append _ _ _ t _ h6, _, readUint_append _ _ _ t _ h7, _, readUint_append _ _ _ t _ h8, _, readUint_append _ _ _ t _ h9, _, readUintIf_append _ _ _ _ t _ h10, _, readUintIf_append _ _ _ _ t _ h11, _, readBytes_append _ _ _ _ t h12, _, readUintIf_append _ _ _ _ t _ h13, hfin⟩


theorem newSub_parse_append (h : RarHeader) (data t : Bytes) (blk : NewSubHeadBlock)
    (hp : NewSubHeadBlock.Parse h data = .ok blk) : NewSubHeadBlock.Parse h (data ++ t) = .ok blk := by
  unfold NewSubHeadBlock.Parse at hp ⊢
  simp only [Res.bind_eq_ok] at hp ⊢
  obtain ⟨buf0, h0, ⟨v1, b1⟩, h1, ⟨v2, b2⟩, h2, ⟨v3, b3⟩, h3, ⟨v4, b4⟩, h4, ⟨v5, b5⟩, h5, ⟨v6, b6⟩, h6, ⟨v7, b7⟩, h7, ⟨v8, b8⟩, h8, ⟨v9, b9⟩, h9, ⟨v10, b10⟩, h10, ⟨v11, b11⟩, h11, ⟨v12, b12⟩, h12, ⟨v13, b13⟩, h13, hfin⟩ := hp
  exact ⟨_, sliceFrom7_append _ _ t h0, _, readUint_append _ _ _ t _ h1, _, readUint_append _ _ _ t _ h2, _, readUint_append _ _ _ t _ h3, _, readUint_append _ _ _ t _ h4, _, readUint_append _ _ _ t _ h5, _, readUint_append _ _ _ t _ h6, _, readUint_append _ _ _ t _ h7, _, readUint_append _ _ _ t _ h8, _, readUint_append _ _ _ t _ h9, _, readUintIf_append _ _ _ _ t _ h10, _, readUintIf_append _ _ _ _ t _ h11, _, readBytes_append _ _ _ _ t h12, _, readUintIf_append _ _ _ _ t _ h13, hfin⟩


theorem protect_parse_append (h : RarHeader) (data t : Bytes) (blk : ProtectHeadBlock)
    (hp : ProtectHeadBlock.Parse h data = .ok blk) : ProtectHeadBlock.Parse h (data ++ t) = .ok blk := by
  unfold ProtectHeadBlock.Parse at hp ⊢
  by_cases c0 : (!h.Flag HAS_DATA) = true
  · rw [if_pos c0] at hp
    cases hp
  rw [if_neg c0] at hp ⊢
  simp only [Res.bind_eq_ok] at hp ⊢
  obtain ⟨buf0, h0, ⟨v1, b1⟩, h1, ⟨v2, b2⟩, h2, ⟨v3, b3⟩, h3, ⟨v4, b4⟩, h4, hfin⟩ := hp
  exact ⟨_, sliceFrom7_append _ _ t h0, _, readUint_append _ _ _ t _ h1, _, readUint_append _ _ _ t _ h2, _, readUint_append _ _ _ t _ h3, _, readUint_append _ _ _ t _ h4, hfin⟩


theorem volHead_parse_append (h : RarHeader) (data t : Bytes) (blk : SrrVolHeadBlock)
    (hp : SrrVolHeadBlock.Parse h data = .ok blk) :
    SrrVolHeadBlock.Parse h (data ++ t) = .ok blk := by
  unfold SrrVolHeadBlock.Parse at hp ⊢
  by_cases c0 : h.CRC ≠ 0x6969
  · rw [if_pos c0] at hp
    cases hp
  rw [if_neg c0] at hp ⊢
  simp only [Res.bind_eq_ok] at hp ⊢
  obtain ⟨buf0, h0, hp⟩ := hp
  refine ⟨_, sliceFrom7_append _ _ t h0, ?_⟩
  by_cases c1 : (!h.Flag SRR_APP_NAME) = true
  · rw [if_pos c1] at hp ⊢
    exact hp
  · rw [if_neg c1] at hp ⊢
    simp only [Res.bind_eq_ok] at hp ⊢
    obtain ⟨⟨v1, b1⟩, h1, ⟨v2, b2⟩, h2, hfin⟩ := hp
    exact ⟨_, readUint_append _ _ _ t _ h1, _, readBytes_append _ _ _ _ t h2, hfin⟩


/-- A turn that goes on to a next turn does the same when bytes are appended to the
input. -/
theorem dispatch_append (data t : Bytes) (s s1 : WalkState) (h : RarHeader)
    (hd : dispatch data s h = .next s1) : dispatch (data ++ t) s h = .next s1 := by
  unfold dispatch at hd ⊢
  by_cases h0 : h.HeadType = SrrVolHead
  · rw [if_pos h0] at hd
    rw [if_pos h0]
    rw [Res.andThen_eq_next] at hd ⊢
    obtain ⟨blk, hp, hd⟩ := hd
    exact ⟨blk, volHead_parse_append _ _ t _ hp, hd⟩
  rw [if_neg h0] at hd
  rw [if_neg h0]
  by_cases h1 : h.HeadType = SrrStoredFileHead
  · rw [if_pos h1] at hd
    rw [if_pos h1]
    rw [Res.andThen_eq_next] at hd ⊢
    obtain ⟨blk, hp, hd⟩ := hd
    exact ⟨blk, storedFile_parse_append _ _ t _ hp, hd⟩
  rw [if_neg h1] at hd
  rw [if_neg h1]
  by_cases h2 : h.HeadType = OSOHashHead
  · rw [if_pos h2] at hd
    rw [if_pos h2]
    rw [Res.andThen_eq_next] at hd ⊢
    obtain ⟨blk, hp, hd⟩ := hd
    exact ⟨blk, oso_parse_append _ _ t _ hp, hd⟩
  rw [if_neg h2] at hd
  rw [if_neg h2]
  by_cases h3 : h.HeadType = SrrRarPadHead
  · rw [if_pos h3] at hd
    rw [if_pos h3]
    rw [Res.andThen_eq_next] at hd ⊢
    obtain ⟨blk, hp, hd⟩ := hd
    exact ⟨blk, pad_parse_append _ _ t _ hp, hd⟩
  rw [if_neg h3] at hd
  rw [if_neg h3]
  by_cases h4 : h.HeadType = SrrRarSubBlockHead
  · rw [if_pos h4] at hd
    rw [if_pos h4]
    rw [Res.andThen_eq_next] at hd ⊢
    obtain ⟨blk, hp, hd⟩ := hd
    exact ⟨blk, subBlock_parse_append _ _ t _ hp, hd⟩
  rw [if_neg h4] at hd
  rw [if_neg h4]
  by_cases h5 : h.HeadType = MarkHead
  · rw [if_pos h5] at hd
    rw [if_pos h5]
    rw [Res.andThen_eq_next] at hd ⊢
    obtain ⟨blk, hp, hd⟩ := hd
    exact ⟨blk, header_parse_append _ t _ hp, hd⟩
  rw [if_neg h5] at hd
  rw [if_neg h5]
  by_cases h6 : h.HeadType = MainHead
  · rw [if_pos h6] at hd
    rw [if_pos h6]
    exact hd
  rw [if_neg h6] at hd
  rw [if_neg h6]
  by_cases h7 : h.HeadType = FileHead
  · rw [if_pos h7] at hd
    rw [if_pos h7]
    rw [Res.andThen_eq_next] at hd ⊢
    obtain ⟨blk, hp, hd⟩ := hd
    exact ⟨blk, fileHead_parse_append _ _ t _ hp, hd⟩
  rw [if_neg h7] at hd
  rw [if_neg h7]
  by_cases h8 : h.HeadType = CommHead
  · rw [if_pos h8] at hd
    rw [if_pos h8]
    exact hd
  rw [if_neg h8] at hd
  rw [if_neg h8]
  by_cases h9 : h.HeadType = AvHead
  · rw [if_pos h9] at hd
    rw [if_pos h9]
    exact hd
  rw [if_neg h9] at hd
  rw [if_neg h9]
  by_cases h10 : h.HeadType = SubHead
  · rw [if_pos h10] at hd
    rw [if_pos h10]
    exact hd
  rw [if_neg h10] at hd
  rw [if_neg h10]
  by_cases h11 : h.HeadType = ProtectHead
  · rw [if_pos h11] at hd
    rw [if_pos h11]
    rw [Res.andThen_eq_next] at hd ⊢
    obtain ⟨blk, hp, hd⟩ := hd
    exact ⟨blk, protect_parse_append _ _ t _ hp, hd⟩
  rw [if_neg h11] at hd
  rw [if_neg h11]
  by_cases h12 : h.HeadType = SignHead
  · rw [if_pos h12] at hd
    rw [if_pos h12]
    exact hd
  rw [if_neg h12] at hd
  rw [if_neg h12]
  by_cases h13 : h.HeadType = NewSubHead
  · rw [if_pos h13] at hd
    rw [if_pos h13]
    rw [Res.andThen_eq_next] at hd ⊢
    obtain ⟨blk, hp, hd⟩ := hd
    exact ⟨blk, newSub_parse_append _ _ t _ hp, hd⟩
  rw [if_neg h13] at hd
  rw [if_neg h13]
  by_cases h14 : h.HeadType = EndArcHead
  · rw [if_pos h14] at hd
    rw [if_pos h14]
    exact hd
  rw [if_neg h14] at hd
  rw [if_neg h14]
  by_cases h15 : h.HeadType = EmptyHead
  · rw [if_pos h15] at hd
    rw [if_pos h15]
    exact hd
  rw [if_neg h15] at hd
  rw [if_neg h15]
  cases hd

/-! ## Claim C11 -/

--THMS
theorem goSlice_append (b t : Bytes) (lo hi : Int) (hb : Bytes)
    (h : goSlice b lo hi = some hb) :
    goSlice (b ++ t) lo hi = some hb ∧ lo.toNat ≤ b.length := by
  unfold goSlice at h ⊢
  by_cases hc : 0 ≤ lo ∧ lo ≤ hi ∧ hi ≤ (b.length : Int)
  · rw [if_pos hc] at h
    have hc2 : 0 ≤ lo ∧ lo ≤ hi ∧ hi ≤ ((b ++ t).length : Int) := by
      rw [List.length_append]
      push_cast
      omega
    rw [if_pos hc2]
    have hlo : lo.toNat ≤ b.length := by omega
    refine ⟨?_, hlo⟩
    rw [List.drop_append_of_le_length hlo, List.take_append_of_le_length]
    · exact h
    · rw [List.length_drop]
      omega
  · rw [if_neg hc] at h
    cases h

theorem step_append (b t : Bytes) (s s1 : WalkState) (h : step b s = .next s1) :
    step (b ++ t) s = .next s1 := by
  unfold step at h ⊢
  cases hg : goSlice b s.offset (intAdd s.offset 7) with
  | none =>
    rw [hg] at h
    cases h
  | some hb =>
    rw [hg] at h
    obtain ⟨hg2, hlo⟩ := goSlice_append b t _ _ hb hg
    rw [hg2]
    simp only at h ⊢
    rw [Res.andThen_eq_next] at h ⊢
    obtain ⟨hd, hp, hdis⟩ := h
    refine ⟨hd, hp, ?_⟩
    rw [List.drop_append_of_le_length hlo]
    exact dispatch_append _ t s s1 hd hdis

theorem advance_append (b t : Bytes) (s s1 : WalkState) (h : advance b s = some s1) :
    advance (b ++ t) s = some s1 := by
  rw [advance_some] at h ⊢
  refine ⟨?_, step_append b t s s1 h.2⟩
  rw [List.length_append]
  push_cast
  omega

/-- The turns that the loop makes on an input it makes on every input that starts with
it, with the same states. -/
theorem stateFrom_append (b t : Bytes) (s0 : WalkState) (k : Nat) (s : WalkState)
    (h : stateFrom b s0 k = some s) : stateFrom (b ++ t) s0 k = some s := by
  induction k generalizing s with
  | zero => exact h
  | succ k ih =>
    rw [stateFrom] at h ⊢
    cases hk : stateFrom b s0 k with
    | none => simp [hk] at h
    | some s1 =>
      rw [hk] at h
      rw [ih s1 hk]
      simp only [Option.some_bind] at h ⊢
      exact advance_append b t s1 s h

theorem dispatch_unknown (data : Bytes) (s : WalkState) (h : RarHeader)
    (hty : h.HeadType ∉ knownTypes) : dispatch data s h = .stop := by
  simp only [knownTypes, List.mem_cons, List.mem_singleton, List.not_mem_nil, or_false,
    not_or] at hty
  obtain ⟨k0, k1, k2, k3, k4, k5, k6, k7, k8, k9, k10, k11, k12, k13, k14, k15⟩ := hty
  unfold dispatch
  rw [if_neg k1, if_neg k2, if_neg k3, if_neg k4, if_neg k5, if_neg k6, if_neg k7, if_neg k8,
    if_neg k9, if_neg k10, if_neg k11, if_neg k12, if_neg k13, if_neg k14, if_neg k15,
    if_neg k0]

theorem Unmarshal_of_stop (R : Runtime) (f0 : SrrFile) (b : Bytes) (k : Nat) (s : WalkState)
    (fuel : Nat) (hs : stateAt b f0 k = some s)
    (hlt : s.offset < (b.length : Int)) (hstep : step b s = .stop) (hk : k < fuel) :
    Unmarshal R f0 b fuel = some (.returned s.toFile none) := by
  have he : endAt b s = some (.stopped s) := by simp [endAt, hlt, hstep]
  unfold Unmarshal
  rw [walk_of_endAt b k _ s _ fuel hs he hk]

/-- C11 (the claim as stated fails): a byte after the header of the unknown block can
influence the result. In `overlapInput x` the volume head has header size 7 and an
application name of 8 bytes; the loop reads the next header at offset 7 and finds the
type `0x01`, and the application name is the bytes 9 to 16 of the input: the last byte
of the input, which lies after the unknown header, is the last byte of the name. -/
theorem unknown_block_bytes_influence :
    (stateAt (overlapInput 5) SrrFile.empty 1).map (fun s => s.offset) = some 7 ∧
    (stateAt (overlapInput 6) SrrFile.empty 1).map (fun s => s.offset) = some 7 ∧
    (overlapInput 5).take 16 = (overlapInput 6).take 16 ∧
    Unmarshal asciiRuntime SrrFile.empty (overlapInput 5) 2 =
      some (.returned { SrrFile.empty with ApplicationName := [1, 0, 0, 7, 0, 0, 0, 5] } none) ∧
    Unmarshal asciiRuntime SrrFile.empty (overlapInput 6) 2 =
      some (.returned { SrrFile.empty with ApplicationName := [1, 0, 0, 7, 0, 0, 0, 6] } none) := by
  decide

/-- C11 (amended): when the loop reads a header whose type tag the switch has no case
for, `Unmarshal` returns no error and the record is the one the blocks before it have
made (`ApplicationName`, `StoredFiles`, `OSOHashes`, `PackedFiles`, `RarCompressed`; also
`RarFiles`, unsorted and without CRCs). When moreover the blocks before the unknown one
are decoded from a prefix `p` of the input alone, the result is the same for every input
that starts with `p` and has a header of unknown type at that position: the bytes after
`p` do not influence it. -/
theorem unknown_tag_stops (R : Runtime) (f0 : SrrFile) (b : Bytes) (k : Nat)
    (s : WalkState) (h : RarHeader) (fuel : Nat)
    (hs : stateAt b f0 k = some s) (hh : headerAt b s = some h)
    (hty : h.HeadType ∉ knownTypes) (hk : k < fuel) :
    Unmarshal R f0 b fuel = some (.returned s.toFile none) ∧
    (∀ p t t2 h2, b = p ++ t → (stateAt p f0 k).isSome →
      headerAt (p ++ t2) s = some h2 → h2.HeadType ∉ knownTypes →
      Unmarshal R f0 (p ++ t2) fuel = some (.returned s.toFile none)) := by
  have key : ∀ (b1 : Bytes) (h1 : RarHeader), stateAt b1 f0 k = some s →
      headerAt b1 s = some h1 → h1.HeadType ∉ knownTypes →
      Unmarshal R f0 b1 fuel = some (.returned s.toFile none) := by
    intro b1 h1 hs1 hh1 hty1
    have hstep : step b1 s = .stop := by
      rw [step_of_headerAt b1 s h1 hh1]
      exact dispatch_unknown _ s h1 hty1
    exact Unmarshal_of_stop R f0 b1 k s fuel hs1 (headerAt_some b1 s h1 hh1).1 hstep hk
  refine ⟨key b h hs hh hty, ?_⟩
  intro p t t2 h2 hb hp hh2 hty2
  cases hsp : stateAt p f0 k with
  | none => simp [hsp] at hp
  | some s0 =>
    have e1 : stateAt (p ++ t) f0 k = some s0 := stateFrom_append p t _ k s0 hsp
    rw [← hb, hs] at e1
    injection e1 with e1
    subst e1
    exact key (p ++ t2) h2 (stateFrom_append p t2 _ k s hsp) hh2 hty2

/-- A volume head with the application name `ab`, then a block of type `0x01`: the call
returns `nil` and the record has the application name. -/
theorem unknown_tag_stops_witness :
    Unmarshal asciiRuntime SrrFile.empty unknownTagInput 2 =
      some (.returned { SrrFile.empty with ApplicationName := [97, 98] } none) :=
  (unknown_tag_stops asciiRuntime SrrFile.empty unknownTagInput 1
    { (WalkState.init SrrFile.empty) with
      ApplicationName := [97, 98], offset := 11,
      prevHeader := { CRC := 0x6969, HeadType := 0x69, Flags := 1, Size := 11 } }
    { CRC := 0, HeadType := 1, Flags := 0, Size := 7 } 2
    (by decide) (by decide) (by decide) (by decide)).1

/-! ## The SFV pass as a pass over keys and CRC texts -/

theorem sfvLines_scan (R : Runtime) (sfvPath : Bytes) (lines : List Bytes) (st : SfvState) :
    ((sfvLines R sfvPath lines st).1.table, (sfvLines R sfvPath lines st).2) =
      scanBindings (lines.filterMap (lineBinding R sfvPath)) st.table := by
  induction lines generalizing st with
  | nil => rfl
  | cons line rest ih =>
    rw [sfvLines, List.filterMap_cons]
    simp only
    by_cases h1 : line.length < 10
    · have hb : lineBinding R sfvPath line = none := by simp [lineBinding, h1]
      rw [if_pos h1, hb]
      simp only
      rw [ih]
      split_ifs <;> rfl
    · rw [if_neg h1]
      by_cases h2 : (rxSeq reSFVComment (trimCRLF line)).isSome = true
      · have hb : lineBinding R sfvPath line = none := by simp [lineBinding, h1, h2]
        rw [if_pos h2, hb]
        simp only
        rw [ih]
      · rw [if_neg h2]
        cases h3 : rxSearch reSFV (trimCRLF line) with
        | none =>
          have hb : lineBinding R sfvPath line = none := by simp [lineBinding, h1, h2, h3]
          rw [hb]
          simp only
          rw [ih]
        | some pc =>
          obtain ⟨pre, caps⟩ := pc
          have hb : lineBinding R sfvPath line =
              some (sfvPath ++ R.ToLower (pre ++ caps.getD 1 []), pre ++ caps.getD 3 []) := by
            simp [lineBinding, h1, h2, h3]
          rw [hb]
          simp only
          rw [scanBindings]
          cases h4 : ParseUint (pre ++ caps.getD 3 []) with
          | error e => rfl
          | ok v =>
            simp only
            cases h5 : st.table.lookup (sfvPath ++ R.ToLower (pre ++ caps.getD 1 [])) with
            | none =>
              simp only
              rw [ih]
            | some c =>
              simp only
              by_cases h6 : c ≠ v % 2 ^ 32
              · rw [if_pos h6, if_pos h6]
              · rw [if_neg h6, if_neg h6]
                rw [ih]

--THMS
theorem scanBindings_append (a b : List (Bytes × Bytes)) (tbl : List (Bytes × Nat)) :
    scanBindings (a ++ b) tbl =
      match scanBindings a tbl with
      | (t1, none) => scanBindings b t1
      | (t1, some e) => (t1, some e) := by
  induction a generalizing tbl with
  | nil => rfl
  | cons x xs ih =>
    obtain ⟨file, crc⟩ := x
    rw [List.cons_append, scanBindings, scanBindings]
    cases h4 : ParseUint crc with
    | error e => rfl
    | ok v =>
      simp only
      cases h5 : tbl.lookup file with
      | none =>
        simp only
        rw [ih]
      | some c =>
        simp only
        by_cases h6 : c ≠ v % 2 ^ 32
        · rw [if_pos h6, if_pos h6]
        · rw [if_neg h6, if_neg h6]
          rw [ih]

theorem sfvFiles_scan (R : Runtime) (files : List StoredFile) (st : SfvState) :
    ((sfvFiles R files st).1.table, (sfvFiles R files st).2) =
      scanBindings (sfvBindings R files) st.table := by
  induction files generalizing st with
  | nil => rfl
  | cons v vs ih =>
    rw [sfvFiles, sfvBindings, scanBindings_append]
    unfold fileBindings
    by_cases hx : R.ToLower (filepathExt v.Path) = [46, 115, 102, 118]
    · rw [if_pos hx, if_pos hx]
      simp only
      rw [← sfvLines_scan]
      cases hl : sfvLines R (if R.ToLower (filepathDir v.Path) = [46] then []
          else R.ToLower (filepathDir v.Path) ++ [47]) (findAllLines v.Data) st with
      | mk st1 e1 =>
        cases e1 with
        | none =>
          simp only
          rw [ih]
        | some e => rfl
    · rw [if_neg hx, if_neg hx]
      simp only [scanBindings]
      rw [ih]

theorem finish_err (R : Runtime) (s : WalkState) :
    ∃ f, finish R s =
      .returned f (sfvFiles R s.StoredFiles { comments := s.SFVComments, table := [] }).2 := by
  unfold finish
  cases hl : sfvFiles R s.StoredFiles { comments := s.SFVComments, table := [] } with
  | mk st1 e1 =>
    cases e1 with
    | none => exact ⟨_, rfl⟩
    | some e => exact ⟨_, rfl⟩

theorem lookup_append_left (k : Bytes) (c : Nat) (l1 l2 : List (Bytes × Nat))
    (h : l1.lookup k = some c) : (l1 ++ l2).lookup k = some c := by
  induction l1 with
  | nil => simp at h
  | cons x xs ih =>
    obtain ⟨a, d⟩ := x
    rw [List.cons_append, List.lookup_cons] at *
    cases hk : k == a with
    | true =>
      rw [hk] at h
      exact h
    | false =>
      rw [hk] at h
      exact ih h

theorem lookup_append_new (k : Bytes) (c : Nat) (l1 : List (Bytes × Nat))
    (h : l1.lookup k = none) : (l1 ++ [(k, c)]).lookup k = some c := by
  induction l1 with
  | nil => simp [List.lookup_cons]
  | cons x xs ih =>
    obtain ⟨a, d⟩ := x
    rw [List.cons_append, List.lookup_cons] at *
    cases hk : k == a with
    | true =>
      rw [hk] at h
      cases h
    | false =>
      rw [hk] at h
      exact ih h

theorem lookup_append_cases (k k0 : Bytes) (c c0 : Nat) (l1 : List (Bytes × Nat))
    (h : (l1 ++ [(k0, c0)]).lookup k = some c) :
    l1.lookup k = some c ∨ (k = k0 ∧ c = c0) := by
  induction l1 with
  | nil =>
    rw [List.nil_append, List.lookup_cons] at h
    cases hk : k == k0 with
    | true =>
      rw [hk] at h
      simp at h
      exact Or.inr ⟨by simpa using hk, h.symm⟩
    | false =>
      rw [hk] at h
      simp at h
  | cons x xs ih =>
    obtain ⟨a, d⟩ := x
    rw [List.cons_append, List.lookup_cons] at h
    rw [List.lookup_cons]
    cases hk : k == a with
    | true =>
      rw [hk] at h
      exact Or.inl h
    | false =>
      rw [hk] at h
      exact ih h

theorem parseHexAux_err (s : Bytes) (n : Nat) (e : Error) (h : parseHexAux s n = .error e) :
    e = .ErrSyntax ∨ e = .ErrRange := by
  induction s generalizing n with
  | nil => simp [parseHexAux] at h
  | cons c cs ih =>
    rw [parseHexAux] at h
    cases hv : hexVal c with
    | none =>
      rw [hv] at h
      simp at h
      exact Or.inl h.symm
    | some d =>
      rw [hv] at h
      simp only at h
      split_ifs at h
      · simp at h
        exact Or.inr h.symm
      · exact ih _ h

theorem ParseUint_err (s : Bytes) (e : Error) (h : ParseUint s = .error e) :
    e = .ErrSyntax ∨ e = .ErrRange := by
  unfold ParseUint at h
  split_ifs at h
  · simp at h
    exact Or.inl h.symm
  · exact parseHexAux_err s 0 e h

/-- When the pass over the keys and CRC texts ends without error, every CRC text has been
parsed and the table has its 32-bit value under its key. -/
theorem scan_none (ev : List (Bytes × Bytes)) (tbl tbl1 : List (Bytes × Nat))
    (h : scanBindings ev tbl = (tbl1, none)) :
    (∀ k c, tbl.lookup k = some c → tbl1.lookup k = some c) ∧
    (∀ k t, (k, t) ∈ ev → ∃ v, ParseUint t = .ok v ∧ tbl1.lookup k = some (v % 2 ^ 32)) := by
  induction ev generalizing tbl with
  | nil =>
    simp [scanBindings] at h
    subst h
    exact ⟨fun _ _ hk => hk, fun _ _ hm => by simp at hm⟩
  | cons x xs ih =>
    obtain ⟨file, crc⟩ := x
    rw [scanBindings] at h
    cases h4 : ParseUint crc with
    | error e =>
      rw [h4] at h
      simp at h
    | ok v =>
      rw [h4] at h
      simp only at h
      cases h5 : tbl.lookup file with
      | none =>
        rw [h5] at h
        simp only at h
        obtain ⟨m1, m2⟩ := ih _ h
        refine ⟨fun k c hk => m1 k c (lookup_append_left k c _ _ hk), ?_⟩
        intro k t hm
        rcases List.mem_cons.1 hm with he | hm
        · injection he with e1 e2
          subst e1 e2
          exact ⟨v, h4, m1 _ _ (lookup_append_new _ _ _ h5)⟩
        · exact m2 k t hm
      | some c =>
        rw [h5] at h
        simp only at h
        by_cases h6 : c ≠ v % 2 ^ 32
        · rw [if_pos h6] at h
          simp at h
        · rw [if_neg h6] at h
          obtain ⟨m1, m2⟩ := ih _ h
          refine ⟨m1, ?_⟩
          intro k t hm
          rcases List.mem_cons.1 hm with he | hm
          · injection he with e1 e2
            subst e1 e2
            have hc : c = v % 2 ^ 32 := by
              by_contra hne
              exact h6 hne
            refine ⟨v, h4, ?_⟩
            rw [← hc]
            exact m1 _ _ h5
          · exact m2 k t hm

/-- An error of the pass is `ErrDuplSFV` or the error of `ParseUint` on a CRC text. -/
theorem scan_err (ev : List (Bytes × Bytes)) (tbl tbl1 : List (Bytes × Nat)) (e : Error)
    (h : scanBindings ev tbl = (tbl1, some e)) :
    e = .ErrDuplSFV ∨ ∃ k t, (k, t) ∈ ev ∧ ParseUint t = .error e := by
  induction ev generalizing tbl with
  | nil => simp [scanBindings] at h
  | cons x xs ih =>
    obtain ⟨file, crc⟩ := x
    rw [scanBindings] at h
    cases h4 : ParseUint crc with
    | error e1 =>
      rw [h4] at h
      simp at h
      obtain ⟨-, rfl⟩ := h
      exact Or.inr ⟨file, crc, List.mem_cons_self _ _, h4⟩
    | ok v =>
      rw [h4] at h
      simp only at h
      have next : ∀ t2, scanBindings xs t2 = (tbl1, some e) →
          e = .ErrDuplSFV ∨ ∃ k t, (k, t) ∈ (file, crc) :: xs ∧ ParseUint t = .error e := by
        intro t2 h2
        rcases ih _ h2 with hd | ⟨k, t, hm, hp⟩
        · exact Or.inl hd
        · exact Or.inr ⟨k, t, List.mem_cons_of_mem _ hm, hp⟩
      cases h5 : tbl.lookup file with
      | none =>
        rw [h5] at h
        exact next _ h
      | some c =>
        rw [h5] at h
        simp only at h
        by_cases h6 : c ≠ v % 2 ^ 32
        · rw [if_pos h6] at h
          simp at h
          exact Or.inl h.2.symm
        · rw [if_neg h6] at h
          exact next _ h

/-- The error `ErrDuplSFV` comes from a key that is met with a 32-bit CRC value other
than the one the table has for it, from the start or from an earlier line. -/
theorem scan_dupl (ev : List (Bytes × Bytes)) (tbl tbl1 : List (Bytes × Nat))
    (h : scanBindings ev tbl = (tbl1, some .ErrDuplSFV)) :
    ∃ k t v c, (k, t) ∈ ev ∧ ParseUint t = .ok v ∧ c ≠ v % 2 ^ 32 ∧
      (tbl.lookup k = some c ∨
        ∃ t0 v0, (k, t0) ∈ ev ∧ ParseUint t0 = .ok v0 ∧ v0 % 2 ^ 32 = c) := by
  induction ev generalizing tbl with
  | nil => simp [scanBindings] at h
  | cons x xs ih =>
    obtain ⟨file, crc⟩ := x
    rw [scanBindings] at h
    cases h4 : ParseUint crc with
    | error e1 =>
      rw [h4] at h
      simp at h
      obtain ⟨-, rfl⟩ := h
      rcases ParseUint_err crc _ h4 with hc | hc <;> cases hc
    | ok v =>
      rw [h4] at h
      simp only at h
      cases h5 : tbl.lookup file with
      | none =>
        rw [h5] at h
        simp only at h
        obtain ⟨k, t, v1, c, hm, hp, hne, hsrc⟩ := ih _ h
        refine ⟨k, t, v1, c, List.mem_cons_of_mem _ hm, hp, hne, ?_⟩
        rcases hsrc with hl | ⟨t0, v0, hm0, hp0, hv0⟩
        · rcases lookup_append_cases _ _ _ _ _ hl with hl1 | ⟨hk, hc⟩
          · exact Or.inl hl1
          · subst hk
            exact Or.inr ⟨crc, v, List.mem_cons_self _ _, h4, hc.symm⟩
        · exact Or.inr ⟨t0, v0, List.mem_cons_of_mem _ hm0, hp0, hv0⟩
      | some c =>
        rw [h5] at h
        simp only at h
        by_cases h6 : c ≠ v % 2 ^ 32
        · exact ⟨file, crc, v, c, List.mem_cons_self _ _, h4, h6, Or.inl h5⟩
        · rw [if_neg h6] at h
          obtain ⟨k, t, v1, c1, hm, hp, hne, hsrc⟩ := ih _ h
          refine ⟨k, t, v1, c1, List.mem_cons_of_mem _ hm, hp, hne, ?_⟩
          rcases hsrc with hl | ⟨t0, v0, hm0, hp0, hv0⟩
          · exact Or.inl hl
          · exact Or.inr ⟨t0, v0, List.mem_cons_of_mem _ hm0, hp0, hv0⟩

/-! ## Claim C17 -/

/-- C17 (the claim as stated fails): the SFV file `x.sfv` has the lines `\x01bc 12345678`,
`a.rar 11111111` and `a.rar 22222222`. The block loop uses up the input, the last two
lines give the key `a.rar` with different CRC values, and the call returns the syntax
error of `strconv.ParseUint` on the first line (whose CRC text keeps the byte before the
match), not `ErrDuplSFV`. -/
theorem dupl_sfv_preempted :
    (stateAt dupSyntaxInput SrrFile.empty 1).map (fun s => s.offset) =
      some (dupSyntaxInput.length : Int) ∧
    sfvBindings asciiRuntime [⟨[120, 46, 115, 102, 118],
        [1, 98, 99, 32, 49, 50, 51, 52, 53, 54, 55, 56, 10] ++
        [97, 46, 114, 97, 114, 32, 49, 49, 49, 49, 49, 49, 49, 49, 10] ++
        [97, 46, 114, 97, 114, 32, 50, 50, 50, 50, 50, 50, 50, 50, 10]⟩] =
      [([1, 98, 99], [1, 49, 50, 51, 52, 53, 54, 55, 56]),
       ([97, 46, 114, 97, 114], [49, 49, 49, 49, 49, 49, 49, 49]),
       ([97, 46, 114, 97, 114], [50, 50, 50, 50, 50, 50, 50, 50])] ∧
    Unmarshal asciiRuntime SrrFile.empty dupSyntaxInput 2 =
      some (.returned
        { SrrFile.empty with
          StoredFiles := [⟨[120, 46, 115, 102, 118],
            [1, 98, 99, 32, 49, 50, 51, 52, 53, 54, 55, 56, 10] ++
            [97, 46, 114, 97, 114, 32, 49, 49, 49, 49, 49, 49, 49, 49, 10] ++
            [97, 46, 114, 97, 114, 32, 50, 50, 50, 50, 50, 50, 50, 50, 10]⟩] }
        (some .ErrSyntax)) := by
  decide

/-- C17 (amended): for a call whose block loop uses up the input. If `strconv.ParseUint`
accepts the CRC text of every SFV line, and two SFV lines, of the same or of different
`.sfv` stored files, give the same key with different 32-bit CRC values, `Unmarshal`
returns `ErrDuplSFV`. If every two lines with the same key have the same 32-bit CRC
value, `Unmarshal` does not return `ErrDuplSFV` (and returns `nil` when `ParseUint`
accepts every CRC text). -/
theorem dupl_sfv (R : Runtime) (f0 : SrrFile) (b : Bytes) (fuel : Nat) (s : WalkState)
    (hw : walk b fuel (WalkState.init f0) = some (.completed s)) :
    ((∀ kt ∈ sfvBindings R s.StoredFiles, (ParseUint kt.2).isOk = true) →
      (∃ key t1 t2 v1 v2, (key, t1) ∈ sfvBindings R s.StoredFiles ∧
        (key, t2) ∈ sfvBindings R s.StoredFiles ∧ ParseUint t1 = .ok v1 ∧
        ParseUint t2 = .ok v2 ∧ v1 % 2 ^ 32 ≠ v2 % 2 ^ 32) →
      ∃ f, Unmarshal R f0 b fuel = some (.returned f (some .ErrDuplSFV))) ∧
    ((∀ key t1 t2 v1 v2, (key, t1) ∈ sfvBindings R s.StoredFiles →
        (key, t2) ∈ sfvBindings R s.StoredFiles → ParseUint t1 = .ok v1 →
        ParseUint t2 = .ok v2 → v1 % 2 ^ 32 = v2 % 2 ^ 32) →
      ∃ f e, Unmarshal R f0 b fuel = some (.returned f e) ∧ e ≠ some .ErrDuplSFV ∧
        ((∀ kt ∈ sfvBindings R s.StoredFiles, (ParseUint kt.2).isOk = true) → e = none)) := by
  have hU : Unmarshal R f0 b fuel = some (finish R s) := by
    unfold Unmarshal
    rw [hw]
  obtain ⟨f, hf⟩ := finish_err R s
  have hscan := sfvFiles_scan R s.StoredFiles { comments := s.SFVComments, table := [] }
  simp only at hscan
  rw [hU, hf]
  have noParseErr : (∀ kt ∈ sfvBindings R s.StoredFiles, (ParseUint kt.2).isOk = true) →
      ∀ k t e, (k, t) ∈ sfvBindings R s.StoredFiles → ParseUint t ≠ .error e := by
    intro hp k t e hm he
    have := hp (k, t) hm
    simp only at this
    rw [he] at this
    simp [Except.isOk, Except.toBool] at this
  cases hr : (sfvFiles R s.StoredFiles { comments := s.SFVComments, table := [] }).2 with
  | none =>
    rw [hr] at hscan
    obtain ⟨-, m2⟩ := scan_none _ _ _ hscan.symm
    refine ⟨?_, ?_⟩
    · intro _ ⟨key, t1, t2, v1, v2, hm1, hm2, hp1, hp2, hne⟩
      exfalso
      obtain ⟨w1, hw1, hl1⟩ := m2 key t1 hm1
      obtain ⟨w2, hw2, hl2⟩ := m2 key t2 hm2
      rw [hp1] at hw1
      rw [hp2] at hw2
      injection hw1 with hw1
      injection hw2 with hw2
      subst hw1 hw2
      rw [hl1] at hl2
      injection hl2 with hl2
      exact hne hl2
    · intro _
      exact ⟨f, none, rfl, by simp, fun _ => rfl⟩
  | some e =>
    rw [hr] at hscan
    refine ⟨?_, ?_⟩
    · intro hp _
      rcases scan_err _ _ _ e hscan.symm with hd | ⟨k, t, hm, he⟩
      · subst hd
        exact ⟨f, rfl⟩
      · exact absurd he (noParseErr hp k t e hm)
    · intro hsame
      have hne : e ≠ .ErrDuplSFV := by
        intro hd
        subst hd
        obtain ⟨k, t, v, c, hm, hp, hc, hsrc⟩ := scan_dupl _ _ _ hscan.symm
        rcases hsrc with hl | ⟨t0, v0, hm0, hp0, hv0⟩
        · simp at hl
        · exact hc (hv0.symm.trans (hsame k t0 t v0 v hm0 hm hp0 hp))
      refine ⟨f, some e, rfl, ?_, ?_⟩
      · intro h
        injection h with h
        exact hne h
      · intro hp
        exfalso
        rcases scan_err _ _ _ e hscan.symm with hd | ⟨k, t, hm, he⟩
        · exact hne hd
        · exact noParseErr hp k t e hm he

/-- The SFV file `x.sfv` with the lines `a.rar 11111111` and `a.rar 22222222`: the call
returns `ErrDuplSFV`. -/
theorem dupl_sfv_witness :
    ∃ f, Unmarshal asciiRuntime SrrFile.empty duplInput 2 =
      some (.returned f (some .ErrDuplSFV)) :=
  (dupl_sfv asciiRuntime SrrFile.empty duplInput 2 duplState (by decide)).1 (by decide)
    ⟨[97, 46, 114, 97, 114], [49, 49, 49, 49, 49, 49, 49, 49],
     [50, 50, 50, 50, 50, 50, 50, 50], 0x11111111, 0x22222222,
     by decide, by decide, rfl, rfl, by decide⟩

/-! ## The correlation pass -/

--THMS
theorem deref_store (heap : List RarFile) (q q1 : Nat) (x : RarFile) :
    deref (store heap q x) q1 = if q1 = q ∧ q < heap.length then x else deref heap q1 := by
  unfold deref store
  rw [List.getD_eq_getElem?_getD, List.getD_eq_getElem?_getD, List.getElem?_set]
  by_cases h1 : q = q1
  · subst h1
    by_cases h2 : q < heap.length
    · simp [h2]
    · have hn : heap[q]? = none := List.getElem?_eq_none (by omega)
      simp [h2, hn]
  · have h3 : ¬ q1 = q := fun h => h1 h.symm
    simp [h1, h3]

theorem store_path (heap : List RarFile) (q : Nat) (x : RarFile)
    (hx : x.Path = (deref heap q).Path) (q1 : Nat) :
    (deref (store heap q x) q1).Path = (deref heap q1).Path := by
  rw [deref_store]
  split_ifs with h
  · rw [hx, h.1]
  · rfl

theorem store_crc_path (heap : List RarFile) (q c q1 : Nat) :
    (deref (store heap q { deref heap q with CRC := c }) q1).Path = (deref heap q1).Path :=
  store_path heap q _ (by rfl) q1

theorem store_length (heap : List RarFile) (q : Nat) (x : RarFile) :
    (store heap q x).length = heap.length := by
  simp [store]

/-- The inner loop of the correlation pass changes CRCs only: the objects keep their
number and their paths. -/
theorem correlateOne_frame (R : Runtime) (k : Bytes) (c : Nat) (ps : List Nat)
    (heap : List RarFile) :
    (correlateOne R k c ps heap).length = heap.length ∧
      ∀ q, (deref (correlateOne R k c ps heap) q).Path = (deref heap q).Path := by
  induction ps generalizing heap with
  | nil => exact ⟨rfl, fun _ => rfl⟩
  | cons p ps ih =>
    rw [correlateOne]
    simp only
    split_ifs with h1 h2
    · exact ⟨store_length _ _ _, store_crc_path heap p c⟩
    · obtain ⟨i1, i2⟩ := ih (store heap p { deref heap p with CRC := c })
      exact ⟨i1.trans (store_length _ _ _), fun q => (i2 q).trans (store_crc_path heap p c q)⟩
    · exact ih heap

/-- The first RAR file, in the order of `RarFiles`, whose lower-case path is the key gets
the CRC of the key. -/
theorem correlateOne_first (R : Runtime) (key : Bytes) (crc : Nat) (pre post : List Nat)
    (p : Nat) (heap : List RarFile)
    (hpre : ∀ q ∈ pre, R.ToLower (deref heap q).Path ≠ key)
    (hp : R.ToLower (deref heap p).Path = key) (hlt : p < heap.length) :
    (deref (correlateOne R key crc (pre ++ p :: post) heap) p).CRC = crc := by
  induction pre generalizing heap with
  | nil =>
    rw [List.nil_append, correlateOne]
    simp only
    rw [if_pos hp, deref_store, if_pos ⟨rfl, hlt⟩]
  | cons q qs ih =>
    rw [List.cons_append, correlateOne]
    simp only
    have hq : R.ToLower (deref heap q).Path ≠ key := hpre q (List.mem_cons_self _ _)
    rw [if_neg hq]
    split_ifs with h2
    · apply ih
      · intro q1 hq1 hk
        exact hpre q1 (List.mem_cons_of_mem _ hq1)
          ((congrArg R.ToLower (store_crc_path heap q crc q1)).symm.trans hk)
      · exact (congrArg R.ToLower (store_crc_path heap q crc p)).trans hp
      · exact (store_length _ _ _).symm ▸ hlt
    · exact ih heap (fun q1 hq1 => hpre q1 (List.mem_cons_of_mem _ hq1)) hp hlt

/-- A RAR file whose CRC is not 0 keeps it in the inner loop for a key other than its
lower-case path. -/
theorem correlateOne_keep (R : Runtime) (key k1 : Bytes) (crc c1 : Nat) (ps : List Nat)
    (p : Nat) (heap : List RarFile) (hk : k1 ≠ key) (hcrc : crc ≠ 0)
    (hp : R.ToLower (deref heap p).Path = key) (hc : (deref heap p).CRC = crc) :
    (deref (correlateOne R k1 c1 ps heap) p).CRC = crc := by
  induction ps generalizing heap with
  | nil => exact hc
  | cons q qs ih =>
    rw [correlateOne]
    simp only
    split_ifs with h1 h2
    · have hne : ¬ (p = q ∧ q < heap.length) := by
        rintro ⟨rfl, -⟩
        exact hk (h1.symm.trans hp)
      rw [deref_store, if_neg hne]
      exact hc
    · have hne : ¬ (p = q ∧ q < heap.length) := by
        rintro ⟨rfl, -⟩
        exact hcrc (hc.symm.trans h2.2)
      have hd : deref (store heap q { deref heap q with CRC := c1 }) p = deref heap p := by
        rw [deref_store, if_neg hne]
      apply ih
      · rw [hd]
        exact hp
      · rw [hd]
        exact hc
    · exact ih heap hp hc

theorem correlate_frame (R : Runtime) (entries : List (Bytes × Nat)) (ps : List Nat)
    (heap : List RarFile) :
    (correlate R entries ps heap).length = heap.length ∧
      ∀ q, (deref (correlate R entries ps heap) q).Path = (deref heap q).Path := by
  induction entries generalizing heap with
  | nil => exact ⟨rfl, fun _ => rfl⟩
  | cons e es ih =>
    unfold correlate at ih ⊢
    rw [List.foldl_cons]
    obtain ⟨i1, i2⟩ := ih (correlateOne R e.1 e.2 ps heap)
    obtain ⟨j1, j2⟩ := correlateOne_frame R e.1 e.2 ps heap
    exact ⟨i1.trans j1, fun q => (i2 q).trans (j2 q)⟩

theorem correlate_keep (R : Runtime) (key : Bytes) (crc : Nat) (entries : List (Bytes × Nat))
    (ps : List Nat) (p : Nat) (heap : List RarFile) (hk : ∀ e ∈ entries, e.1 ≠ key)
    (hcrc : crc ≠ 0) (hp : R.ToLower (deref heap p).Path = key)
    (hc : (deref heap p).CRC = crc) :
    (deref (correlate R entries ps heap) p).CRC = crc := by
  induction entries generalizing heap with
  | nil => exact hc
  | cons e es ih =>
    unfold correlate at ih ⊢
    rw [List.foldl_cons]
    apply ih _ (fun e1 he1 => hk e1 (List.mem_cons_of_mem _ he1))
    · rw [(correlateOne_frame R e.1 e.2 ps heap).2]
      exact hp
    · exact correlateOne_keep R key e.1 crc e.2 ps p heap (hk e (List.mem_cons_self _ _))
        hcrc hp hc

/-- The correlation pass over a table with distinct keys: the first RAR file whose
lower-case path is a key with a CRC other than 0 has that CRC in the end. -/
theorem correlate_first (R : Runtime) (key : Bytes) (crc : Nat)
    (entries : List (Bytes × Nat)) (pre post : List Nat) (p : Nat) (heap : List RarFile)
    (hnd : (entries.map Prod.fst).Nodup) (hmem : (key, crc) ∈ entries) (hcrc : crc ≠ 0)
    (hpre : ∀ q ∈ pre, R.ToLower (deref heap q).Path ≠ key)
    (hp : R.ToLower (deref heap p).Path = key) (hlt : p < heap.length) :
    (deref (correlate R entries (pre ++ p :: post) heap) p).CRC = crc := by
  obtain ⟨e1, e2, rfl⟩ := List.append_of_mem hmem
  have hsplit : correlate R (e1 ++ (key, crc) :: e2) (pre ++ p :: post) heap =
      correlate R e2 (pre ++ p :: post)
        (correlateOne R key crc (pre ++ p :: post)
          (correlate R e1 (pre ++ p :: post) heap)) := by
    unfold correlate
    rw [List.foldl_append, List.foldl_cons]
  rw [hsplit]
  obtain ⟨f1, f2⟩ := correlate_frame R e1 (pre ++ p :: post) heap
  rw [List.map_append, List.map_cons, List.nodup_append] at hnd
  obtain ⟨-, hnd2, hdisj⟩ := hnd
  rw [List.nodup_cons] at hnd2
  apply correlate_keep R key crc e2
  · intro e he hek
    apply hnd2.1
    rw [← hek]
    exact List.mem_map.2 ⟨e, he, rfl⟩
  · exact hcrc
  · rw [(correlateOne_frame R key crc _ _).2, f2]
    exact hp
  · apply correlateOne_first
    · intro q hq
      rw [f2]
      exact hpre q hq
    · rw [f2]
      exact hp
    · rw [f1]
      exact hlt

theorem insertBack_perm {α : Type} (less : α → α → Bool) (x : α) (l : List α) :
    (insertBack less x l).Perm (x :: l) := by
  induction l with
  | nil => exact List.Perm.refl _
  | cons y ys ih =>
    unfold insertBack
    split_ifs
    · exact ((List.Perm.cons y ih).trans (List.Perm.swap x y ys))
    · exact List.Perm.refl _

/-- The sort rearranges the slice. -/
theorem sortSlice_perm {α : Type} (less : α → α → Bool) (l : List α) :
    (sortSlice less l).Perm l := by
  unfold sortSlice
  refine (List.reverse_perm _).trans ?_
  have key : ∀ (l acc : List α),
      (l.foldl (fun acc x => insertBack less x acc) acc).Perm (l ++ acc) := by
    intro l
    induction l with
    | nil => exact fun acc => List.Perm.refl _
    | cons x xs ih =>
      intro acc
      rw [List.foldl_cons]
      refine (ih _).trans ?_
      refine (List.Perm.append_left xs (insertBack_perm less x acc)).trans ?_
      exact List.perm_middle
  simpa using key l []

theorem lookup_none_not_mem (k : Bytes) (tbl : List (Bytes × Nat))
    (h : tbl.lookup k = none) : k ∉ tbl.map Prod.fst := by
  induction tbl with
  | nil => simp
  | cons x xs ih =>
    obtain ⟨a, d⟩ := x
    rw [List.lookup_cons] at h
    cases hk : k == a with
    | true =>
      rw [hk] at h
      cases h
    | false =>
      rw [hk] at h
      simp only [List.map_cons, List.mem_cons, not_or]
      exact ⟨by simpa using hk, ih h⟩

/-- The keys of the table are distinct. -/
theorem scan_keys_nodup (ev : List (Bytes × Bytes)) (tbl tbl1 : List (Bytes × Nat))
    (e : Option Error) (h : scanBindings ev tbl = (tbl1, e))
    (hn : (tbl.map Prod.fst).Nodup) : (tbl1.map Prod.fst).Nodup := by
  induction ev generalizing tbl with
  | nil =>
    simp [scanBindings] at h
    rw [← h.1]
    exact hn
  | cons x xs ih =>
    obtain ⟨file, crc⟩ := x
    rw [scanBindings] at h
    cases h4 : ParseUint crc with
    | error e1 =>
      rw [h4] at h
      simp at h
      rw [← h.1]
      exact hn
    | ok v =>
      rw [h4] at h
      simp only at h
      cases h5 : tbl.lookup file with
      | none =>
        rw [h5] at h
        simp only at h
        apply ih _ h
        rw [List.map_append, List.nodup_append]
        refine ⟨hn, by simp, ?_⟩
        intro a ha hb
        simp at hb
        subst hb
        exact lookup_none_not_mem _ _ h5 ha
      | some c =>
        rw [h5] at h
        simp only at h
        by_cases h6 : c ≠ v % 2 ^ 32
        · rw [if_pos h6] at h
          simp at h
          rw [← h.1]
          exact hn
        · rw [if_neg h6] at h
          exact ih _ h hn

theorem walk_completed (b : Bytes) (fuel : Nat) (s0 s : WalkState)
    (h : walk b fuel s0 = some (.completed s)) :
    ∃ k, k < fuel ∧ stateFrom b s0 k = some s ∧ ¬ s.offset < (b.length : Int) := by
  obtain ⟨k, sf, hk, hs, he⟩ := walk_ends b fuel s0 _ h
  unfold endAt at he
  by_cases hlt : sf.offset < (b.length : Int)
  · rw [if_pos hlt] at he
    cases hstep : step b sf <;> rw [hstep] at he <;> simp at he
  · rw [if_neg hlt] at he
    simp at he
    subst he
    exact ⟨k, hk, hs, hlt⟩

/-! ## Claim C19 -/

--THMS
theorem getElem?_split (l : List Nat) (i p : Nat) (h : l[i]? = some p) :
    l = l.take i ++ p :: l.drop (i + 1) ∧
      ∀ q ∈ l.take i, ∃ j, j < i ∧ l[j]? = some q := by
  have hi : i < l.length := by
    by_contra hn
    rw [List.getElem?_eq_none (by omega)] at h
    cases h
  have hp : l[i] = p := by
    rw [List.getElem?_eq_getElem hi] at h
    injection h
  refine ⟨?_, ?_⟩
  · rw [← hp, ← List.drop_eq_getElem_cons hi, List.take_append_drop]
  · intro q hq
    obtain ⟨j, hj⟩ := List.mem_iff_getElem?.1 hq
    rw [List.getElem?_take] at hj
    split_ifs at hj with hji
    exact ⟨j, hji, hj⟩

/-- C19 (the claim as stated fails), two inputs whose block loop uses up the input and
whose SFV pass ends without error. In the first the table binds `a.rar` to `0x11111111`
and two RAR files have the path `a.rar`: the inner loop stops at the first, and the second
keeps CRC 0. In the second the table binds `a.rar` to 0 and `d/a.rar` to `0x11111111`, in
this order: the full-path match writes 0, and the base-name match of `d/a.rar`, which
writes while the CRC is 0, puts `0x11111111` in its place. -/
theorem full_path_crc_fails :
    (stateAt samePathInput SrrFile.empty 3).map (fun s => s.offset) =
      some (samePathInput.length : Int) ∧
    Unmarshal asciiRuntime SrrFile.empty samePathInput 4 =
      some (.returned
        { SrrFile.empty with
          StoredFiles := [⟨[120, 46, 115, 102, 118],
            [97, 46, 114, 97, 114, 32, 49, 49, 49, 49, 49, 49, 49, 49, 10]⟩],
          RarFiles := [⟨[97, 46, 114, 97, 114], 0, 0x11111111, false, false⟩,
                       ⟨[97, 46, 114, 97, 114], 0, 0, false, false⟩] } none) ∧
    (stateAt zeroCrcInput SrrFile.empty 3).map (fun s => s.offset) =
      some (zeroCrcInput.length : Int) ∧
    (sfvFiles asciiRuntime
        [⟨[120, 46, 115, 102, 118],
          [97, 46, 114, 97, 114, 32, 48, 48, 48, 48, 48, 48, 48, 48, 10]⟩,
         ⟨[100, 47, 121, 46, 115, 102, 118],
          [97, 46, 114, 97, 114, 32, 49, 49, 49, 49, 49, 49, 49, 49, 10]⟩]
        { comments := [], table := [] }).1.table =
      [([97, 46, 114, 97, 114], 0), ([100, 47, 97, 46, 114, 97, 114], 0x11111111)] ∧
    Unmarshal asciiRuntime SrrFile.empty zeroCrcInput 4 =
      some (.returned
        { SrrFile.empty with
          StoredFiles := [⟨[120, 46, 115, 102, 118],
              [97, 46, 114, 97, 114, 32, 48, 48, 48, 48, 48, 48, 48, 48, 10]⟩,
            ⟨[100, 47, 121, 46, 115, 102, 118],
              [97, 46, 114, 97, 114, 32, 49, 49, 49, 49, 49, 49, 49, 49, 10]⟩],
          RarFiles := [⟨[97, 46, 114, 97, 114], 0, 0x11111111, false, false⟩] } none) := by
  decide

/-- C19 (amended): for a call whose block loop uses up the input and whose SFV pass ends
without error, and a binding of the SFV table of a key to a CRC other than 0. The call
returns `nil`; `RarFiles` is a rearrangement of the RAR files of the block loop with
their paths; the first RAR file, in the order of the blocks, whose lower-case path is the
key has the CRC of the key; and when only one RAR file has that lower-case path, every
entry of `RarFiles` with that lower-case path has the CRC of the key. (A visit of the
table visits every binding once.) -/
theorem full_path_crc (R : Runtime) (hR : ∀ t, (R.mapOrder t).Perm t) (f0 : SrrFile)
    (b : Bytes) (fuel : Nat) (s : WalkState) (st : SfvState)
    (hw : walk b fuel (WalkState.init f0) = some (.completed s))
    (hsfv : sfvFiles R s.StoredFiles { comments := s.SFVComments, table := [] } = (st, none))
    (key : Bytes) (crc : Nat) (hb : (key, crc) ∈ st.table) (hcrc : crc ≠ 0) :
    ∃ f L1, Unmarshal R f0 b fuel = some (.returned f none) ∧
      f.RarFiles.Perm L1 ∧
      L1.map (fun r => r.Path) = s.toFile.RarFiles.map (fun r => r.Path) ∧
      (∀ (i : Nat) (r : RarFile), s.toFile.RarFiles[i]? = some r → R.ToLower r.Path = key →
        (∀ (j : Nat) (r2 : RarFile), j < i → s.toFile.RarFiles[j]? = some r2 → R.ToLower r2.Path ≠ key) →
        ∃ r1 : RarFile, L1[i]? = some r1 ∧ r1.CRC = crc) ∧
      ((∀ (i j : Nat) (r1 r2 : RarFile), s.toFile.RarFiles[i]? = some r1 → s.toFile.RarFiles[j]? = some r2 →
          R.ToLower r1.Path = key → R.ToLower r2.Path = key → i = j) →
        ∀ r ∈ f.RarFiles, R.ToLower r.Path = key → r.CRC = crc) := by
  obtain ⟨k, hk, hs, hend⟩ := walk_completed b fuel _ s hw
  obtain ⟨-, -, -, hvalid⟩ := stateAt_rar_inv b f0 k s hs
  have hU : Unmarshal R f0 b fuel = some (.returned
      { s.toFile with
        RarFiles := (sortSlice (rarLess R (correlate R (R.mapOrder st.table) s.RarFiles
            s.rarHeap)) s.RarFiles).map
          (deref (correlate R (R.mapOrder st.table) s.RarFiles s.rarHeap)),
        SFVComments := st.comments } none) := by
    unfold Unmarshal
    rw [hw]
    simp only
    unfold finish
    rw [hsfv]
  have hscan := sfvFiles_scan R s.StoredFiles { comments := s.SFVComments, table := [] }
  rw [hsfv] at hscan
  have hnd0 : (st.table.map Prod.fst).Nodup :=
    scan_keys_nodup _ _ _ _ hscan.symm (by simp)
  have hnd : ((R.mapOrder st.table).map Prod.fst).Nodup :=
    ((hR st.table).map Prod.fst).nodup_iff.2 hnd0
  have hmem : (key, crc) ∈ R.mapOrder st.table := (hR st.table).mem_iff.2 hb
  obtain ⟨fr1, fr2⟩ := correlate_frame R (R.mapOrder st.table) s.RarFiles s.rarHeap
  have first : ∀ (i : Nat) (r : RarFile), s.toFile.RarFiles[i]? = some r → R.ToLower r.Path = key →
      (∀ (j : Nat) (r2 : RarFile), j < i → s.toFile.RarFiles[j]? = some r2 → R.ToLower r2.Path ≠ key) →
      ∃ r1 : RarFile, (s.RarFiles.map
        (deref (correlate R (R.mapOrder st.table) s.RarFiles s.rarHeap)))[i]? = some r1 ∧
        r1.CRC = crc := by
    intro i r hi hr hbefore
    simp only [WalkState.toFile, List.getElem?_map, Option.map_eq_some'] at hi
    obtain ⟨p, hip, hpr⟩ := hi
    obtain ⟨hsplit, hpre⟩ := getElem?_split s.RarFiles i p hip
    have hpm : p ∈ s.RarFiles := List.mem_iff_getElem?.2 ⟨i, hip⟩
    refine ⟨deref (correlate R (R.mapOrder st.table) s.RarFiles s.rarHeap) p, ?_, ?_⟩
    · simp [List.getElem?_map, hip]
    · have h1 := correlate_first R key crc (R.mapOrder st.table) (s.RarFiles.take i)
        (s.RarFiles.drop (i + 1)) p s.rarHeap hnd hmem hcrc ?_ ?_ (hvalid p hpm)
      · rw [← hsplit] at h1
        exact h1
      · intro q hq
        obtain ⟨j, hji, hjq⟩ := hpre q hq
        refine hbefore j _ hji ?_
        simp [WalkState.toFile, List.getElem?_map, hjq]
      · rw [hpr]
        exact hr
  refine ⟨_, s.RarFiles.map
    (deref (correlate R (R.mapOrder st.table) s.RarFiles s.rarHeap)), hU, ?_, ?_, first, ?_⟩
  · exact (sortSlice_perm _ _).map _
  · simp only [WalkState.toFile, List.map_map]
    apply List.map_congr_left
    intro p _
    exact fr2 p
  · intro huniq r hr hrkey
    simp only [List.mem_map] at hr
    obtain ⟨q, hq, rfl⟩ := hr
    have hqm : q ∈ s.RarFiles := (sortSlice_perm _ _).mem_iff.1 hq
    obtain ⟨j, hj⟩ := List.mem_iff_getElem?.1 hqm
    have hLj : s.toFile.RarFiles[j]? = some (deref s.rarHeap q) := by
      simp [WalkState.toFile, List.getElem?_map, hj]
    have hkey : R.ToLower (deref s.rarHeap q).Path = key := by
      rw [← fr2 q]
      exact hrkey
    obtain ⟨r1, hr1, hc1⟩ := first j _ hLj hkey (by
      intro j1 r2 hlt h2 hk2
      have := huniq j1 j r2 _ h2 hLj hk2 hkey
      omega)
    simp only [List.getElem?_map, hj, Option.map_some'] at hr1
    injection hr1 with hr1
    rw [hr1]
    exact hc1

/-- The SFV file `x.sfv` has the line `a.rar 11111111`; of the RAR files `b.rar` and
`a.rar` the second has the path of the key. -/
theorem full_path_crc_witness :
    ∃ f L1, Unmarshal asciiRuntime SrrFile.empty fullPathInput 4 = some (.returned f none) ∧
      f.RarFiles.Perm L1 ∧
      L1.map (fun r => r.Path) = fullPathState.toFile.RarFiles.map (fun r => r.Path) ∧
      (∀ (i : Nat) (r : RarFile), fullPathState.toFile.RarFiles[i]? = some r →
        asciiRuntime.ToLower r.Path = [97, 46, 114, 97, 114] →
        (∀ (j : Nat) (r2 : RarFile), j < i → fullPathState.toFile.RarFiles[j]? = some r2 →
          asciiRuntime.ToLower r2.Path ≠ [97, 46, 114, 97, 114]) →
        ∃ r1 : RarFile, L1[i]? = some r1 ∧ r1.CRC = 0x11111111) ∧
      ((∀ (i j : Nat) (r1 r2 : RarFile), fullPathState.toFile.RarFiles[i]? = some r1 →
          fullPathState.toFile.RarFiles[j]? = some r2 →
          asciiRuntime.ToLower r1.Path = [97, 46, 114, 97, 114] →
          asciiRuntime.ToLower r2.Path = [97, 46, 114, 97, 114] → i = j) →
        ∀ r ∈ f.RarFiles, asciiRuntime.ToLower r.Path = [97, 46, 114, 97, 114] →
          r.CRC = 0x11111111) :=
  full_path_crc asciiRuntime (fun t => List.Perm.refl t) SrrFile.empty fullPathInput 4
    fullPathState { comments := [], table := [([97, 46, 114, 97, 114], 0x11111111)] }
    (by decide) (by decide) [97, 46, 114, 97, 114] 0x11111111 (by decide) (by decide)

/-! ## Claims C21, C22 and C27 -/

/-- C21: the length test of the line loop is made on the line with its end-of-line bytes.
The SFV file `x.sfv` holds the 9-byte line `ab 123456`. Followed by a newline the line
has 10 bytes for the test: it is no comment, and it binds `ab` to `0x123456`, which the
RAR file `ab` gets as its CRC. Without the newline (the line ends the file) the same
line is a comment. -/
theorem short_line_with_newline_binds :
    Unmarshal asciiRuntime SrrFile.empty
        (shortLineInput [97, 98, 32, 49, 50, 51, 52, 53, 54, 10]) 3 =
      some (.returned
        { SrrFile.empty with
          StoredFiles := [⟨[120, 46, 115, 102, 118], [97, 98, 32, 49, 50, 51, 52, 53, 54, 10]⟩],
          RarFiles := [⟨[97, 98], 0, 0x123456, false, false⟩],
          SFVComments := [] } none) ∧
    Unmarshal asciiRuntime SrrFile.empty
        (shortLineInput [97, 98, 32, 49, 50, 51, 52, 53, 54]) 3 =
      some (.returned
        { SrrFile.empty with
          StoredFiles := [⟨[120, 46, 115, 102, 118], [97, 98, 32, 49, 50, 51, 52, 53, 54]⟩],
          RarFiles := [⟨[97, 98], 0, 0, false, false⟩],
          SFVComments := [[97, 98, 32, 49, 50, 51, 52, 53, 54]] } none) := by
  decide

/-- C22: a main head whose size field says 64 in an input of 7 bytes. The turn moves the
cursor to 64, the loop condition `offset < len(b)` fails, and the call returns `nil` with
the cursor past the end of the input. -/
theorem truncated_block_accepted :
    truncatedInput.length = 7 ∧
    (stateAt truncatedInput SrrFile.empty 1).map (fun s => s.offset) = some 64 ∧
    Unmarshal asciiRuntime SrrFile.empty truncatedInput 2 =
      some (.returned SrrFile.empty none) := by
  decide

/-- C27: on seven zero bytes the block loop does not end. The header has the type `0x00`
and the size 0; the turn adds 0 to the cursor and leaves every variable of the loop as it
was, so no number of turns ends the loop. -/
theorem zero_size_block_loops (R : Runtime) (f0 : SrrFile) (fuel : Nat) :
    step zeroBlockInput (WalkState.init f0) = .next (WalkState.init f0) ∧
    (WalkState.init f0).offset < (zeroBlockInput.length : Int) ∧
    Unmarshal R f0 zeroBlockInput fuel = none := by
  have hlt : (WalkState.init f0).offset < (zeroBlockInput.length : Int) := by
    simp only [WalkState.init]
    decide
  have hh : headerAt zeroBlockInput (WalkState.init f0) =
      some { CRC := 0, HeadType := 0, Flags := 0, Size := 0 } := by
    unfold headerAt
    rw [if_pos hlt]
    simp only [WalkState.init]
    decide
  have hstep : step zeroBlockInput (WalkState.init f0) = .next (WalkState.init f0) := by
    rw [step_of_headerAt _ _ _ hh]
    unfold dispatch
    simp +decide only [if_false, if_true]
    have e1 : (WalkState.init f0).addRarSize ((0 : Nat) : Int) = [default] := by
      simp only [WalkState.init, WalkState.addRarSize]
      decide
    have e2 : intAdd (WalkState.init f0).offset ((0 : Nat) : Int) = 0 := by
      simp only [WalkState.init]
      decide
    simp only [stepPassive, e1, e2]
    rfl
  refine ⟨hstep, hlt, ?_⟩
  have hw : walk zeroBlockInput fuel (WalkState.init f0) = none := by
    induction fuel with
    | zero => rfl
    | succ n ih =>
      rw [walk, if_pos hlt, hstep]
      exact ih
  unfold Unmarshal
  rw [hw]

/-! ## Claim C24 -/

--THMS
theorem storedFile_parse_fields (h : RarHeader) (data : Bytes)
    (blk : SrrStoredFileHeadBlock) (hp : SrrStoredFileHeadBlock.Parse h data = .ok blk) :
    h.CRC = 0x6A6A ∧ h.Flag HAS_DATA = true ∧ 7 ≤ data.length ∧
      blk.DataSize = leNat ((data.drop 7).take 4) ∧
      blk.NameSize = leNat ((data.drop 11).take 2) ∧
      blk.FileName = (data.drop 13).take blk.NameSize ∧
      blk.FileData = (data.drop (13 + blk.NameSize)).take blk.DataSize ∧
      blk.FileName.length = blk.NameSize ∧ blk.FileData.length = blk.DataSize := by
  unfold SrrStoredFileHeadBlock.Parse at hp
  by_cases c0 : h.CRC ≠ 0x6A6A
  · rw [if_pos c0] at hp
    cases hp
  rw [if_neg c0] at hp
  by_cases c1 : (!h.Flag HAS_DATA) = true
  · rw [if_pos c1] at hp
    cases hp
  rw [if_neg c1] at hp
  simp only [Res.bind_eq_ok] at hp
  obtain ⟨buf0, h0, ⟨ds, b1⟩, h1, ⟨ns, b2⟩, h2, ⟨nm, b3⟩, h3, ⟨fd, b4⟩, h4, hfin⟩ := hp
  simp only [pure] at hfin
  injection hfin with hfin
  subst hfin
  obtain ⟨h7, rfl⟩ := sliceFrom7_eq _ _ h0
  obtain ⟨e1, rfl⟩ := readUint_eq _ _ _ _ h1
  obtain ⟨e2, rfl⟩ := readUint_eq _ _ _ _ h2
  obtain ⟨l3, -⟩ := readBytes_length _ _ _ _ h3
  obtain ⟨e3, rfl⟩ := readBytes_eq _ _ _ _ h3
  obtain ⟨l4, -⟩ := readBytes_length _ _ _ _ h4
  obtain ⟨e4, -⟩ := readBytes_eq _ _ _ _ h4
  simp only [List.drop_drop] at e2 e3 e4
  refine ⟨by simpa using c0, by simpa using c1, h7, e1, e2, e3, ?_, l3, l4⟩
  rw [e4]

/-- C24: for a stored-file block that parses (its magic is `0x6A6A` and `HAS_DATA` is
set), `GetStoredFile` fails with `ErrNoData` exactly when the name size is 0, and
`Unmarshal` then returns `ErrNoData`; otherwise the turn appends the one entry made of
the name bytes and of the data bytes read after the name to `StoredFiles`. A data size
of 0 gives an entry with empty data. A turn on a block of another type leaves
`StoredFiles` as it is, so the list has the stored files in the order they are met. -/
theorem stored_file_block (R : Runtime) (f0 : SrrFile) (b : Bytes) (k : Nat) (s : WalkState)
    (h : RarHeader) (blk : SrrStoredFileHeadBlock) (fuel : Nat)
    (hs : stateAt b f0 k = some s) (hh : headerAt b s = some h)
    (hty : h.HeadType = SrrStoredFileHead)
    (hp : SrrStoredFileHeadBlock.Parse h (b.drop s.offset.toNat) = .ok blk) (hk : k < fuel) :
    (h.CRC = 0x6A6A ∧ h.Flag HAS_DATA = true) ∧
    (blk.GetStoredFile = .err .ErrNoData ↔ blk.NameSize = 0) ∧
    (blk.NameSize = 0 →
      Unmarshal R f0 b fuel = some (.returned s.toFile (some .ErrNoData))) ∧
    (blk.NameSize ≠ 0 →
      ∃ s1, stateAt b f0 (k + 1) = some s1 ∧
        s1.StoredFiles = s.StoredFiles ++ [⟨blk.FileName, blk.FileData⟩]) ∧
    (blk.FileName = ((b.drop s.offset.toNat).drop 13).take blk.NameSize ∧
      blk.FileData = ((b.drop s.offset.toNat).drop (13 + blk.NameSize)).take blk.DataSize ∧
      blk.FileName.length = blk.NameSize ∧ blk.FileData.length = blk.DataSize) ∧
    (blk.DataSize = 0 → blk.FileData = []) ∧
    (∀ j s2 s3 h2, stateAt b f0 j = some s2 → stateAt b f0 (j + 1) = some s3 →
      headerAt b s2 = some h2 → h2.HeadType ≠ SrrStoredFileHead →
      s3.StoredFiles = s2.StoredFiles) := by
  obtain ⟨m1, m2, -, -, -, e3, e4, l3, l4⟩ := storedFile_parse_fields h _ blk hp
  have hstep : step b s = blk.GetStoredFile.andThen fun sf =>
      .next { s with StoredFiles := s.StoredFiles ++ [sf],
                     offset := intAdd s.offset blk.GetSize,
                     prevHeader := h } := by
    rw [step_of_headerAt b s h hh]
    unfold dispatch
    simp +decide only [hty, if_false, if_true]
    rw [hp]
    rfl
  refine ⟨⟨m1, m2⟩, ?_, ?_, ?_, ⟨e3, e4, l3, l4⟩, ?_, ?_⟩
  · unfold SrrStoredFileHeadBlock.GetStoredFile
    split_ifs with hc
    · simp [hc]
    · simp [hc]
  · intro hc
    have hg : blk.GetStoredFile = .err .ErrNoData := by
      rw [SrrStoredFileHeadBlock.GetStoredFile, if_pos hc]
    rw [hg] at hstep
    exact Unmarshal_of_fail R f0 b k s _ fuel hs (headerAt_some b s h hh).1 hstep hk
  · intro hc
    have hg : blk.GetStoredFile = .ok ⟨blk.FileName, blk.FileData⟩ := by
      rw [SrrStoredFileHeadBlock.GetStoredFile, if_neg hc]
    rw [hg] at hstep
    refine ⟨{ s with StoredFiles := s.StoredFiles ++ [⟨blk.FileName, blk.FileData⟩],
                     offset := intAdd s.offset blk.GetSize,
                     prevHeader := h }, ?_, rfl⟩
    unfold stateAt at hs ⊢
    rw [stateFrom, hs]
    simp only [Option.some_bind]
    rw [advance_some]
    exact ⟨(headerAt_some b s h hh).1, hstep⟩
  · intro hd
    rw [hd] at l4
    exact List.length_eq_zero.1 l4
  · intro j s2 s3 h2 hs2 hs3 hh2 hne
    exact (stateAt_succ_frame b f0 j s2 s3 h2 hs2 hs3 hh2).2.1 hne

/-- A stored-file block for the file `a` with data size 0: the entry has empty data. -/
theorem stored_file_block_witness :
    ∃ s1, stateAt emptyFileInput SrrFile.empty 1 = some s1 ∧ s1.StoredFiles = [⟨[97], []⟩] :=
  (stored_file_block asciiRuntime SrrFile.empty emptyFileInput 0 (WalkState.init SrrFile.empty)
    { CRC := 0x6A6A, HeadType := 0x6A, Flags := 0x8000, Size := 14 } emptyFileBlock 2
    (by decide) (by decide) (by decide) (by decide) (by decide)).2.2.2.1 (by decide)

/-! ## Claim C26 -/

/-- C26: `Lyrics200Block.Unmarshal` returns `nil` without a trailer. On the 11 bytes
`LYRICSBEGIN`, which `Lyrics200Matcher` accepts, the loop condition `offset < len(b)`
fails at once; on `LYRICSBEGIN`, `ABC00007` and 7 bytes of data the sub-block ends where
the input ends and the loop condition fails after one turn. In both cases the function
returns `nil` with `Size = 0` and no data, although the input has no `LYRICS200`. With
the trailer after the sub-block it returns the block of 41 bytes. -/
theorem lyrics_accepted_without_trailer :
    Lyrics200Matcher lyricsBegin = true ∧
    Lyrics200Block.Unmarshal lyricsBegin 1 = some (.ok { Size := 0, Data := [] }) ∧
    Lyrics200Matcher lyricsNoTrailer = true ∧
    Lyrics200Block.Unmarshal lyricsNoTrailer 2 = some (.ok { Size := 0, Data := [] }) ∧
    Lyrics200Block.Unmarshal lyricsWithTrailer 2 =
      some (.ok { Size := 41, Data := lyricsWithTrailer }) := by
  decide

/-- When `Lyrics200Block.Unmarshal` returns `nil`, either it has found the trailer at
some offset `t` (`Size = t + 15`, `Data = b[0 : t+15]`, `LYRICS200` at `t + 6`), or it
returns the empty block with `Size = 0`. -/
theorem lyrics_ok_cases (b : Bytes) (fuel : Nat) (offset : Int) (blk : Lyrics200Block)
    (h : Lyrics200Block.loop b fuel offset = some (.ok blk)) :
    (blk.Size = 0 ∧ blk.Data = []) ∨
    ∃ t : Nat, blk.Size = (t : Int) + 15 ∧ t + 15 ≤ b.length ∧ blk.Data = b.take (t + 15) ∧
      (b.drop (t + 6)).take 9 = [76, 89, 82, 73, 67, 83, 50, 48, 48] := by
  induction fuel generalizing offset with
  | zero => simp [Lyrics200Block.loop] at h
  | succ n ih =>
    rw [Lyrics200Block.loop] at h
    by_cases h1 : offset < (b.length : Int)
    · rw [if_pos h1] at h
      by_cases h2 : offset < 0
      · rw [if_pos h2] at h
        simp at h
      rw [if_neg h2] at h
      by_cases h3 : (b.length : Int) - offset < 15
      · rw [if_pos h3] at h
        simp at h
      rw [if_neg h3] at h
      by_cases h4 : (b.drop (offset.toNat + 6)).take 9 = [76, 89, 82, 73, 67, 83, 50, 48, 48]
      · rw [if_pos h4] at h
        simp only [Option.some.injEq, Res.ok.injEq] at h
        subst h
        have hle : offset.toNat + 15 ≤ b.length := by omega
        refine Or.inr ⟨offset.toNat, ?_, hle, rfl, h4⟩
        simp only [List.length_take]
        omega
      · rw [if_neg h4] at h
        cases hs : Lyrics200SubBlock.Size ((b.drop (offset.toNat + 3)).take 5) with
        | error e =>
          rw [hs] at h
          simp at h
        | ok sz =>
          rw [hs] at h
          simp only at h
          cases hg : goSlice b (intAdd offset 8) (intAdd offset sz) with
          | none =>
            rw [hg] at h
            simp at h
          | some d =>
            rw [hg] at h
            exact ih _ h
    · rw [if_neg h1] at h
      simp only [Option.some.injEq, Res.ok.injEq] at h
      subst h
      exact Or.inl ⟨rfl, rfl⟩

/-! ## The sizes of the RAR files -/

theorem sizes_store (heap : List RarFile) (cur : Nat) (r : RarFile) (v : Int)
    (hr : r.Size = v) :
    (store heap cur r).map (fun x => x.Size) = (heap.map (fun x => x.Size)).set cur v := by
  subst hr
  simp [store, List.map_set]

theorem set_getElem_same {α : Type} (l : List α) (i : Nat) (h : i < l.length) :
    l.set i (l.get ⟨i, h⟩) = l := by
  apply List.ext_getElem?
  intro j
  rw [List.getElem?_set]
  by_cases h1 : i = j
  · subst h1
    simp [h]
  · simp [h1]

theorem sizes_same (heap : List RarFile) (cur : Nat) (v : Int)
    (hv : (deref heap cur).Size = v) (hcur : cur < heap.length) :
    heap.map (fun x => x.Size) = (heap.map (fun x => x.Size)).set cur v := by
  have h1 : store heap cur (deref heap cur) = heap := by
    unfold store deref
    rw [List.getD_eq_getElem?_getD, List.getElem?_eq_getElem hcur]
    simp only [Option.getD_some]
    exact set_getElem_same heap cur hcur
  rw [← sizes_store heap cur (deref heap cur) v hv, h1]

theorem intAdd_wrap (a x : Int) : intAdd (wrapInt64 a) x = wrapInt64 (a + x) := by
  unfold intAdd wrapInt64
  omega

theorem intAdd_wrap_wrap (a x y : Int) :
    intAdd (wrapInt64 a) (intAdd x (wrapInt64 y)) = wrapInt64 (a + (x + y)) := by
  unfold intAdd wrapInt64
  omega


/-- A turn on a block that is no sub-block head adds to the size of the current RAR file
what the specification says, as a 64-bit `int`, and leaves the other sizes. -/
theorem dispatch_sizes (data : Bytes) (s s1 : WalkState) (h : RarHeader)
    (hd : dispatch data s h = .next s1) (hne : h.HeadType ≠ SrrRarSubBlockHead)
    (hpar : RarHeader.Parse data = .ok h) (a : Int)
    (ha : (deref s.rarHeap s.currentRarFile).Size = wrapInt64 a)
    (hcur : s.currentRarFile < s.rarHeap.length) :
    s1.currentRarFile = s.currentRarFile ∧ s1.RarFiles = s.RarFiles ∧
    s1.rarHeap.length = s.rarHeap.length ∧
    s1.rarHeap.map (fun x => x.Size) =
      (s.rarHeap.map (fun x => x.Size)).set s.currentRarFile
        (wrapInt64 (a + claimedBlockSize h data)) := by
  unfold dispatch at hd
  by_cases h0 : h.HeadType = SrrVolHead
  · rw [if_pos h0] at hd
    rw [Res.andThen_eq_next] at hd
    obtain ⟨_, _, hd⟩ := hd
    injection hd with hd
    subst hd
    have hc : claimedBlockSize h data = 0 := by
      unfold claimedBlockSize headerOnlyTypes
      simp +decide only [h0, if_false, if_true]
    refine ⟨rfl, rfl, rfl, ?_⟩
    rw [hc, add_zero]
    exact sizes_same _ _ _ ha hcur
  rw [if_neg h0] at hd
  by_cases h1 : h.HeadType = SrrStoredFileHead
  · rw [if_pos h1] at hd
    rw [Res.andThen_eq_next] at hd
    obtain ⟨_, _, hd⟩ := hd
    rw [Res.andThen_eq_next] at hd
    obtain ⟨_, _, hd⟩ := hd
    injection hd with hd
    subst hd
    have hc : claimedBlockSize h data = 0 := by
      unfold claimedBlockSize headerOnlyTypes
      simp +decide only [h1, if_false, if_true]
    refine ⟨rfl, rfl, rfl, ?_⟩
    rw [hc, add_zero]
    exact sizes_same _ _ _ ha hcur
  rw [if_neg h1] at hd
  by_cases h2 : h.HeadType = OSOHashHead
  · rw [if_pos h2] at hd
    rw [Res.andThen_eq_next] at hd
    obtain ⟨_, _, hd⟩ := hd
    rw [Res.andThen_eq_next] at hd
    obtain ⟨_, _, hd⟩ := hd
    injection hd with hd
    subst hd
    have hc : claimedBlockSize h data = 0 := by
      unfold claimedBlockSize headerOnlyTypes
      simp +decide only [h2, if_false, if_true]
    refine ⟨rfl, rfl, rfl, ?_⟩
    rw [hc, add_zero]
    exact sizes_same _ _ _ ha hcur
  rw [if_neg h2] at hd
  by_cases h3 : h.HeadType = SrrRarPadHead
  · rw [if_pos h3] at hd
    rw [Res.andThen_eq_next] at hd
    obtain ⟨blk, hp, hd⟩ := hd
    injection hd with hd
    subst hd
    have hc : claimedBlockSize h data = (blk.PadSize : Int) := by
      unfold claimedBlockSize headerOnlyTypes
      simp +decide only [h3, if_false, if_true, hp]
    refine ⟨rfl, rfl, store_length _ _ _, ?_⟩
    refine sizes_store _ _ _ _ ?_
    show intAdd _ _ = _
    rw [ha, hc]
    exact intAdd_wrap _ _
  rw [if_neg h3] at hd
  by_cases h4 : h.HeadType = SrrRarSubBlockHead
  · rw [if_pos h4] at hd
    exact absurd h4 hne
  rw [if_neg h4] at hd
  by_cases h5 : h.HeadType = MarkHead
  · rw [if_pos h5] at hd
    rw [Res.andThen_eq_next] at hd
    obtain ⟨blk, hp, hd⟩ := hd
    have hb : h = blk := by
      unfold MarkHeadBlock.Parse at hp
      rw [hpar] at hp
      injection hp with hp
    subst hb
    split at hd
    · cases hd
    · injection hd with hd
      subst hd
      have hc : claimedBlockSize h data = (h.Size : Int) := by
        unfold claimedBlockSize headerOnlyTypes
        simp +decide only [h5, if_false, if_true]
      refine ⟨rfl, rfl, store_length _ _ _, ?_⟩
      refine sizes_store _ _ _ _ ?_
      show intAdd _ _ = _
      rw [ha, hc]
      exact intAdd_wrap _ _
  rw [if_neg h5] at hd
  by_cases h6 : h.HeadType = MainHead
  · rw [if_pos h6] at hd
    injection hd with hd
    subst hd
    have hc : claimedBlockSize h data = (h.Size : Int) := by
      unfold claimedBlockSize headerOnlyTypes
      simp +decide only [h6, if_false, if_true]
    refine ⟨rfl, rfl, store_length _ _ _, ?_⟩
    refine sizes_store _ _ _ _ ?_
    show intAdd _ _ = _
    rw [ha, hc]
    exact intAdd_wrap _ _
  rw [if_neg h6] at hd
  by_cases h7 : h.HeadType = FileHead
  · rw [if_pos h7] at hd
    rw [Res.andThen_eq_next] at hd
    obtain ⟨blk, hp, hd⟩ := hd
    unfold stepFileHead at hd
    rw [Res.andThen_eq_next] at hd
    obtain ⟨ps, -, hd⟩ := hd
    injection hd with hd
    subst hd
    obtain ⟨e1, l1, -⟩ := fileHead_parse_ok h data blk hp
    have hc : claimedBlockSize h data = (h.Size : Int) + (specPackSize h.Flags blk.LowPackSize blk.HighPackSize : Nat) := by
      unfold claimedBlockSize headerOnlyTypes
      simp +decide only [h7, if_false, if_true, hp]
    refine ⟨rfl, rfl, store_length _ _ _, ?_⟩
    refine sizes_store _ _ _ _ ?_
    show intAdd _ (intAdd (blk.toRarHeader.Size : Int) blk.GetPackSize) = _
    rw [ha, hc, getPackSize_eq blk l1, e1]
    exact intAdd_wrap_wrap _ _ _
  rw [if_neg h7] at hd
  by_cases h8 : h.HeadType = CommHead
  · rw [if_pos h8] at hd
    unfold stepPassive at hd
    injection hd with hd
    subst hd
    have hc : claimedBlockSize h data = (h.Size : Int) := by
      unfold claimedBlockSize headerOnlyTypes
      simp +decide only [h8, if_false, if_true]
    refine ⟨rfl, rfl, store_length _ _ _, ?_⟩
    refine sizes_store _ _ _ _ ?_
    show intAdd _ _ = _
    rw [ha, hc]
    exact intAdd_wrap _ _
  rw [if_neg h8] at hd
  by_cases h9 : h.HeadType = AvHead
  · rw [if_pos h9] at hd
    unfold stepPassive at hd
    injection hd with hd
    subst hd
    have hc : claimedBlockSize h data = (h.Size : Int) := by
      unfold claimedBlockSize headerOnlyTypes
      simp +decide only [h9, if_false, if_true]
    refine ⟨rfl, rfl, store_length _ _ _, ?_⟩
    refine sizes_store _ _ _ _ ?_
    show intAdd _ _ = _
    rw [ha, hc]
    exact intAdd_wrap _ _
  rw [if_neg h9] at hd
  by_cases h10 : h.HeadType = SubHead
  · rw [if_pos h10] at hd
    unfold stepPassive at hd
    injection hd with hd
    subst hd
    have hc : claimedBlockSize h data = (h.Size : Int) := by
      unfold claimedBlockSize headerOnlyTypes
      simp +decide only [h10, if_false, if_true]
    refine ⟨rfl, rfl, store_length _ _ _, ?_⟩
    refine sizes_store _ _ _ _ ?_
    show intAdd _ _ = _
    rw [ha, hc]
    exact intAdd_wrap _ _
  rw [if_neg h10] at hd
  by_cases h11 : h.HeadType = ProtectHead
  · rw [if_pos h11] at hd
    rw [Res.andThen_eq_next] at hd
    obtain ⟨blk, hp, hd⟩ := hd
    injection hd with hd
    subst hd
    obtain ⟨e1, -⟩ := protect_parse_ok h data blk hp
    have hc : claimedBlockSize h data = (h.Size : Int) + (blk.PackedSize : Int) := by
      unfold claimedBlockSize headerOnlyTypes
      simp +decide only [h11, if_false, if_true, hp]
    refine ⟨rfl, rfl, store_length _ _ _, ?_⟩
    refine sizes_store _ _ _ _ ?_
    show intAdd _ (intAdd (blk.toRarHeader.Size : Int) (blk.PackedSize : Int)) = _
    rw [ha, hc, e1]
    unfold intAdd wrapInt64
    omega
  rw [if_neg h11] at hd
  by_cases h12 : h.HeadType = SignHead
  · rw [if_pos h12] at hd
    unfold stepPassive at hd
    injection hd with hd
    subst hd
    have hc : claimedBlockSize h data = (h.Size : Int) := by
      unfold claimedBlockSize headerOnlyTypes
      simp +decide only [h12, if_false, if_true]
    refine ⟨rfl, rfl, store_length _ _ _, ?_⟩
    refine sizes_store _ _ _ _ ?_
    show intAdd _ _ = _
    rw [ha, hc]
    exact intAdd_wrap _ _
  rw [if_neg h12] at hd
  by_cases h13 : h.HeadType = NewSubHead
  · rw [if_pos h13] at hd
    rw [Res.andThen_eq_next] at hd
    obtain ⟨blk, hp, hd⟩ := hd
    injection hd with hd
    subst hd
    obtain ⟨e1, l1, -⟩ := newSub_parse_ok h data blk hp
    have hc : claimedBlockSize h data = (h.Size : Int) + (specPackSize h.Flags blk.LowPackSize blk.HighPackSize : Nat) := by
      unfold claimedBlockSize headerOnlyTypes
      simp +decide only [h13, if_false, if_true, hp]
    refine ⟨rfl, rfl, store_length _ _ _, ?_⟩
    refine sizes_store _ _ _ _ ?_
    show intAdd _ (intAdd (blk.toRarHeader.Size : Int) blk.GetPackSize) = _
    rw [ha, hc]
    have hw := newSub_wrap_getPackSize blk (blk.toRarHeader.Size : Int) l1
    rw [e1] at hw
    rw [e1]
    unfold intAdd
    rw [hw]
    unfold wrapInt64
    omega
  rw [if_neg h13] at hd
  by_cases h14 : h.HeadType = EndArcHead
  · rw [if_pos h14] at hd
    unfold stepPassive at hd
    injection hd with hd
    subst hd
    have hc : claimedBlockSize h data = (h.Size : Int) := by
      unfold claimedBlockSize headerOnlyTypes
      simp +decide only [h14, if_false, if_true]
    refine ⟨rfl, rfl, store_length _ _ _, ?_⟩
    refine sizes_store _ _ _ _ ?_
    show intAdd _ _ = _
    rw [ha, hc]
    exact intAdd_wrap _ _
  rw [if_neg h14] at hd
  by_cases h15 : h.HeadType = EmptyHead
  · rw [if_pos h15] at hd
    unfold stepPassive at hd
    injection hd with hd
    subst hd
    have hc : claimedBlockSize h data = (h.Size : Int) := by
      unfold claimedBlockSize headerOnlyTypes
      simp +decide only [h15, if_false, if_true]
    refine ⟨rfl, rfl, store_length _ _ _, ?_⟩
    refine sizes_store _ _ _ _ ?_
    show intAdd _ _ = _
    rw [ha, hc]
    exact intAdd_wrap _ _
  rw [if_neg h15] at hd
  cases hd

theorem header_parse_drop (b : Bytes) (s : WalkState) (h : RarHeader)
    (hh : headerAt b s = some h) : RarHeader.Parse (b.drop s.offset.toNat) = .ok h := by
  obtain ⟨hlt, hb, hg, hp⟩ := headerAt_some b s h hh
  unfold goSlice at hg
  split_ifs at hg with hc
  injection hg with hg
  subst hg
  have e7 : (intAdd s.offset 7).toNat - s.offset.toNat = 7 := by
    have := hc.2.1
    have h2 := hc.2.2
    unfold intAdd wrapInt64 at this h2 ⊢
    omega
  rw [e7] at hp
  have hlen : 7 ≤ (b.drop s.offset.toNat).length := by
    rw [List.length_drop]
    have h2 := hc.2.2
    have h1 := hc.1
    unfold intAdd wrapInt64 at h2
    omega
  unfold RarHeader.Parse at hp ⊢
  rw [if_neg (by omega)]
  rw [if_neg (by simp only [List.length_take]; omega), List.take_take] at hp
  simpa using hp

theorem dispatch_subBlock (data : Bytes) (s s1 : WalkState) (h : RarHeader)
    (hty : h.HeadType = SrrRarSubBlockHead) (hd : dispatch data s h = .next s1) :
    ∃ name : Bytes, s1.rarHeap = s.rarHeap ++ [⟨name, 0, 0, false, false⟩] ∧
      s1.RarFiles = s.RarFiles ++ [s.rarHeap.length] ∧
      s1.currentRarFile = s.rarHeap.length := by
  unfold dispatch at hd
  simp +decide only [hty, if_false, if_true] at hd
  rw [Res.andThen_eq_next] at hd
  obtain ⟨blk, -, hd⟩ := hd
  injection hd with hd
  subst hd
  exact ⟨_, rfl, rfl, rfl⟩

theorem size_of_map_eq (heap : List RarFile) (t : List Int) (cur : Nat)
    (hcur : cur < heap.length)
    (h : heap.map (fun x => x.Size) = t.map wrapInt64) :
    (deref heap cur).Size = wrapInt64 (t.getD cur 0) := by
  have hl : t.length = heap.length := by
    have := congrArg List.length h
    simpa using this.symm
  have h2 := congrArg (fun l => l[cur]?) h
  simp only [List.getElem?_map] at h2
  unfold deref
  rw [List.getD_eq_getElem?_getD, List.getD_eq_getElem?_getD]
  rw [List.getElem?_eq_getElem hcur] at h2 ⊢
  rw [List.getElem?_eq_getElem (by omega)] at h2 ⊢
  simpa using h2

theorem range_map_deref (l : List RarFile) :
    (List.range' 1 (l.length - 1)).map (deref l) = l.tail := by
  cases l with
  | nil => rfl
  | cons x xs =>
    apply List.ext_getElem
    · simp
    · intro i h1 h2
      simp [deref, List.getD_eq_getElem?_getD, List.getElem_range']
      have hi : i < xs.length := by simpa using h2
      rw [Nat.add_comm, List.getElem?_cons_succ, List.getElem?_eq_getElem hi]
      rfl

/-- Along the loop: the sizes of the RAR file objects are the sums of what the blocks
add, as 64-bit `int`s; the current RAR file is the last object; `RarFiles` has every
object but the first, in order. -/
theorem tally_inv (amt : WalkState → WalkState → RarHeader → Bytes → Int)
    (hamt : ∀ s s1 h data, dispatch data s h = .next s1 → h.HeadType ≠ SrrRarSubBlockHead →
      RarHeader.Parse data = .ok h →
      ∀ a, wrapInt64 (a + amt s s1 h data) = wrapInt64 (a + claimedBlockSize h data))
    (b : Bytes) (f0 : SrrFile) (n : Nat) (s : WalkState) (hs : stateAt b f0 n = some s) :
    s.rarHeap.map (fun x => x.Size) = (tallySizes amt b f0 n).map wrapInt64 ∧
    s.currentRarFile + 1 = s.rarHeap.length ∧
    s.RarFiles = List.range' 1 (s.rarHeap.length - 1) := by
  induction n generalizing s with
  | zero =>
    simp [stateAt, stateFrom] at hs
    subst hs
    have w0 : wrapInt64 0 = 0 := by decide
    refine ⟨?_, rfl, rfl⟩
    show List.map (fun x : RarFile => x.Size) [default] = List.map wrapInt64 [0]
    simp only [List.map, w0]
    rfl
  | succ n ih =>
    have hs1 := hs
    unfold stateAt at hs
    rw [stateFrom] at hs
    cases hk : stateFrom b (WalkState.init f0) n with
    | none => simp [hk] at hs
    | some s0 =>
      rw [hk] at hs
      simp only [Option.some_bind] at hs
      have hk1 : stateAt b f0 n = some s0 := hk
      obtain ⟨i1, i2, i3⟩ := ih s0 hk1
      obtain ⟨h, hh, hd⟩ := headerAt_of_advance b s0 s hs
      have ht : tallySizes amt b f0 (n + 1) =
          if h.HeadType = SrrRarSubBlockHead then tallySizes amt b f0 n ++ [0]
          else addToLast (tallySizes amt b f0 n) (amt s0 s h (b.drop s0.offset.toNat)) := by
        rw [tallySizes, hk1, hs1]
        simp only [hh]
      have hl : (tallySizes amt b f0 n).length = s0.rarHeap.length := by
        have := congrArg List.length i1
        simpa using this.symm
      by_cases hty : h.HeadType = SrrRarSubBlockHead
      · rw [ht, if_pos hty]
        obtain ⟨name, e1, e2, e3⟩ := dispatch_subBlock _ s0 s h hty hd
        rw [e1, e2, e3]
        refine ⟨?_, ?_, ?_⟩
        · rw [List.map_append, List.map_append, i1]
          rfl
        · simp
        · rw [i3]
          simp only [List.length_append, List.length_singleton, Nat.add_sub_cancel]
          have hpos : s0.rarHeap.length = (s0.rarHeap.length - 1) + 1 := by omega
          conv_rhs => rw [hpos, List.range'_concat]
          congr 2
          omega
      · rw [ht, if_neg hty]
        have hcur : s0.currentRarFile < s0.rarHeap.length := by omega
        have ha := size_of_map_eq s0.rarHeap _ s0.currentRarFile hcur i1
        obtain ⟨c1, c2, c3, c4⟩ := dispatch_sizes _ s0 s h hd hty
          (header_parse_drop b s0 h hh) _ ha hcur
        refine ⟨?_, ?_, ?_⟩
        · rw [c4, i1, ← hamt s0 s h _ hd hty (header_parse_drop b s0 h hh)]
          unfold addToLast
          rw [List.map_set]
          have e : (tallySizes amt b f0 n).length - 1 = s0.currentRarFile := by omega
          rw [e]
        · rw [c1, c3]
          exact i2
        · rw [c2, c3]
          exact i3

/-! ## Claim C25 -/

theorem store_crc_size (heap : List RarFile) (q c q1 : Nat) :
    (deref (store heap q { deref heap q with CRC := c }) q1).Size = (deref heap q1).Size := by
  rw [deref_store]
  split_ifs with h
  · rw [h.1]
  · rfl

theorem correlateOne_size (R : Runtime) (k : Bytes) (c : Nat) (ps : List Nat)
    (heap : List RarFile) (q : Nat) :
    (deref (correlateOne R k c ps heap) q).Size = (deref heap q).Size := by
  induction ps generalizing heap with
  | nil => rfl
  | cons p ps ih =>
    rw [correlateOne]
    simp only
    split_ifs with h1 h2
    · exact store_crc_size heap p c q
    · exact (ih (store heap p { deref heap p with CRC := c })).trans (store_crc_size heap p c q)
    · exact ih heap

theorem correlate_size (R : Runtime) (entries : List (Bytes × Nat)) (ps : List Nat)
    (heap : List RarFile) (q : Nat) :
    (deref (correlate R entries ps heap) q).Size = (deref heap q).Size := by
  induction entries generalizing heap with
  | nil => rfl
  | cons e es ih =>
    unfold correlate at ih ⊢
    rw [List.foldl_cons]
    exact (ih (correlateOne R e.1 e.2 ps heap)).trans (correlateOne_size R e.1 e.2 ps heap q)

theorem addToLast_length (l : List Int) (x : Int) : (addToLast l x).length = l.length := by
  simp [addToLast]

theorem subBlockTurns_succ (b : Bytes) (f0 : SrrFile) (n : Nat) (s : WalkState)
    (h : RarHeader) (hs : stateAt b f0 n = some s) (hh : headerAt b s = some h) :
    subBlockTurns b f0 (n + 1) =
      subBlockTurns b f0 n + if h.HeadType = SrrRarSubBlockHead then 1 else 0 := by
  unfold subBlockTurns
  rw [List.range_succ, List.filter_append, List.length_append]
  congr 1
  simp only [List.filter_cons, List.filter_nil, hs, Option.some_bind, hh]
  by_cases hty : h.HeadType = SrrRarSubBlockHead
  · simp [hty]
  · simp [hty]

/-- There is one sum for the blocks before the first sub-block head and one for every
sub-block head. -/
theorem tally_length (amt : WalkState → WalkState → RarHeader → Bytes → Int) (b : Bytes)
    (f0 : SrrFile) (n : Nat) (s : WalkState) (hs : stateAt b f0 n = some s) :
    (tallySizes amt b f0 n).length = 1 + subBlockTurns b f0 n := by
  induction n generalizing s with
  | zero => rfl
  | succ n ih =>
    have hs1 := hs
    unfold stateAt at hs
    rw [stateFrom] at hs
    cases hk : stateFrom b (WalkState.init f0) n with
    | none => simp [hk] at hs
    | some s0 =>
      rw [hk] at hs
      simp only [Option.some_bind] at hs
      have hk1 : stateAt b f0 n = some s0 := hk
      obtain ⟨h, hh, hd⟩ := headerAt_of_advance b s0 s hs
      rw [tallySizes, hk1, hs1, subBlockTurns_succ b f0 n s0 h hk1 hh]
      simp only [hh]
      by_cases hty : h.HeadType = SrrRarSubBlockHead
      · rw [if_pos hty, if_pos hty, List.length_append, ih s0 hk1]
        simp
        omega
      · rw [if_neg hty, if_neg hty, addToLast_length, ih s0 hk1]
        rfl

theorem map_wrap_id (l : List Int) (h : ∀ x ∈ l, -2 ^ 63 ≤ x ∧ x < 2 ^ 63) :
    l.map wrapInt64 = l := by
  induction l with
  | nil => rfl
  | cons x xs ih =>
    rw [List.map_cons, ih (fun y hy => h y (List.mem_cons_of_mem _ hy)),
      wrapInt64_eq_self x (h x (List.mem_cons_self _ _)).1 (h x (List.mem_cons_self _ _)).2]

/-- After a call that returns `nil`, whose block loop ends in turn `k`, `RarFiles` is a
rearrangement of the RAR files of the block loop, whose sizes are the sums of the amounts
`amt`, as 64-bit `int`s, when `amt` is the amount of the specification modulo `2^64`. -/
theorem returned_sizes (amt : WalkState → WalkState → RarHeader → Bytes → Int)
    (hamt : ∀ s s1 h data, dispatch data s h = .next s1 → h.HeadType ≠ SrrRarSubBlockHead →
      RarHeader.Parse data = .ok h →
      ∀ a, wrapInt64 (a + amt s s1 h data) = wrapInt64 (a + claimedBlockSize h data))
    (R : Runtime) (f0 f : SrrFile) (b : Bytes) (fuel : Nat)
    (hret : Unmarshal R f0 b fuel = some (.returned f none)) :
    ∃ k s L1, k < fuel ∧ stateAt b f0 k = some s ∧ advance b s = none ∧
      f.RarFiles.Perm L1 ∧
      L1.map (fun r => r.Path) = s.toFile.RarFiles.map (fun r => r.Path) ∧
      L1.map (fun r => r.Size) = (tallySizes amt b f0 k).tail.map wrapInt64 ∧
      ((∀ x ∈ (tallySizes amt b f0 k).tail, -2 ^ 63 ≤ x ∧ x < 2 ^ 63) →
        L1.map (fun r => r.Size) = (tallySizes amt b f0 k).tail) ∧
      f.RarFiles.length = subBlockTurns b f0 k := by
  obtain ⟨k, s, hk, hs, hc⟩ := Unmarshal_cases R f0 f b fuel none hret
  obtain ⟨t1, t2, t3⟩ := tally_inv amt hamt b f0 k s hs
  have hsz : s.toFile.RarFiles.map (fun r => r.Size) =
      (tallySizes amt b f0 k).tail.map wrapInt64 := by
    simp only [WalkState.toFile]
    rw [t3, range_map_deref]
    rw [List.map_tail, List.map_tail, t1]
  have hlen : s.RarFiles.length = subBlockTurns b f0 k := by
    have h1 := tally_length amt b f0 k s hs
    have h2 := congrArg List.length t1
    simp only [List.length_map] at h2
    rw [t3, List.length_range']
    omega
  have fin : ∀ L1 : List RarFile, f.RarFiles.Perm L1 →
      L1.map (fun r => r.Path) = s.toFile.RarFiles.map (fun r => r.Path) →
      L1.map (fun r => r.Size) = s.toFile.RarFiles.map (fun r => r.Size) →
      advance b s = none →
      ∃ k s L1, k < fuel ∧ stateAt b f0 k = some s ∧ advance b s = none ∧
        f.RarFiles.Perm L1 ∧
        L1.map (fun r => r.Path) = s.toFile.RarFiles.map (fun r => r.Path) ∧
        L1.map (fun r => r.Size) = (tallySizes amt b f0 k).tail.map wrapInt64 ∧
        ((∀ x ∈ (tallySizes amt b f0 k).tail, -2 ^ 63 ≤ x ∧ x < 2 ^ 63) →
          L1.map (fun r => r.Size) = (tallySizes amt b f0 k).tail) ∧
        f.RarFiles.length = subBlockTurns b f0 k := by
    intro L1 hperm hpath hsize hadv
    refine ⟨k, s, L1, hk, hs, hadv, hperm, hpath, hsize.trans hsz, ?_, ?_⟩
    · intro hr
      rw [hsize, hsz, map_wrap_id _ hr]
    · rw [hperm.length_eq, ← hlen]
      have := congrArg List.length hpath
      simpa [WalkState.toFile] using this
  rcases hc with ⟨hlt, hstep, hf, -⟩ | ⟨-, e1, -, -, he⟩ | ⟨hlt, hfin⟩
  · subst hf
    exact fin _ (List.Perm.refl _) rfl rfl (by simp [advance, hlt, hstep])
  · cases he
  · have hadv : advance b s = none := by simp [advance, hlt]
    unfold finish at hfin
    split at hfin
    · injection hfin with h1 h2
      cases h2
    · rename_i st hst
      injection hfin with h1 h2
      subst h1
      refine fin (s.RarFiles.map
        (deref (correlate R (R.mapOrder st.table) s.RarFiles s.rarHeap))) ?_ ?_ ?_ hadv
      · exact (sortSlice_perm _ _).map _
      · simp only [WalkState.toFile, List.map_map]
        apply List.map_congr_left
        intro p _
        exact (correlate_frame R _ _ _).2 p
      · simp only [WalkState.toFile, List.map_map]
        apply List.map_congr_left
        intro p _
        exact correlate_size R _ _ _ p

/-- C25 (the claim as stated fails): the sizes are 64-bit `int`s. A sub-block head and a
file head of 41 bytes with `LHD_LARGE` and pack size `2^63`: the sum of the claim is
`41 + 2^63`, the size of the entry is `41 - 2^63`. -/
theorem rar_size_wraps :
    claimedSizes largeVolumeInput SrrFile.empty 2 = [41 + 2 ^ 63] ∧
    Unmarshal asciiRuntime SrrFile.empty largeVolumeInput 3 =
      some (.returned
        { SrrFile.empty with
          RarFiles := [⟨[97], 41 - 2 ^ 63, 0, false, false⟩],
          PackedFiles := [⟨[120], 2 ^ 63, 1⟩] } none) := by
  decide

/-- C25 (amended): after a call that returns `nil`, whose block loop ends in turn `k`,
`RarFiles` is a rearrangement of the RAR files of the block loop, and the sizes of these
are, as 64-bit `int`s, the sums of the specification: for each sub-block head, the sum
over the blocks decoded after it and before the next sub-block head (or the end of the
loop) of what `claimedBlockSize` says. They are these sums themselves when the sums are
in the range of `int`. The blocks before the first sub-block head add to no entry, and
there are as many entries as sub-block heads decoded. -/
theorem rar_sizes_claimed (R : Runtime) (f0 f : SrrFile) (b : Bytes) (fuel : Nat)
    (hret : Unmarshal R f0 b fuel = some (.returned f none)) :
    ∃ k s L1, k < fuel ∧ stateAt b f0 k = some s ∧ advance b s = none ∧
      f.RarFiles.Perm L1 ∧
      L1.map (fun r => r.Path) = s.toFile.RarFiles.map (fun r => r.Path) ∧
      L1.map (fun r => r.Size) = (claimedSizes b f0 k).map wrapInt64 ∧
      ((∀ x ∈ claimedSizes b f0 k, -2 ^ 63 ≤ x ∧ x < 2 ^ 63) →
        L1.map (fun r => r.Size) = claimedSizes b f0 k) ∧
      f.RarFiles.length = subBlockTurns b f0 k :=
  returned_sizes (fun _ _ h data => claimedBlockSize h data) (fun _ _ _ _ _ _ _ _ => rfl)
    R f0 f b fuel hret

/-- The single-volume scenario: the entry of `cd1.rar` has the size `7 + 13 +
(41 + 1048576) + 7`. -/
theorem rar_sizes_claimed_witness :
    ∃ k s L1, k < 6 ∧ stateAt singleVolumeInput SrrFile.empty k = some s ∧
      advance singleVolumeInput s = none ∧
      singleVolumeFile.RarFiles.Perm L1 ∧
      L1.map (fun r => r.Path) = s.toFile.RarFiles.map (fun r => r.Path) ∧
      L1.map (fun r => r.Size) = (claimedSizes singleVolumeInput SrrFile.empty k).map wrapInt64 ∧
      ((∀ x ∈ claimedSizes singleVolumeInput SrrFile.empty k, -2 ^ 63 ≤ x ∧ x < 2 ^ 63) →
        L1.map (fun r => r.Size) = claimedSizes singleVolumeInput SrrFile.empty k) ∧
      singleVolumeFile.RarFiles.length = subBlockTurns singleVolumeInput SrrFile.empty k :=
  rar_sizes_claimed asciiRuntime SrrFile.empty singleVolumeFile singleVolumeInput 6 (by decide)

/-! ## Claim C23 -/

/-- For every turn that goes on, the bytes that the block stands for are, modulo `2^64`,
the amount that the specification gives for its type. -/
theorem rarBytes_claimed (data : Bytes) (s s1 : WalkState) (h : RarHeader)
    (hd : dispatch data s h = .next s1) (a : Int) :
    wrapInt64 (a + rarBytes s s1 h data) = wrapInt64 (a + claimedBlockSize h data) := by
  unfold dispatch at hd
  by_cases h0 : h.HeadType = SrrVolHead
  · rw [if_pos h0] at hd
    rw [Res.andThen_eq_next] at hd
    obtain ⟨_, _, hd⟩ := hd
    have hc : claimedBlockSize h data = 0 := by
      unfold claimedBlockSize headerOnlyTypes
      simp +decide only [h0, if_false, if_true]
    have hr : rarBytes s s1 h data = 0 := by
      unfold rarBytes omittedPayload framingTypes
      simp +decide only [h0, if_false, if_true]
    rw [hc, hr]
  rw [if_neg h0] at hd
  by_cases h1 : h.HeadType = SrrStoredFileHead
  · rw [if_pos h1] at hd
    rw [Res.andThen_eq_next] at hd
    obtain ⟨_, _, hd⟩ := hd
    rw [Res.andThen_eq_next] at hd
    obtain ⟨_, _, hd⟩ := hd
    have hc : claimedBlockSize h data = 0 := by
      unfold claimedBlockSize headerOnlyTypes
      simp +decide only [h1, if_false, if_true]
    have hr : rarBytes s s1 h data = 0 := by
      unfold rarBytes omittedPayload framingTypes
      simp +decide only [h1, if_false, if_true]
    rw [hc, hr]
  rw [if_neg h1] at hd
  by_cases h2 : h.HeadType = OSOHashHead
  · rw [if_pos h2] at hd
    rw [Res.andThen_eq_next] at hd
    obtain ⟨_, _, hd⟩ := hd
    rw [Res.andThen_eq_next] at hd
    obtain ⟨_, _, hd⟩ := hd
    have hc : claimedBlockSize h data = 0 := by
      unfold claimedBlockSize headerOnlyTypes
      simp +decide only [h2, if_false, if_true]
    have hr : rarBytes s s1 h data = 0 := by
      unfold rarBytes omittedPayload framingTypes
      simp +decide only [h2, if_false, if_true]
    rw [hc, hr]
  rw [if_neg h2] at hd
  by_cases h3 : h.HeadType = SrrRarPadHead
  · rw [if_pos h3] at hd
    rw [Res.andThen_eq_next] at hd
    obtain ⟨blk, hp, hd⟩ := hd
    have hc : claimedBlockSize h data = (blk.PadSize : Int) := by
      unfold claimedBlockSize headerOnlyTypes
      simp +decide only [h3, if_false, if_true, hp]
    have hr : rarBytes s s1 h data = (blk.PadSize : Int) := by
      unfold rarBytes omittedPayload framingTypes
      simp +decide only [h3, if_false, if_true, hp]
    rw [hc, hr]
  rw [if_neg h3] at hd
  by_cases h4 : h.HeadType = SrrRarSubBlockHead
  · rw [if_pos h4] at hd
    rw [Res.andThen_eq_next] at hd
    obtain ⟨_, _, hd⟩ := hd
    have hc : claimedBlockSize h data = 0 := by
      unfold claimedBlockSize headerOnlyTypes
      simp +decide only [h4, if_false, if_true]
    have hr : rarBytes s s1 h data = 0 := by
      unfold rarBytes omittedPayload framingTypes
      simp +decide only [h4, if_false, if_true]
    rw [hc, hr]
  rw [if_neg h4] at hd
  by_cases h5 : h.HeadType = MarkHead
  · rw [if_pos h5] at hd
    rw [Res.andThen_eq_next] at hd
    obtain ⟨blk, hp, hd⟩ := hd
    split at hd
    · cases hd
    · injection hd with hd
      have ho : s1.offset = intAdd s.offset (h.Size : Int) := by
        rw [← hd]
      have hc : claimedBlockSize h data = (h.Size : Int) := by
        unfold claimedBlockSize headerOnlyTypes
        simp +decide only [h5, if_false, if_true]
      have hr : rarBytes s s1 h data = (s1.offset - s.offset) + 0 := by
        unfold rarBytes omittedPayload framingTypes
        simp +decide only [h5, if_false, if_true]
      rw [hc, hr, ho]
      unfold intAdd wrapInt64
      omega
  rw [if_neg h5] at hd
  by_cases h6 : h.HeadType = MainHead
  · rw [if_pos h6] at hd
    injection hd with hd
    have ho : s1.offset = intAdd s.offset (h.Size : Int) := by
      rw [← hd]
    have hc : claimedBlockSize h data = (h.Size : Int) := by
      unfold claimedBlockSize headerOnlyTypes
      simp +decide only [h6, if_false, if_true]
    have hr : rarBytes s s1 h data = (s1.offset - s.offset) + 0 := by
      unfold rarBytes omittedPayload framingTypes
      simp +decide only [h6, if_false, if_true]
    rw [hc, hr, ho]
    unfold intAdd wrapInt64
    omega
  rw [if_neg h6] at hd
  by_cases h7 : h.HeadType = FileHead
  · rw [if_pos h7] at hd
    rw [Res.andThen_eq_next] at hd
    obtain ⟨blk, hp, hd⟩ := hd
    unfold stepFileHead at hd
    rw [Res.andThen_eq_next] at hd
    obtain ⟨ps, -, hd⟩ := hd
    injection hd with hd
    have ho : s1.offset = intAdd s.offset (h.Size : Int) := by
      rw [← hd]
    have hc : claimedBlockSize h data = (h.Size : Int) + (specPackSize h.Flags blk.LowPackSize blk.HighPackSize : Nat) := by
      unfold claimedBlockSize headerOnlyTypes
      simp +decide only [h7, if_false, if_true, hp]
    have hr : rarBytes s s1 h data = (s1.offset - s.offset) + (specPackSize h.Flags blk.LowPackSize blk.HighPackSize : Nat) := by
      unfold rarBytes omittedPayload framingTypes
      simp +decide only [h7, if_false, if_true, hp]
    rw [hc, hr, ho]
    unfold intAdd wrapInt64
    omega
  rw [if_neg h7] at hd
  by_cases h8 : h.HeadType = CommHead
  · rw [if_pos h8] at hd
    unfold stepPassive at hd
    injection hd with hd
    have ho : s1.offset = intAdd s.offset (h.Size : Int) := by
      rw [← hd]
    have hc : claimedBlockSize h data = (h.Size : Int) := by
      unfold claimedBlockSize headerOnlyTypes
      simp +decide only [h8, if_false, if_true]
    have hr : rarBytes s s1 h data = (s1.offset - s.offset) + 0 := by
      unfold rarBytes omittedPayload framingTypes
      simp +decide only [h8, if_false, if_true]
    rw [hc, hr, ho]
    unfold intAdd wrapInt64
    omega
  rw [if_neg h8] at hd
  by_cases h9 : h.HeadType = AvHead
  · rw [if_pos h9] at hd
    unfold stepPassive at hd
    injection hd with hd
    have ho : s1.offset = intAdd s.offset (h.Size : Int) := by
      rw [← hd]
    have hc : claimedBlockSize h data = (h.Size : Int) := by
      unfold claimedBlockSize headerOnlyTypes
      simp +decide only [h9, if_false, if_true]
    have hr : rarBytes s s1 h data = (s1.offset - s.offset) + 0 := by
      unfold rarBytes omittedPayload framingTypes
      simp +decide only [h9, if_false, if_true]
    rw [hc, hr, ho]
    unfold intAdd wrapInt64
    omega
  rw [if_neg h9] at hd
  by_cases h10 : h.HeadType = SubHead
  · rw [if_pos h10] at hd
    unfold stepPassive at hd
    injection hd with hd
    have ho : s1.offset = intAdd s.offset (h.Size : Int) := by
      rw [← hd]
    have hc : claimedBlockSize h data = (h.Size : Int) := by
      unfold claimedBlockSize headerOnlyTypes
      simp +decide only [h10, if_false, if_true]
    have hr : rarBytes s s1 h data = (s1.offset - s.offset) + 0 := by
      unfold rarBytes omittedPayload framingTypes
      simp +decide only [h10, if_false, if_true]
    rw [hc, hr, ho]
    unfold intAdd wrapInt64
    omega
  rw [if_neg h10] at hd
  by_cases h11 : h.HeadType = ProtectHead
  · rw [if_pos h11] at hd
    rw [Res.andThen_eq_next] at hd
    obtain ⟨blk, hp, hd⟩ := hd
    injection hd with hd
    have ho : s1.offset = intAdd s.offset (h.Size : Int) := by
      rw [← hd]
    have hc : claimedBlockSize h data = (h.Size : Int) + (blk.PackedSize : Int) := by
      unfold claimedBlockSize headerOnlyTypes
      simp +decide only [h11, if_false, if_true, hp]
    have hr : rarBytes s s1 h data = (s1.offset - s.offset) + (blk.PackedSize : Int) := by
      unfold rarBytes omittedPayload framingTypes
      simp +decide only [h11, if_false, if_true, hp]
    rw [hc, hr, ho]
    unfold intAdd wrapInt64
    omega
  rw [if_neg h11] at hd
  by_cases h12 : h.HeadType = SignHead
  · rw [if_pos h12] at hd
    unfold stepPassive at hd
    injection hd with hd
    have ho : s1.offset = intAdd s.offset (h.Size : Int) := by
      rw [← hd]
    have hc : claimedBlockSize h data = (h.Size : Int) := by
      unfold claimedBlockSize headerOnlyTypes
      simp +decide only [h12, if_false, if_true]
    have hr : rarBytes s s1 h data = (s1.offset - s.offset) + 0 := by
      unfold rarBytes omittedPayload framingTypes
      simp +decide only [h12, if_false, if_true]
    rw [hc, hr, ho]
    unfold intAdd wrapInt64
    omega
  rw [if_neg h12] at hd
  by_cases h13 : h.HeadType = NewSubHead
  · rw [if_pos h13] at hd
    rw [Res.andThen_eq_next] at hd
    obtain ⟨blk, hp, hd⟩ := hd
    injection hd with hd
    obtain ⟨e1, l1, -⟩ := newSub_parse_ok h data blk hp
    have hc : claimedBlockSize h data = (h.Size : Int) + (specPackSize h.Flags blk.LowPackSize blk.HighPackSize : Nat) := by
      unfold claimedBlockSize headerOnlyTypes
      simp +decide only [h13, if_false, if_true, hp]
    have hw := newSub_wrap_getPackSize blk 0 l1
    rw [e1] at hw
    by_cases hn : blk.GetFileName = [0x52, 0x52]
    · have ho : s1.offset = intAdd s.offset (h.Size : Int) := by
        rw [← hd]
        simp only [hn, if_true]
      have hr : rarBytes s s1 h data = (s1.offset - s.offset) + (specPackSize h.Flags blk.LowPackSize blk.HighPackSize : Nat) := by
        unfold rarBytes omittedPayload framingTypes
        simp +decide only [h13, if_false, if_true, hp, hn]
      rw [hc, hr, ho]
      unfold intAdd wrapInt64
      omega
    · have ho : s1.offset = intAdd s.offset (intAdd (h.Size : Int) blk.GetPackSize) := by
        rw [← hd]
        simp only [hn, if_false]
      have hr : rarBytes s s1 h data = (s1.offset - s.offset) + 0 := by
        unfold rarBytes omittedPayload framingTypes
        simp +decide only [h13, if_false, if_true, hp, hn]
      rw [hc, hr, ho]
      unfold intAdd wrapInt64 at *
      omega
  rw [if_neg h13] at hd
  by_cases h14 : h.HeadType = EndArcHead
  · rw [if_pos h14] at hd
    unfold stepPassive at hd
    injection hd with hd
    have ho : s1.offset = intAdd s.offset (h.Size : Int) := by
      rw [← hd]
    have hc : claimedBlockSize h data = (h.Size : Int) := by
      unfold claimedBlockSize headerOnlyTypes
      simp +decide only [h14, if_false, if_true]
    have hr : rarBytes s s1 h data = (s1.offset - s.offset) + 0 := by
      unfold rarBytes omittedPayload framingTypes
      simp +decide only [h14, if_false, if_true]
    rw [hc, hr, ho]
    unfold intAdd wrapInt64
    omega
  rw [if_neg h14] at hd
  by_cases h15 : h.HeadType = EmptyHead
  · rw [if_pos h15] at hd
    unfold stepPassive at hd
    injection hd with hd
    have ho : s1.offset = intAdd s.offset (h.Size : Int) := by
      rw [← hd]
    have hc : claimedBlockSize h data = (h.Size : Int) := by
      unfold claimedBlockSize headerOnlyTypes
      simp +decide only [h15, if_false, if_true]
    have hr : rarBytes s s1 h data = (s1.offset - s.offset) + 0 := by
      unfold rarBytes omittedPayload framingTypes
      simp +decide only [h15, if_false, if_true]
    rw [hc, hr, ho]
    unfold intAdd wrapInt64
    omega
  rw [if_neg h15] at hd
  cases hd

/-- C23 (the claim as stated fails): in the single-volume scenario the blocks after the
sub-block head of `cd1.rar` occupy the 68 bytes from offset 16 to the end of the input,
and the size of the entry is `1048644 = 68 + 1048576`: the file head adds its header size
and its pack size, though the packed data is not in the SRR. -/
theorem rar_size_counts_payload :
    singleVolumeInput.length = 84 ∧
    (stateAt singleVolumeInput SrrFile.empty 1).map (fun s => s.offset) = some 16 ∧
    (stateAt singleVolumeInput SrrFile.empty 5).map (fun s => s.offset) = some 84 ∧
    Unmarshal asciiRuntime SrrFile.empty singleVolumeInput 6 =
      some (.returned singleVolumeFile none) ∧
    singleVolumeFile.RarFiles.map (fun r => r.Size) = [68 + 1048576] := by
  decide

/-- C23 (amended): after a call that returns `nil`, whose block loop ends in turn `k`,
`RarFiles` is a rearrangement of the RAR files of the block loop, and the size of each is,
as a 64-bit `int`, the sum over the blocks decoded after its sub-block head and before the
next sub-block head (or the end of the loop) of: for a block of the RAR framing, the
number of SRR input bytes that the block occupies and the size of its payload that the
SRR leaves out (the effective pack size of a file head and of a new-sub block named `RR`,
the packed size of a protect block); for a pad block, its pad size. It is this sum itself
when the sum is in the range of `int`. -/
theorem rar_sizes_occupied (R : Runtime) (f0 f : SrrFile) (b : Bytes) (fuel : Nat)
    (hret : Unmarshal R f0 b fuel = some (.returned f none)) :
    ∃ k s L1, k < fuel ∧ stateAt b f0 k = some s ∧ advance b s = none ∧
      f.RarFiles.Perm L1 ∧
      L1.map (fun r => r.Path) = s.toFile.RarFiles.map (fun r => r.Path) ∧
      L1.map (fun r => r.Size) = (occupiedSizes b f0 k).map wrapInt64 ∧
      ((∀ x ∈ occupiedSizes b f0 k, -2 ^ 63 ≤ x ∧ x < 2 ^ 63) →
        L1.map (fun r => r.Size) = occupiedSizes b f0 k) :=
  have h := returned_sizes rarBytes
    (fun s s1 h data hd _ _ a => rarBytes_claimed data s s1 h hd a) R f0 f b fuel hret
  h.imp fun k hk => hk.imp fun s hs => hs.imp fun L1 h1 =>
    ⟨h1.1, h1.2.1, h1.2.2.1, h1.2.2.2.1, h1.2.2.2.2.1, h1.2.2.2.2.2.1, h1.2.2.2.2.2.2.1⟩

/-- The single-volume scenario: the blocks after the sub-block head occupy 68 bytes of
the SRR, the file head leaves out 1048576 bytes of payload, and the size of the entry is
their sum. -/
theorem rar_sizes_occupied_witness :
    occupiedSizes singleVolumeInput SrrFile.empty 5 = [68 + 1048576] ∧
    ∃ k s L1, k < 6 ∧ stateAt singleVolumeInput SrrFile.empty k = some s ∧
      advance singleVolumeInput s = none ∧
      singleVolumeFile.RarFiles.Perm L1 ∧
      L1.map (fun r => r.Path) = s.toFile.RarFiles.map (fun r => r.Path) ∧
      L1.map (fun r => r.Size) =
        (occupiedSizes singleVolumeInput SrrFile.empty k).map wrapInt64 ∧
      ((∀ x ∈ occupiedSizes singleVolumeInput SrrFile.empty k, -2 ^ 63 ≤ x ∧ x < 2 ^ 63) →
        L1.map (fun r => r.Size) = occupiedSizes singleVolumeInput SrrFile.empty k) :=
  ⟨by decide,
   rar_sizes_occupied asciiRuntime SrrFile.empty singleVolumeFile singleVolumeInput 6
     (by decide)⟩

end Rescene
